import Mathlib

/-!
# Simple-Raytracer: a shallow embedding of the intersection and shading code

The offline path tracer (`src/main.cc`) and the real-time variant
(`src/code/raytracer.cc`, `src/code/vector.hh`) are embedded as Lean functions.

* `r64` / `r32` values are idealised as elements of a linear ordered field `F`
  (rounding is not modelled).  Every definition is computable for a computable
  field such as `ℚ`; the theorems are stated for every such field and are
  instantiated at `ℝ` with `Real.sqrt`.
* The C library `sqrt` is a parameter `sqrt : F → F`; `SqrtSpec sqrt` states the
  contract the theorems rely on.
* `rand()` is modelled by an explicit generator state `rng_t`.
* Unbounded `while` loops take a `fuel` bound and return `none` when it runs out.
* The implicit `r64` to `u8` conversion of `color_to_pixel` needs the integer part of a
  value, so the pixel functions ask for a `FloorRing` structure on `F`.
* The work queue of the real-time renderer is a state on which `get_next_work` acts; with
  several workers each call is two steps (the unlocked comparison, then the locked section)
  and a schedule lists the worker that takes each step.
-/

namespace Raytracer

/-! ## Offline renderer: `src/main.cc` -/

/-- Contract of the C library `sqrt` on non-negative arguments. -/
def SqrtSpec {F : Type} [LinearOrderedField F] (sqrt : F → F) : Prop :=
  ∀ x : F, 0 ≤ x → 0 ≤ sqrt x ∧ sqrt x * sqrt x = x

/-- The constant `INF_POS = DBL_MAX`, the largest finite double. -/
def INF_POS {F : Type} [LinearOrderedField F] : F := (2 ^ 53 - 1) * 2 ^ 971

/-- The constant `INF_NEG = -DBL_MAX`. -/
def INF_NEG {F : Type} [LinearOrderedField F] : F := -((2 ^ 53 - 1) * 2 ^ 971)

/-- The template `clamp(min, max, value)`. -/
def clamp {F : Type} [LinearOrderedField F] (min max value : F) : F :=
  if value > max then max else if value < min then min else value

/-- The template `inrange(min, max, value)`: strictly inside the interval. -/
def inrange {F : Type} [LinearOrderedField F] (min max value : F) : Bool :=
  decide (value > min) && decide (value < max)

/-- The template `abs(x)` of `src/main.cc`. -/
def abs {F : Type} [LinearOrderedField F] (x : F) : F :=
  if x < 0 then -x else x

/-- The struct `vec3`: three `r64` components. -/
@[ext]
structure vec3 (F : Type) where
  x : F
  y : F
  z : F

/-- The alias `color3`. -/
abbrev color3 (F : Type) := vec3 F

/-- The alias `point3`. -/
abbrev point3 (F : Type) := vec3 F

section VectorMath

variable {F : Type} [LinearOrderedField F]

/-- The function `near_zero`, with `epsilon = 10e-5`. -/
def near_zero (a : vec3 F) : Bool :=
  let epsilon : F := 10e-5
  decide (abs a.x < epsilon) && decide (abs a.y < epsilon) && decide (abs a.z < epsilon)

/-- Unary `operator -`. -/
def vec3.neg (a : vec3 F) : vec3 F := ⟨-a.x, -a.y, -a.z⟩

/-- Binary `operator -`. -/
def vec3.sub (a b : vec3 F) : vec3 F := ⟨a.x - b.x, a.y - b.y, a.z - b.z⟩

/-- Binary `operator +`. -/
def vec3.add (a b : vec3 F) : vec3 F := ⟨a.x + b.x, a.y + b.y, a.z + b.z⟩

/-- The overload `operator * (const vec3 & a, r64 scale)`. -/
def vec3.muls (a : vec3 F) (scale : F) : vec3 F := ⟨a.x * scale, a.y * scale, a.z * scale⟩

/-- The overload `operator * (const vec3 & b, const vec3 & a)`: component-wise product. -/
def vec3.mul (b a : vec3 F) : vec3 F := ⟨a.x * b.x, a.y * b.y, a.z * b.z⟩

/-- The overload `operator * (const r64 & scale, vec3 a)`. -/
def vec3.smul (scale : F) (a : vec3 F) : vec3 F := ⟨a.x * scale, a.y * scale, a.z * scale⟩

/-- The overload `operator / (const vec3 & a, r64 scale)`. -/
def vec3.divs (a : vec3 F) (scale : F) : vec3 F := ⟨a.x / scale, a.y / scale, a.z / scale⟩

instance : Neg (vec3 F) := ⟨vec3.neg⟩
instance : Sub (vec3 F) := ⟨vec3.sub⟩
instance : Add (vec3 F) := ⟨vec3.add⟩
instance : Mul (vec3 F) := ⟨vec3.mul⟩

/-- The function `cross`. -/
def cross (a b : vec3 F) : vec3 F :=
  ⟨a.y * b.z - a.z * b.y, a.z * b.x - a.x * b.z, a.x * b.y - a.y * b.x⟩

/-- The function `lengthsq`. -/
def lengthsq (v : vec3 F) : F := v.x * v.x + v.y * v.y + v.z * v.z

/-- The function `length`. -/
def length (sqrt : F → F) (v : vec3 F) : F := sqrt (v.x * v.x + v.y * v.y + v.z * v.z)

/-- The function `normalize`: the zero vector when the length is zero. -/
def normalize (sqrt : F → F) (val : vec3 F) : vec3 F :=
  if length sqrt val = 0 then ⟨0, 0, 0⟩ else val.divs (length sqrt val)

/-- The function `dot`. -/
def dot (a b : vec3 F) : F := a.x * b.x + a.y * b.y + a.z * b.z

end VectorMath

/-- The struct `ray_t`. -/
structure ray_t (F : Type) where
  point : point3 F
  dir : vec3 F

/-- The tagged union `material_t`: the tag `material_type` selects the union member that
is read, so each tag carries the fields of its member. -/
inductive material_t (F : Type) where
  | Lambertian (albedo : color3 F)
  | Metallic (albedo : color3 F) (fuzziness : F)
  | Dielectric (albedo : color3 F) (refractive : F)

/-- The struct `sphere_t`. -/
structure sphere_t (F : Type) where
  center : vec3 F
  mat : material_t F
  radius : F

/-- The tagged union `entity_t`: only the tag `Sphere` has a union member. -/
inductive entity_t (F : Type) where
  | Sphere (sphere : sphere_t F)
  | Cube

/-- The struct `hit_t`. -/
structure hit_t (F : Type) where
  point : point3 F
  normal : vec3 F
  delta : F
  mat : material_t F
  front_face : Bool

section Intersection

variable {F : Type} [LinearOrderedField F]

/-- The function `at`: the point of the ray at parameter `delta`. -/
def ray_t.at_ (ray : ray_t F) (delta : F) : point3 F :=
  ray.point + ray.dir.muls delta

/-- The function `create_hit_info_for_sphere`. -/
def create_hit_info_for_sphere (r : ray_t F) (t : F) (sphere : sphere_t F) : hit_t F :=
  let outward_normal : vec3 F := (r.at_ t - sphere.center).divs sphere.radius
  let front_face : Bool := decide (dot r.dir outward_normal ≤ 0)
  { delta := t
    point := r.at_ t
    front_face := front_face
    normal := if front_face then outward_normal else -outward_normal
    mat := sphere.mat }

/-- The overload `operator / (const vec3 & a, r64 scale)` with the division made explicit:
a division by `0.0` has no value in the field (in `r64` arithmetic the components become
infinities or NaN), which `none` records. -/
def vec3.divs_checked (a : vec3 F) (scale : F) : Option (vec3 F) :=
  if scale = 0 then none else some (a.divs scale)

/-- The function `create_hit_info_for_sphere` with the division
`(at(r, t) - sphere.center) / sphere.radius` checked: `none` when the divisor is `0.0` and
the outward normal has no value in the field. -/
def create_hit_info_for_sphere_checked (r : ray_t F) (t : F) (sphere : sphere_t F) :
    Option (hit_t F) :=
  match (r.at_ t - sphere.center).divs_checked sphere.radius with
  | none => none
  | some outward_normal =>
    let front_face : Bool := decide (dot r.dir outward_normal ≤ 0)
    some
      { delta := t
        point := r.at_ t
        front_face := front_face
        normal := if front_face then outward_normal else -outward_normal
        mat := sphere.mat }

/-- The function `sphere_hit`: `some hit` when the C function returns `true` after writing
`*hit`, `none` when it returns `false`. -/
def sphere_hit (sqrt : F → F) (r : ray_t F) (tmin tmax : F) (sphere : sphere_t F) :
    Option (hit_t F) :=
  let oc : vec3 F := sphere.center - r.point
  let a := dot r.dir r.dir
  let h := dot r.dir oc
  let c := dot oc oc - sphere.radius * sphere.radius
  let discriminant := h * h - a * c
  if discriminant < 0 then none
  else
    let dsqrt := sqrt discriminant
    let _t1 := (h + dsqrt) / a
    let t2 := (h - dsqrt) / a
    if inrange tmin tmax t2 then some (create_hit_info_for_sphere r t2 sphere)
    else none

/-- The discriminant `h*h - a*c` computed by `sphere_hit`. -/
def sphere_discriminant (r : ray_t F) (sphere : sphere_t F) : F :=
  let oc : vec3 F := sphere.center - r.point
  let a := dot r.dir r.dir
  let h := dot r.dir oc
  let c := dot oc oc - sphere.radius * sphere.radius
  h * h - a * c

/-- The smaller root `t2 = (h - dsqrt) / a` computed by `sphere_hit`. -/
def sphere_root_small (sqrt : F → F) (r : ray_t F) (sphere : sphere_t F) : F :=
  (dot r.dir (sphere.center - r.point) - sqrt (sphere_discriminant r sphere)) / dot r.dir r.dir

/-- The larger root `t1 = (h + dsqrt) / a` computed by `sphere_hit`. -/
def sphere_root_large (sqrt : F → F) (r : ray_t F) (sphere : sphere_t F) : F :=
  (dot r.dir (sphere.center - r.point) + sqrt (sphere_discriminant r sphere)) / dot r.dir r.dir

end Intersection

/-! ### Random sampling -/

/-- State of the process-wide generator behind the C library `rand()`: the sequence of raw
values it will produce and the number of values already consumed. -/
structure rng_t where
  seq : Nat → Nat
  pos : Nat

/-- The C library `rand()`: the next value, in `0 .. RAND_MAX`, and the advanced state.
`RAND_MAX` comes from `<stdlib.h>` and is a parameter. -/
def rand (RAND_MAX : Nat) (g : rng_t) : Nat × rng_t :=
  (g.seq g.pos % (RAND_MAX + 1), { seq := g.seq, pos := g.pos + 1 })

section Sampling

variable {F : Type} [LinearOrderedField F]

/-- The function `random_double()`. -/
def random_double (RAND_MAX : Nat) (g : rng_t) : F × rng_t :=
  let (v, g1) := rand RAND_MAX g
  ((v : F) / ((RAND_MAX : F) + 1.0), g1)

/-- The overload `random_double(min, max)`. -/
def random_double_range (RAND_MAX : Nat) (min max : F) (g : rng_t) : F × rng_t :=
  let (v, g1) := random_double RAND_MAX g
  (min + (max - min) * v, g1)

/-- The function `random_unit_vector`: rejection sampling, at most `fuel` rounds of the
`while (true)` loop.  The three `rand()` calls are taken in the order x, y, z. -/
def random_unit_vector (sqrt : F → F) (RAND_MAX : Nat) : Nat → rng_t → Option (vec3 F × rng_t)
  | 0, _ => none
  | fuel + 1, g =>
    let (r1, g1) := rand RAND_MAX g
    let (r2, g2) := rand RAND_MAX g1
    let (r3, g3) := rand RAND_MAX g2
    let p : vec3 F :=
      (⟨((r1 % 2000 : Nat) : F) / 1000.0, ((r2 % 2000 : Nat) : F) / 1000.0,
        ((r3 % 2000 : Nat) : F) / 1000.0⟩ : vec3 F) - ⟨1.0, 1.0, 1.0⟩
    let lsq := lengthsq p
    if lsq > 10e-60 ∧ lsq ≤ 1 then some (p.divs (sqrt lsq), g3)
    else random_unit_vector sqrt RAND_MAX fuel g3

/-- The function `reflect`. -/
def reflect (inc normal : vec3 F) : vec3 F :=
  inc - vec3.smul (2 * dot inc normal) normal

/-- The function `refract`. -/
def refract (sqrt : F → F) (normalized_inc normalized_normal : vec3 F) (n1overn2 : F) : vec3 F :=
  let dotp := dot (-normalized_inc) normalized_normal
  let cos_theta := if dotp > 1.0 then 1.0 else dotp
  let out_prep := vec3.smul n1overn2 (normalized_inc + vec3.smul cos_theta normalized_normal)
  let out_parallel := vec3.smul (-sqrt (abs (1.0 - lengthsq out_prep))) normalized_normal
  out_prep + out_parallel

end Sampling

/-! ### The path integrator `cast_ray` -/

section Integrator

variable {F : Type} [LinearOrderedField F]

/-- The zero-initialised record `hit_t minhit = {}`. -/
def hit_t.zero : hit_t F :=
  { point := ⟨0, 0, 0⟩, normal := ⟨0, 0, 0⟩, delta := 0,
    mat := material_t.Lambertian ⟨0, 0, 0⟩, front_face := false }

/-- One iteration of the nearest-hit loop of `cast_ray` on the loop state
`(hitted, minhit)`. -/
def cast_ray_loop_step (sqrt : F → F) (ray : ray_t F) (st : Bool × hit_t F) (e : entity_t F) :
    Bool × hit_t F :=
  match e with
  | entity_t.Sphere sphere =>
    match sphere_hit sqrt ray 0.001 INF_POS sphere with
    | some hit => if st.1 = false ∨ st.2.delta > hit.delta then (true, hit) else st
    | none => st
  | entity_t.Cube => st

/-- The hit an entity reports to the nearest-hit loop: the condition
`entities[idx].type == Sphere && sphere_hit(ray, 0.001, INF_POS, entities[idx].sphere, &hit)`. -/
def entity_hit (sqrt : F → F) (ray : ray_t F) (e : entity_t F) : Option (hit_t F) :=
  match e with
  | entity_t.Sphere sphere => sphere_hit sqrt ray 0.001 INF_POS sphere
  | entity_t.Cube => none

/-- The nearest-hit loop of `cast_ray` over the whole entity list, from
`hitted = false`, `minhit = {}`. -/
def cast_ray_loop (sqrt : F → F) (ray : ray_t F) (entities : List (entity_t F)) :
    Bool × hit_t F :=
  entities.foldl (cast_ray_loop_step sqrt ray) (false, hit_t.zero)

/-- Invariant of the nearest-hit loop after the entities `l` have been visited. -/
def LoopInv (sqrt : F → F) (ray : ray_t F) (l : List (entity_t F)) (st : Bool × hit_t F) :
    Prop :=
  (st.1 = true ↔ ∃ e h, e ∈ l ∧ entity_hit sqrt ray e = some h) ∧
  (st.1 = true →
    (∀ e h, e ∈ l → entity_hit sqrt ray e = some h → st.2.delta ≤ h.delta) ∧
    ∃ (i : Nat) (e : entity_t F), l[i]? = some e ∧ entity_hit sqrt ray e = some st.2 ∧
      ∀ (j : Nat) (e2 : entity_t F) (h2 : hit_t F), j < i → l[j]? = some e2 →
        entity_hit sqrt ray e2 = some h2 → st.2.delta < h2.delta) ∧
  (st.1 = false → st.2 = hit_t.zero)

/-- The material branch of `cast_ray` (the `if (hit.mat.type == ...)` chain): the
`attenuation`, the `newdirection` handed to the recursive call and the advanced generator
state; `none` when `random_unit_vector` runs out of `fuel`.  The initial
`attenuation = vec3(0.5, 0.5, 0.5)` is overwritten by each of the three tags. -/
def cast_ray_scatter (sqrt : F → F) (RAND_MAX fuel : Nat) (ray : ray_t F) (hit : hit_t F)
    (g : rng_t) : Option (color3 F × vec3 F × rng_t) :=
  match hit.mat with
  | material_t.Lambertian albedo =>
    match random_unit_vector sqrt RAND_MAX fuel g with
    | none => none
    | some (u, g1) =>
      let newdirection := u + hit.normal
      let newdirection := if near_zero newdirection then hit.normal else newdirection
      some (albedo, newdirection, g1)
  | material_t.Metallic albedo fuzziness =>
    let reflected := normalize sqrt (reflect ray.dir hit.normal)
    match random_unit_vector sqrt RAND_MAX fuel g with
    | none => none
    | some (u, g1) =>
      let newdirection := reflected + u.muls fuzziness
      let newdirection := if near_zero newdirection then reflected else newdirection
      some (albedo, newdirection, g1)
  | material_t.Dielectric _ refractive =>
    let attenuation : color3 F := ⟨1.0, 1.0, 1.0⟩
    let n1overn2 := if hit.front_face then 1.0 / refractive else refractive
    let unit_direction := normalize sqrt ray.dir
    let unit_normal := normalize sqrt hit.normal
    let d := dot (-unit_direction) unit_normal
    let cost := if d > 1.0 then 1.0 else d
    let sint := sqrt (1 - cost * cost)
    let r0 := (1 - n1overn2) / (1 + n1overn2)
    let r0 := r0 * r0
    let reflectance := r0 + (1 - r0) * (1 - cost) ^ 5
    if n1overn2 * sint > 1.0 then some (attenuation, reflect unit_direction unit_normal, g)
    else
      let (x, g1) := random_double RAND_MAX g
      if reflectance > x then some (attenuation, reflect unit_direction unit_normal, g1)
      else some (attenuation, refract sqrt unit_direction unit_normal n1overn2, g1)

/-- The value `n1overn2` computed by the Dielectric branch of `cast_ray`. -/
def dielectric_n1overn2 (hit : hit_t F) (refractive : F) : F :=
  if hit.front_face then 1.0 / refractive else refractive

/-- The value `cost` computed by the Dielectric branch of `cast_ray`. -/
def dielectric_cost (sqrt : F → F) (ray : ray_t F) (hit : hit_t F) : F :=
  let d := dot (-(normalize sqrt ray.dir)) (normalize sqrt hit.normal)
  if d > 1.0 then 1.0 else d

/-- The value `sint` computed by the Dielectric branch of `cast_ray`. -/
def dielectric_sint (sqrt : F → F) (ray : ray_t F) (hit : hit_t F) : F :=
  sqrt (1 - dielectric_cost sqrt ray hit * dielectric_cost sqrt ray hit)

/-- The value `reflectance` (Schlick) computed by the Dielectric branch of `cast_ray`. -/
def dielectric_reflectance (sqrt : F → F) (ray : ray_t F) (hit : hit_t F) (refractive : F) : F :=
  let r0 := (1 - dielectric_n1overn2 hit refractive) / (1 + dielectric_n1overn2 hit refractive)
  let r0 := r0 * r0
  r0 + (1 - r0) * (1 - dielectric_cost sqrt ray hit) ^ 5

/-- The function `cast_ray`, with the generator state threaded through; `none` when a
sampling loop runs out of `fuel`. -/
def cast_ray (sqrt : F → F) (RAND_MAX fuel : Nat) (entities : List (entity_t F)) :
    Nat → ray_t F → rng_t → Option (color3 F × rng_t)
  | 0, _, g => some (⟨0.0, 0.0, 0.0⟩, g)
  | bounces_left + 1, ray, g =>
    let direction := ray.dir
    let lp := cast_ray_loop sqrt ray entities
    if lp.1 then
      let hit := lp.2
      match cast_ray_scatter sqrt RAND_MAX fuel ray hit g with
      | none => none
      | some (attenuation, newdirection, g1) =>
        match cast_ray sqrt RAND_MAX fuel entities bounces_left ⟨hit.point, newdirection⟩ g1 with
        | none => none
        | some (color, g2) => some (attenuation * color, g2)
    else
      let a := 0.5 * (direction.y + 1.0)
      some (vec3.smul (1.0 - a) (⟨1.0, 1.0, 1.0⟩ : color3 F) + vec3.smul a ⟨0.5, 0.7, 1.0⟩, g)

/-- The function `cast_ray` instrumented with a counter: beside the colour and the generator
state it returns the depth of the nesting of recursive calls below this call (0 when the
call makes no recursive call). -/
def cast_ray_counted (sqrt : F → F) (RAND_MAX fuel : Nat) (entities : List (entity_t F)) :
    Nat → ray_t F → rng_t → Option (color3 F × rng_t × Nat)
  | 0, _, g => some (⟨0.0, 0.0, 0.0⟩, g, 0)
  | bounces_left + 1, ray, g =>
    let direction := ray.dir
    let lp := cast_ray_loop sqrt ray entities
    if lp.1 then
      let hit := lp.2
      match cast_ray_scatter sqrt RAND_MAX fuel ray hit g with
      | none => none
      | some (attenuation, newdirection, g1) =>
        match cast_ray_counted sqrt RAND_MAX fuel entities bounces_left
            ⟨hit.point, newdirection⟩ g1 with
        | none => none
        | some (color, g2, depth) => some (attenuation * color, g2, depth + 1)
    else
      let a := 0.5 * (direction.y + 1.0)
      some (vec3.smul (1.0 - a) (⟨1.0, 1.0, 1.0⟩ : color3 F) + vec3.smul a ⟨0.5, 0.7, 1.0⟩, g, 0)

end Integrator

/-! ### Colours and pixels -/

/-- The struct `pixel_t`: three `u8` channels. -/
structure pixel_t where
  r : Nat
  g : Nat
  b : Nat
  deriving DecidableEq

section Pixels

variable {F : Type} [LinearOrderedField F]

/-- The function `get_color_from_hex`; `hexcolor` is a `u32`. -/
def get_color_from_hex (hexcolor : Nat) : color3 F :=
  let MASK : Nat := 255
  ⟨(((hexcolor >>> 16) &&& MASK : Nat) : F) / 255.0,
    (((hexcolor >>> 8) &&& MASK : Nat) : F) / 255.0,
    ((hexcolor &&& MASK : Nat) : F) / 255.0⟩

/-- The implicit conversion of an `r64` to `u8` in an assignment such as
`result.r = clamp(...) * 255`: the fractional part is discarded (truncation toward zero).
For values outside `0 .. 255` the C++ conversion is undefined; the model reduces modulo 256. -/
def r64_to_u8 [FloorRing F] (x : F) : Nat :=
  ((if 0 ≤ x then ⌊x⌋ else ⌈x⌉) % 256).toNat

/-- The function `color_to_pixel`; the channels `r, g, b` of a `color3` are the fields
`x, y, z` of the union in `vec3`. -/
def color_to_pixel [FloorRing F] (sqrt : F → F) (color : color3 F) (gamma : Bool) : pixel_t :=
  let gamma_color : color3 F :=
    ⟨if color.x > 0.0 then sqrt color.x else color.x,
      if color.y > 0.0 then sqrt color.y else color.y,
      if color.z > 0.0 then sqrt color.z else color.z⟩
  if gamma then
    { r := r64_to_u8 (clamp 0.0 1.0 gamma_color.x * 255)
      g := r64_to_u8 (clamp 0.0 1.0 gamma_color.y * 255)
      b := r64_to_u8 (clamp 0.0 1.0 gamma_color.z * 255) }
  else
    { r := r64_to_u8 (clamp (-1.0) 1.0 color.x * 255)
      g := r64_to_u8 (clamp (-1.0) 1.0 color.y * 255)
      b := r64_to_u8 (clamp (-1.0) 1.0 color.z * 255) }

/-- One channel of `color_to_pixel` with `gamma = true`: the expression
`clamp(0.0, 1.0, color.r > 0.0 ? sqrt(color.r) : color.r) * 255` converted to `u8`. -/
def gamma_channel [FloorRing F] (sqrt : F → F) (x : F) : Nat :=
  r64_to_u8 (clamp 0.0 1.0 (if x > 0.0 then sqrt x else x) * 255)

end Pixels

/-! ### Scene and camera set-up of `main` -/

section Setup

variable {F : Type} [LinearOrderedField F]

/-- The camera basis `(u, v, w)` computed by `main` from `lookfrom`, `look_at` and
`camera_up`. -/
def camera_basis (sqrt : F → F) (lookfrom look_at camera_up : vec3 F) :
    vec3 F × vec3 F × vec3 F :=
  let w := normalize sqrt (lookfrom - look_at)
  let u := normalize sqrt (cross camera_up w)
  let v := normalize sqrt (cross w u)
  (u, v, w)

/-- The factor `0.5 * (r64(rand() % 2000) / 1000.0 - 0.5)` that the primary-ray target of
`main` applies to `delta_u` (`delta_v`), for the value `r` returned by `rand()`. -/
def jitter_coefficient (r : Nat) : F :=
  0.5 * (((r % 2000 : Nat) : F) / 1000.0 - 0.5)

/-- The primary-ray target `ray_point` of `main`:
`pixel_center + delta_u * 0.5 * (r64(rand() % 2000) / 1000.0 - 0.5)
  + delta_v * 0.5 * (r64(rand() % 2000) / 1000.0 - 0.5)`, the `rand()` call of the
`delta_u` term taken first. -/
def primary_ray_point (RAND_MAX : Nat) (pixel_center delta_u delta_v : vec3 F) (g : rng_t) :
    point3 F × rng_t :=
  let (r1, g1) := rand RAND_MAX g
  let (r2, g2) := rand RAND_MAX g1
  (pixel_center + (delta_u.muls 0.5).muls (((r1 % 2000 : Nat) : F) / 1000.0 - 0.5) +
    (delta_v.muls 0.5).muls (((r2 % 2000 : Nat) : F) / 1000.0 - 0.5), g2)

/-- The state of `create_entities`: the stores `entities[offset] = ...` made so far, each
with the index it wrote to, the variable `offset` and the generator. -/
structure create_state (F : Type) where
  stores : List (Nat × entity_t F)
  offset : Nat
  g : rng_t

/-- The statements `entities[offset] = entity; offset++;`. -/
def create_state.store (st : create_state F) (entity : entity_t F) : create_state F :=
  { stores := st.stores ++ [(st.offset, entity)], offset := st.offset + 1, g := st.g }

/-- Three `random_double()` calls filling a `color3`, the x component first. -/
def random_color3 (RAND_MAX : Nat) (g : rng_t) : color3 F × rng_t :=
  let (a, g1) := random_double RAND_MAX g
  let (b, g2) := random_double RAND_MAX g1
  let (c, g3) := random_double RAND_MAX g2
  (⟨a, b, c⟩, g3)

/-- Three `random_double(min, max)` calls filling a `color3`, the x component first. -/
def random_color3_range (RAND_MAX : Nat) (min max : F) (g : rng_t) : color3 F × rng_t :=
  let (a, g1) := random_double_range RAND_MAX min max g
  let (b, g2) := random_double_range RAND_MAX min max g1
  let (c, g3) := random_double_range RAND_MAX min max g2
  (⟨a, b, c⟩, g3)

/-- The body of the inner loop of `create_entities` for the grid cell `(i, j)`; in
`point3 center(...)` the `random_double()` call of the x coordinate is taken first. -/
def create_entities_cell (sqrt : F → F) (RAND_MAX : Nat) (i j : Int) (st : create_state F) :
    create_state F :=
  let (choose_mat, g1) := (random_double RAND_MAX st.g : F × rng_t)
  let (rx, g2) := (random_double RAND_MAX g1 : F × rng_t)
  let (rz, g3) := (random_double RAND_MAX g2 : F × rng_t)
  let center : point3 F := ⟨(i : F) + 0.9 * rx, 0.2, (j : F) + 0.9 * rz⟩
  if length sqrt (center - ⟨4, 0.2, 9⟩) > 0.9 then
    if choose_mat < 0.8 then
      let (c1, g4) := (random_color3 RAND_MAX g3 : color3 F × rng_t)
      let (c2, g5) := (random_color3 RAND_MAX g4 : color3 F × rng_t)
      create_state.store { st with g := g5 }
        (entity_t.Sphere ⟨center, material_t.Lambertian (c1 * c2), 0.2⟩)
    else if choose_mat < 0.95 then
      let (albedo, g4) := (random_color3_range RAND_MAX 0.5 1 g3 : color3 F × rng_t)
      let (fuzziness, g5) := (random_double_range RAND_MAX 0 0.5 g4 : F × rng_t)
      create_state.store { st with g := g5 }
        (entity_t.Sphere ⟨center, material_t.Metallic albedo fuzziness, 0.2⟩)
    else
      create_state.store { st with g := g3 }
        (entity_t.Sphere ⟨center, material_t.Dielectric (get_color_from_hex 0xffffff) 1.5, 0.2⟩)
  else { st with g := g3 }

/-- The function `create_entities`: the four fixed spheres, then the loops
`for i in -11 .. 10`, `for j in -11 .. 10`.  The final `offset` is the value reported
through `*count`; the allocation holds `22 * 22 + 4` entries. -/
def create_entities (sqrt : F → F) (RAND_MAX : Nat) (g : rng_t) : create_state F :=
  let st : create_state F := { stores := [], offset := 0, g := g }
  let st := st.store
    (entity_t.Sphere ⟨⟨0, -1000, 0⟩, material_t.Lambertian (get_color_from_hex 0x888888), 1000⟩)
  let st := st.store
    (entity_t.Sphere ⟨⟨0, 1, 0⟩, material_t.Dielectric (get_color_from_hex 0xffffff) 1.5, 1⟩)
  let st := st.store
    (entity_t.Sphere ⟨⟨4, 1, 0⟩, material_t.Metallic ⟨0.7, 0.6, 0.5⟩ 0.0, 1⟩)
  let st := st.store
    (entity_t.Sphere ⟨⟨-4, 1, 0⟩, material_t.Lambertian ⟨0.4, 0.2, 0.1⟩, 1⟩)
  (List.range 22).foldl
    (fun (st : create_state F) (i : Nat) => (List.range 22).foldl
      (fun (st : create_state F) (j : Nat) =>
        create_entities_cell sqrt RAND_MAX ((i : Int) - 11) ((j : Int) - 11) st) st)
    st

/-- The number of entries `22 * 22 + 4` allocated by `create_entities`. -/
def create_entities_capacity : Nat := 22 * 22 + 4

end Setup

/-! ### Concrete inputs used to evaluate the code -/

/-- A scene of one unit sphere at the origin with the given material. -/
def unit_sphere_scene {F : Type} [LinearOrderedField F] (mat : material_t F) :
    List (entity_t F) :=
  [entity_t.Sphere ⟨⟨0, 0, 0⟩, mat, 1⟩]

/-- A generator whose `rand()` values are `1000, 0, 1000, 1000, 0, 1000, ...`: from every
position the first sample of `random_unit_vector` has one component `-1` and two components
`0`, so the sampling loop returns in its first round. -/
def rng_cycle : rng_t := ⟨fun i => if i % 3 = 1 then 0 else 1000, 0⟩

/-- A generator whose `rand()` values are `1000, 0, 1000, 1000, ...`: the first sample of
`random_unit_vector` is `(0, -1, 0)`. -/
def rng_down : rng_t := ⟨fun i => if i = 1 then 0 else 1000, 0⟩

/-- The state of `rng_down` after three `rand()` calls. -/
def rng_down3 : rng_t := ⟨fun i => if i = 1 then 0 else 1000, 3⟩


/-- A generator whose `rand()` values are `1000, 1600, 1800, 1800, ...`: the first sample
of `random_unit_vector` is `(0, 0.6, 0.8)`. -/
def rng_tilt : rng_t := ⟨fun i => if i = 0 then 1000 else if i = 1 then 1600 else 1800, 0⟩

/-- The state of `rng_tilt` after three `rand()` calls. -/
def rng_tilt3 : rng_t := ⟨fun i => if i = 0 then 1000 else if i = 1 then 1600 else 1800, 3⟩

/-- A generator whose `rand()` values are all `2^30`, half of `RAND_MAX + 1 = 2^31`. -/
def rng_half : rng_t := ⟨fun _ => 1073741824, 0⟩

/-- The state of `rng_half` after one `rand()` call. -/
def rng_half1 : rng_t := ⟨fun _ => 1073741824, 1⟩

/-! ## Real-time renderer: `src/code/vector.hh`, `src/code/raytracer.cc` -/

namespace Realtime

/-- The struct `v3`: three `r32` components. -/
@[ext]
structure v3 (F : Type) where
  x : F
  y : F
  z : F

section

variable {F : Type} [LinearOrderedField F]

/-- The method `v3::length_squared`. -/
def v3.length_squared (a : v3 F) : F := a.x * a.x + a.y * a.y + a.z * a.z

/-- The method `v3::length`. -/
def v3.length (sqrt : F → F) (a : v3 F) : F := sqrt a.length_squared

/-- The `operator +` on `v3`. -/
def v3.add (a b : v3 F) : v3 F := ⟨a.x + b.x, a.y + b.y, a.z + b.z⟩

/-- The `operator -` on `v3`. -/
def v3.sub (a b : v3 F) : v3 F := ⟨a.x - b.x, a.y - b.y, a.z - b.z⟩

/-- The `operator * (const r32 value, const v3 & a)`. -/
def v3.smul (value : F) (a : v3 F) : v3 F := ⟨a.x * value, a.y * value, a.z * value⟩

instance : Add (v3 F) := ⟨v3.add⟩
instance : Sub (v3 F) := ⟨v3.sub⟩

/-- The function `dot` on `v3`. -/
def dot (a b : v3 F) : F := a.x * b.x + a.y * b.y + a.z * b.z

/-- The function `normalised`. -/
def normalised (sqrt : F → F) (a : v3 F) : v3 F :=
  let length := a.length sqrt
  if length = 0 then ⟨0, 0, 0⟩ else ⟨a.x / length, a.y / length, a.z / length⟩

/-- The method `v3::normalise`: the value it leaves in `*this`, which is also the value it
returns. -/
def v3.normalise (sqrt : F → F) (self : v3 F) : v3 F :=
  let len := self.length sqrt
  if len = 0 then ⟨0, 0, 0⟩ else ⟨self.x / len, self.y / len, self.z / len⟩

end

/-- The struct `Ray` of `raytracer.cc`. -/
structure Ray (F : Type) where
  origin : v3 F
  direction : v3 F

/-- The struct `v4`: four `r32` components; `Color` is an alias of it. -/
@[ext]
structure v4 (F : Type) where
  x : F
  y : F
  z : F
  w : F

/-- The alias `Color`. -/
abbrev Color (F : Type) := v4 F

/-- The struct `Sphere` of `raytracer.cc`; its `color` takes no part in the intersection. -/
structure Sphere (F : Type) where
  origin : v3 F
  radius : F
  color : Color F

/-- The method `Sphere::get_intersection`. -/
def Sphere.get_intersection {F : Type} [LinearOrderedField F] (sqrt : F → F)
    (self : Sphere F) (ray : Ray F) : F :=
  let od := self.origin - ray.origin
  let b := dot od ray.direction
  let delta := b * b - dot od od + self.radius * self.radius
  if delta < 0 then 0
  else
    let delta := sqrt delta
    if b - delta > 0 then b - delta else if b + delta > 0 then b + delta else 0

/-- The struct `DirectionalLight`. -/
structure DirectionalLight (F : Type) where
  position : v3 F
  color : Color F

/-- The struct `AmbientLight`. -/
structure AmbientLight (F : Type) where
  color : Color F

/-- The macro `MAX_SPHERE_COUNT`. -/
def MAX_SPHERE_COUNT : Nat := 25

/-- The macro `MAX_LIGHT_COUNT`. -/
def MAX_LIGHT_COUNT : Nat := 25

/-- The struct `Scene`.  The arrays `spheres[MAX_SPHERE_COUNT]` and
`directional_light[MAX_LIGHT_COUNT]` are maps from the index to the element stored there;
only the indices below `MAX_SPHERE_COUNT` (`MAX_LIGHT_COUNT`) are elements of the C array, and
the stores into the arrays go through `array_store`, which has no value past the end.
The counters are `u32`. -/
structure Scene (F : Type) where
  spheres : Nat → Sphere F
  sphere_count : Nat
  directional_light : Nat → DirectionalLight F
  directional_light_count : Nat
  ambient_light : AmbientLight F
  render_width : F
  render_height : F
  zposition : F

/-- A store `array[index] = value` into a C array of `capacity` elements held as an index
map.  It is defined for `index < capacity`; a store past the end of the array is undefined
behaviour (in `Scene` it lands on the members laid out after the array), which `none`
records. -/
def array_store {α : Type} (capacity : Nat) (array : Nat → α) (index : Nat) (value : α) :
    Option (Nat → α) :=
  if index < capacity then some (Function.update array index value) else none

/-- The method `Scene::add_sphere`: `spheres[sphere_count] = sphere; sphere_count += 1;`, the
array being `Sphere spheres[MAX_SPHERE_COUNT]`.  The method makes no test of its own; `none`
is the undefined store past the end of the array. -/
def Scene.add_sphere {F : Type} (self : Scene F) (sphere : Sphere F) : Option (Scene F) :=
  match array_store MAX_SPHERE_COUNT self.spheres self.sphere_count sphere with
  | none => none
  | some spheres =>
    some { self with
      spheres := spheres
      sphere_count := (self.sphere_count + 1) % 2 ^ 32 }

/-- The method `Scene::add_directional_light`:
`directional_light[directional_light_count] = light; directional_light_count += 1;`, the
array being `DirectionalLight directional_light[MAX_LIGHT_COUNT]`.  The method makes no test
of its own; `none` is the undefined store past the end of the array. -/
def Scene.add_directional_light {F : Type} (self : Scene F) (light : DirectionalLight F) :
    Option (Scene F) :=
  match array_store MAX_LIGHT_COUNT self.directional_light self.directional_light_count
      light with
  | none => none
  | some directional_light =>
    some { self with
      directional_light := directional_light
      directional_light_count := (self.directional_light_count + 1) % 2 ^ 32 }

/-! ### Colours and shading of `raytracer.cc` -/

section Shading

variable {F : Type} [LinearOrderedField F]

/-- The `operator +` on `v4`. -/
def v4.add (a b : v4 F) : v4 F := ⟨a.x + b.x, a.y + b.y, a.z + b.z, a.w + b.w⟩

/-- The `operator -` on `v4`. -/
def v4.sub (a b : v4 F) : v4 F := ⟨a.x - b.x, a.y - b.y, a.z - b.z, a.w - b.w⟩

/-- The `operator * (const r32 value, const v4 & a)`. -/
def v4.smul (value : F) (a : v4 F) : v4 F := ⟨a.x * value, a.y * value, a.z * value, a.w * value⟩

instance : Add (v4 F) := ⟨v4.add⟩
instance : Sub (v4 F) := ⟨v4.sub⟩

/-- The function `multiply_color`. -/
def multiply_color (color light : Color F) : Color F :=
  ⟨color.x * light.x, color.y * light.y, color.z * light.z, color.w * light.w⟩

/-- The function `add_color`. -/
def add_color (light1 light2 : Color F) : Color F := light1 + light2

/-- The cast `(u32) x` of an `r32`: the fractional part is discarded (truncation toward
zero).  For values outside the range of `u32` the C++ conversion is undefined; the model
reduces modulo `2^32`. -/
def r32_to_u32 [FloorRing F] (x : F) : Nat :=
  ((if 0 ≤ x then ⌊x⌋ else ⌈x⌉) % 2 ^ 32).toNat

/-- The function `convert_color_to_u32`; `<<` acts on a `u32`. -/
def convert_color_to_u32 [FloorRing F] (color : Color F) : Nat :=
  let result : Nat := 0
  let result := result ||| (r32_to_u32 (color.x * 255) <<< 24) % 2 ^ 32
  let result := result ||| (r32_to_u32 (color.y * 255) <<< 16) % 2 ^ 32
  let result := result ||| (r32_to_u32 (color.z * 255) <<< 8) % 2 ^ 32
  let result := result ||| (r32_to_u32 (color.w * 255) <<< 0) % 2 ^ 32
  result

/-- The 32-bit word whose bytes are `r`, `g`, `b`, `a` from the high byte to the low byte:
the channel order R-G-B-A of the packed-pixel buffer, as the specification words it. -/
def rgba_word (r g b a : Nat) : Nat := r * 2 ^ 24 + g * 2 ^ 16 + b * 2 ^ 8 + a

/-- The function `clip_color_value`: the value it leaves in its reference argument. -/
def clip_color_value (color : Color F) : Color F :=
  ⟨if color.x > 1.0 then 1.0 else if color.x < 0.0 then 0.0 else color.x,
    if color.y > 1.0 then 1.0 else if color.y < 0.0 then 0.0 else color.y,
    if color.z > 1.0 then 1.0 else if color.z < 0.0 then 0.0 else color.z,
    if color.w > 1.0 then 1.0 else if color.w < 0.0 then 0.0 else color.w⟩

/-- The body of the loop over the directional lights in `Scene::get_color_for_pixel`, for
the light of index `j`, on the pair `(diffused_light_color, specular_light_color)`. -/
def Scene.light_step (sqrt : F → F) (self : Scene F) (camera_position collision_point
    normal : v3 F) (acc : Color F × Color F) (j : Nat) : Color F × Color F :=
  let light := self.directional_light j
  let specular_cuttoff : F := 0.95
  let dot_product := dot (normalised sqrt (light.position - collision_point)) normal
  let dot_product := if dot_product ≤ 0 then 0.0 else dot_product
  let diffused_light_color := add_color acc.1 (v4.smul dot_product light.color)
  let incidence_ray := normalised sqrt (light.position - collision_point)
  let reflected_ray :=
    normalised sqrt (v3.smul (2 * dot normal incidence_ray) normal - incidence_ray)
  let to_camera := normalised sqrt (camera_position - collision_point)
  let dot_product := dot to_camera reflected_ray
  let dot_product := if dot_product ≤ specular_cuttoff then 0.0 else dot_product
  let specular_light_color := add_color acc.2 (v4.smul dot_product light.color)
  (diffused_light_color, specular_light_color)

/-- The colour `light_color` that the body of the sphere loop of
`Scene::get_color_for_pixel` computes for a sphere whose intersection distance `delta` is
positive. -/
def Scene.shade_sphere (sqrt : F → F) (self : Scene F) (ray : Ray F) (camera_position : v3 F)
    (sphere : Sphere F) (delta : F) : Color F :=
  let diffusion_coefficient : F := 0.7
  let specular_coefficient : F := 0.7
  let collision_point := ray.origin + v3.smul delta ray.direction
  let normal := normalised sqrt (collision_point - sphere.origin)
  let lights := (List.range self.directional_light_count).foldl
    (self.light_step sqrt camera_position collision_point normal)
    ((⟨0.0, 0.0, 0.0, 0.0⟩ : Color F), (⟨0.0, 0.0, 0.0, 0.0⟩ : Color F))
  let ambient_light_color := multiply_color sphere.color self.ambient_light.color
  let diffused_light_color := multiply_color sphere.color lights.1
  let light_color := ambient_light_color + v4.smul diffusion_coefficient diffused_light_color +
    v4.smul specular_coefficient lights.2
  clip_color_value light_color

/-- The loop over the spheres of `Scene::get_color_for_pixel`, on the indices still to
visit: `continue` when `delta <= 0`, otherwise `result = light_color; break;`; the initial
`result` is `v4(0.0f)`. -/
def Scene.sphere_loop (sqrt : F → F) (self : Scene F) (ray : Ray F) (camera_position : v3 F) :
    List Nat → Color F
  | [] => ⟨0.0, 0.0, 0.0, 0.0⟩
  | i :: rest =>
    let delta := (self.spheres i).get_intersection sqrt ray
    if delta ≤ 0 then Scene.sphere_loop sqrt self ray camera_position rest
    else self.shade_sphere sqrt ray camera_position (self.spheres i) delta

/-- The ray of the pixel `(xoffset, yoffset)` in `Scene::get_color_for_pixel`. -/
def Scene.pixel_ray (sqrt : F → F) (self : Scene F)
    (xoffset yoffset buffer_width buffer_height : Nat) : Ray F :=
  let xpos := -self.render_width / 2.0 + (xoffset : F) * self.render_width / (buffer_width : F)
  let ypos := self.render_height / 2.0 - (yoffset : F) * self.render_height / (buffer_height : F)
  let camera_position : v3 F := ⟨0.0, 0.0, self.zposition⟩
  { origin := camera_position
    direction := normalised sqrt ((⟨xpos, ypos, 0.0⟩ : v3 F) - camera_position) }

/-- The method `Scene::get_color_for_pixel`. -/
def Scene.get_color_for_pixel (sqrt : F → F) (self : Scene F)
    (xoffset yoffset buffer_width buffer_height : Nat) : Color F :=
  let ray := self.pixel_ray sqrt xoffset yoffset buffer_width buffer_height
  self.sphere_loop sqrt ray ray.origin (List.range self.sphere_count)

end Shading

/-! ### The work queue of `src/code/main.cc` -/

/-- The struct `thread_work_queue`; the `SDL_mutex * lock` carries no data of its own. -/
structure thread_work_queue where
  current_row_index : Int
  height : Int
  deriving DecidableEq

/-- The function `create_thread_work_queue` (the mutex is created successfully). -/
def create_thread_work_queue (height : Int) : thread_work_queue :=
  { current_row_index := 0, height := height }

/-- The function `get_next_work` run without interference from other threads.
`lock_result` is the value returned by `SDL_LockMutex`; a non-zero value leads to
`assert(false)`, modelled by `none`. -/
def get_next_work (lock_result : Int) (work_queue : thread_work_queue) :
    Option (Int × thread_work_queue) :=
  if work_queue.current_row_index = work_queue.height then some (-1, work_queue)
  else if lock_result = 0 then
    some (work_queue.current_row_index,
      { work_queue with current_row_index := work_queue.current_row_index + 1 })
  else none

/-- The queue a single caller finds before its `k`-th call (`k = 0, 1, 2, ...`) of
`get_next_work`, every lock acquisition succeeding. -/
def queue_before_call : Nat → thread_work_queue → Option thread_work_queue
  | 0, q => some q
  | k + 1, q =>
    match queue_before_call k q with
    | none => none
    | some q1 =>
      match get_next_work 0 q1 with
      | none => none
      | some (_, q2) => some q2

/-- Where a worker running `thread_function` stands in its current `get_next_work` call. -/
inductive worker_pc where
  /-- About to evaluate `work_queue->current_row_index == work_queue->height`. -/
  | at_check
  /-- The comparison was false; about to run the locked read-and-increment. -/
  | at_lock
  /-- The worker received `-1` and left the `while` loop of `thread_function`. -/
  | exited
  deriving DecidableEq

/-- The shared queue, the position of every worker and the values `get_next_work` has
returned so far, as pairs `(worker, value)` in the order of return. -/
structure dispatch_state where
  queue : thread_work_queue
  pcs : List worker_pc
  returned : List (Nat × Int)
  deriving DecidableEq

/-- The state after `create_thread_work_queue(height)` with `N` workers started. -/
def dispatch_init (height : Int) (N : Nat) : dispatch_state :=
  { queue := create_thread_work_queue height
    pcs := List.replicate N worker_pc.at_check
    returned := [] }

/-- One step of worker `w`: either the comparison `current_row_index == height`, made
before the lock is taken, or the locked section `result = current_row_index;
current_row_index += 1;`, after which `thread_function` renders the row and calls
`get_next_work` again.  The mutex makes the locked section atomic. -/
def dispatch_step (st : dispatch_state) (w : Nat) : dispatch_state :=
  match st.pcs[w]? with
  | some worker_pc.at_check =>
    if st.queue.current_row_index = st.queue.height then
      { st with
        pcs := st.pcs.set w worker_pc.exited
        returned := st.returned ++ [(w, -1)] }
    else { st with pcs := st.pcs.set w worker_pc.at_lock }
  | some worker_pc.at_lock =>
    { queue := { st.queue with current_row_index := st.queue.current_row_index + 1 }
      pcs := st.pcs.set w worker_pc.at_check
      returned := st.returned ++ [(w, st.queue.current_row_index)] }
  | _ => st

/-- The state reached from `dispatch_init height N` under a schedule, the list of the
workers that take the successive steps. -/
def dispatch_run (height : Int) (N : Nat) (schedule : List Nat) : dispatch_state :=
  schedule.foldl dispatch_step (dispatch_init height N)

/-- A scene whose `spheres` and `directional_light` arrays are full: both counters equal
the capacity 25 and every slot holds the same element. -/
def full_scene {F : Type} [LinearOrderedField F] : Scene F :=
  { spheres := fun _ => ⟨⟨0, 0, -100⟩, 60, ⟨1, 1, 1, 1⟩⟩
    sphere_count := 25
    directional_light := fun _ => ⟨⟨100, 100, 100⟩, ⟨1, 1, 1, 1⟩⟩
    directional_light_count := 25
    ambient_light := ⟨⟨0, 0, 0, 1⟩⟩
    render_width := 800
    render_height := 600
    zposition := 400 }

/-- A scene without directional lights, with white ambient light and the camera at
`(0, 0, 1)`, holding the two given spheres in the order `first`, `second`. -/
def two_sphere_scene {F : Type} [LinearOrderedField F] (first second : Sphere F) : Scene F :=
  { spheres := fun i => if i = 0 then first else second
    sphere_count := 2
    directional_light := fun _ => ⟨⟨0, 0, 0⟩, ⟨0, 0, 0, 0⟩⟩
    directional_light_count := 0
    ambient_light := ⟨⟨1, 1, 1, 1⟩⟩
    render_width := 2
    render_height := 2
    zposition := 1 }

/-- A red sphere of radius 1 centred at `(0, 0, -10)`. -/
def far_red_sphere {F : Type} [LinearOrderedField F] : Sphere F :=
  ⟨⟨0, 0, -10⟩, 1, ⟨1, 0, 0, 1⟩⟩

/-- A green sphere of radius 1 centred at `(0, 0, -5)`. -/
def near_green_sphere {F : Type} [LinearOrderedField F] : Sphere F :=
  ⟨⟨0, 0, -5⟩, 1, ⟨0, 1, 0, 1⟩⟩

end Realtime

/-! ## Theorems -/

section Theorems

variable {F : Type} [LinearOrderedField F]

@[simp] theorem vec3.add_x (a b : vec3 F) : (a + b).x = a.x + b.x := rfl
@[simp] theorem vec3.add_y (a b : vec3 F) : (a + b).y = a.y + b.y := rfl
@[simp] theorem vec3.add_z (a b : vec3 F) : (a + b).z = a.z + b.z := rfl
@[simp] theorem vec3.sub_x (a b : vec3 F) : (a - b).x = a.x - b.x := rfl
@[simp] theorem vec3.sub_y (a b : vec3 F) : (a - b).y = a.y - b.y := rfl
@[simp] theorem vec3.sub_z (a b : vec3 F) : (a - b).z = a.z - b.z := rfl
@[simp] theorem vec3.neg_x (a : vec3 F) : (-a).x = -a.x := rfl
@[simp] theorem vec3.neg_y (a : vec3 F) : (-a).y = -a.y := rfl
@[simp] theorem vec3.neg_z (a : vec3 F) : (-a).z = -a.z := rfl
@[simp] theorem vec3.mul_x (a b : vec3 F) : (a * b).x = b.x * a.x := rfl
@[simp] theorem vec3.mul_y (a b : vec3 F) : (a * b).y = b.y * a.y := rfl
@[simp] theorem vec3.mul_z (a b : vec3 F) : (a * b).z = b.z * a.z := rfl

theorem dot_self_nonneg (d : vec3 F) : 0 ≤ dot d d := by
  unfold dot
  nlinarith [mul_self_nonneg d.x, mul_self_nonneg d.y, mul_self_nonneg d.z]

theorem dot_self_pos {d : vec3 F} (hd : d ≠ ⟨0, 0, 0⟩) : 0 < dot d d := by
  rcases lt_or_eq_of_le (dot_self_nonneg d) with h | h
  · exact h
  · exfalso
    apply hd
    unfold dot at h
    have hx : d.x * d.x = 0 := by
      nlinarith [mul_self_nonneg d.x, mul_self_nonneg d.y, mul_self_nonneg d.z]
    have hy : d.y * d.y = 0 := by
      nlinarith [mul_self_nonneg d.x, mul_self_nonneg d.y, mul_self_nonneg d.z]
    have hz : d.z * d.z = 0 := by
      nlinarith [mul_self_nonneg d.x, mul_self_nonneg d.y, mul_self_nonneg d.z]
    ext
    · exact mul_self_eq_zero.mp hx
    · exact mul_self_eq_zero.mp hy
    · exact mul_self_eq_zero.mp hz

theorem inrange_iff (lo hi v : F) : inrange lo hi v = true ↔ lo < v ∧ v < hi := by
  simp [inrange]

/-- The value `sphere_hit` returns, in terms of the discriminant and the smaller root. -/
theorem sphere_hit_eq (sqrt : F → F) (r : ray_t F) (tmin tmax : F) (sphere : sphere_t F) :
    sphere_hit sqrt r tmin tmax sphere =
      if sphere_discriminant r sphere < 0 then none
      else if inrange tmin tmax (sphere_root_small sqrt r sphere) = true then
        some (create_hit_info_for_sphere r (sphere_root_small sqrt r sphere) sphere)
      else none := rfl

theorem sphere_hit_some_iff (sqrt : F → F) (r : ray_t F) (tmin tmax : F) (sphere : sphere_t F)
    (hit : hit_t F) :
    sphere_hit sqrt r tmin tmax sphere = some hit ↔
      0 ≤ sphere_discriminant r sphere ∧ tmin < sphere_root_small sqrt r sphere ∧
        sphere_root_small sqrt r sphere < tmax ∧
        hit = create_hit_info_for_sphere r (sphere_root_small sqrt r sphere) sphere := by
  rw [sphere_hit_eq]
  by_cases hd : sphere_discriminant r sphere < 0
  · simp [hd, not_le.mpr hd]
  · by_cases hr : inrange tmin tmax (sphere_root_small sqrt r sphere) = true
    · have hr2 := (inrange_iff _ _ _).mp hr
      simp [hd, hr, hr2.1, hr2.2, not_lt.mp hd, eq_comm]
    · have hr2 : ¬ (tmin < sphere_root_small sqrt r sphere ∧
          sphere_root_small sqrt r sphere < tmax) := fun h => hr ((inrange_iff _ _ _).mpr h)
      simp only [hd, hr, if_false]
      constructor
      · intro h; cases h
      · rintro ⟨_, h1, h2, _⟩; exact absurd ⟨h1, h2⟩ hr2

/-- Both roots solve the quadratic `a t² - 2 h t + c = 0`, so the point at either root is on
the sphere. -/
theorem point_on_sphere_of_root (r : ray_t F) (sphere : sphere_t F) (hd : r.dir ≠ ⟨0, 0, 0⟩)
    (s t : F) (hs : s * s = sphere_discriminant r sphere)
    (ht : t = (dot r.dir (sphere.center - r.point) - s) / dot r.dir r.dir) :
    lengthsq (r.at_ t - sphere.center) = sphere.radius * sphere.radius := by
  have ha : dot r.dir r.dir ≠ 0 := ne_of_gt (dot_self_pos hd)
  have hta : t * dot r.dir r.dir = dot r.dir (sphere.center - r.point) - s := by
    rw [ht]; field_simp
  have key : lengthsq (r.at_ t - sphere.center) - sphere.radius * sphere.radius =
      (t * dot r.dir r.dir) * t - 2 * t * dot r.dir (sphere.center - r.point) +
        (dot (sphere.center - r.point) (sphere.center - r.point) -
          sphere.radius * sphere.radius) := by
    simp only [lengthsq, dot, ray_t.at_, vec3.muls, vec3.add_x, vec3.add_y, vec3.add_z,
      vec3.sub_x, vec3.sub_y, vec3.sub_z]
    ring
  have hq : dot r.dir r.dir * ((t * dot r.dir r.dir) * t -
      2 * t * dot r.dir (sphere.center - r.point) +
        (dot (sphere.center - r.point) (sphere.center - r.point) -
          sphere.radius * sphere.radius)) = 0 := by
    have e : dot r.dir r.dir * ((t * dot r.dir r.dir) * t -
      2 * t * dot r.dir (sphere.center - r.point) +
        (dot (sphere.center - r.point) (sphere.center - r.point) -
          sphere.radius * sphere.radius)) =
        (t * dot r.dir r.dir) * (t * dot r.dir r.dir)
          - 2 * (t * dot r.dir r.dir) * dot r.dir (sphere.center - r.point)
          + (dot r.dir (sphere.center - r.point) * dot r.dir (sphere.center - r.point)
              - sphere_discriminant r sphere) := by
      simp only [sphere_discriminant]; ring
    rw [e, hta, ← hs]; ring
  have := (mul_eq_zero.mp hq).resolve_left ha
  linarith [key]

/-- C4. Postcondition of `sphere_hit`: for a ray with non-zero direction, whenever
`sphere_hit` returns `true` the written record satisfies `tmin < hit.delta < tmax`,
`hit.point = r.point + hit.delta * r.dir` and
`lengthsq (hit.point - sphere.center) = radius * radius`; and whenever the discriminant
`h*h - a*c` is negative it returns `false`. -/
theorem sphere_hit_postcondition (sqrt : F → F) (hsqrt : SqrtSpec sqrt) (r : ray_t F)
    (hd : r.dir ≠ ⟨0, 0, 0⟩) (sphere : sphere_t F) (tmin tmax : F) :
    (∀ hit : hit_t F, sphere_hit sqrt r tmin tmax sphere = some hit →
        tmin < hit.delta ∧ hit.delta < tmax ∧
        hit.point = r.point + vec3.smul hit.delta r.dir ∧
        lengthsq (hit.point - sphere.center) = sphere.radius * sphere.radius) ∧
    (sphere_discriminant r sphere < 0 → sphere_hit sqrt r tmin tmax sphere = none) := by
  constructor
  · intro hit h
    obtain ⟨h0, h1, h2, rfl⟩ := (sphere_hit_some_iff sqrt r tmin tmax sphere hit).mp h
    refine ⟨h1, h2, rfl, ?_⟩
    exact point_on_sphere_of_root r sphere hd _ _ (hsqrt _ h0).2 rfl
  · intro h
    rw [sphere_hit_eq, if_pos h]

/-- A non-negative number is determined by its square. -/
theorem eq_of_sq_eq {x y : F} (hx : 0 ≤ x) (hy : 0 ≤ y) (h : x * x = y * y) : x = y := by
  rcases lt_trichotomy x y with hlt | heq | hgt
  · nlinarith
  · exact heq
  · nlinarith

/-- C3 (amended). For a sphere of non-zero radius the stored normal of a hit record is
oriented against the incoming ray: the division by `radius` is defined, and the record built
by `create_hit_info_for_sphere` has `dot r.dir hit.normal ≤ 0`; `front_face` is `true`
exactly when `dot r.dir outward_normal ≤ 0`, with
`outward_normal = (at(r,t) - center) / radius`, and then `hit.normal = outward_normal`;
`front_face` is `false` exactly when `dot r.dir outward_normal > 0`, and then
`hit.normal = -outward_normal`; the stored normal differs from `outward_normal` exactly when
`dot r.dir outward_normal > 0`. -/
theorem create_hit_info_normal_against_ray (r : ray_t F) (t : F) (sphere : sphere_t F)
    (hr : sphere.radius ≠ 0) :
    create_hit_info_for_sphere_checked r t sphere =
      some (create_hit_info_for_sphere r t sphere) ∧
    dot r.dir (create_hit_info_for_sphere r t sphere).normal ≤ 0 ∧
    ((create_hit_info_for_sphere r t sphere).front_face = true ↔
      dot r.dir ((r.at_ t - sphere.center).divs sphere.radius) ≤ 0) ∧
    ((create_hit_info_for_sphere r t sphere).front_face = true →
      (create_hit_info_for_sphere r t sphere).normal =
        (r.at_ t - sphere.center).divs sphere.radius) ∧
    ((create_hit_info_for_sphere r t sphere).front_face = false ↔
      0 < dot r.dir ((r.at_ t - sphere.center).divs sphere.radius)) ∧
    ((create_hit_info_for_sphere r t sphere).front_face = false →
      (create_hit_info_for_sphere r t sphere).normal =
        -((r.at_ t - sphere.center).divs sphere.radius)) ∧
    ((create_hit_info_for_sphere r t sphere).normal ≠
        (r.at_ t - sphere.center).divs sphere.radius ↔
      0 < dot r.dir ((r.at_ t - sphere.center).divs sphere.radius)) := by
  have hneg : ∀ n : vec3 F, dot r.dir (-n) = -dot r.dir n := by
    intro n; simp only [dot, vec3.neg_x, vec3.neg_y, vec3.neg_z]; ring
  refine ⟨by
    simp only [create_hit_info_for_sphere_checked, vec3.divs_checked, if_neg hr]
    rfl, ?_⟩
  by_cases h : dot r.dir ((r.at_ t - sphere.center).divs sphere.radius) ≤ 0
  · simp [create_hit_info_for_sphere, h, not_lt.mpr h]
  · have h2 := not_le.mp h
    have hne : -((r.at_ t - sphere.center).divs sphere.radius) ≠
        (r.at_ t - sphere.center).divs sphere.radius := by
      intro e
      have := congrArg (dot r.dir) e
      rw [hneg] at this
      linarith
    simp [create_hit_info_for_sphere, h, h2, hneg, le_of_lt h2, hne]

/-- C5. A ray that starts outside a sphere and points away from it never hits: if the
direction is non-zero, `lengthsq (center - origin) > radius * radius`,
`dot dir (center - origin) ≤ 0` and `tmin ≥ 0`, then `sphere_hit` returns `false`. -/
theorem sphere_hit_pointing_away (sqrt : F → F) (hsqrt : SqrtSpec sqrt) (r : ray_t F)
    (sphere : sphere_t F) (tmin tmax : F) (hd : r.dir ≠ ⟨0, 0, 0⟩)
    (_hout : lengthsq (sphere.center - r.point) > sphere.radius * sphere.radius)
    (haway : dot r.dir (sphere.center - r.point) ≤ 0) (htmin : 0 ≤ tmin) :
    sphere_hit sqrt r tmin tmax sphere = none := by
  rw [sphere_hit_eq]
  by_cases hdisc : sphere_discriminant r sphere < 0
  · rw [if_pos hdisc]
  · rw [if_neg hdisc]
    have hs := (hsqrt _ (not_lt.mp hdisc)).1
    have ha := dot_self_pos hd
    have ht : sphere_root_small sqrt r sphere ≤ 0 := by
      unfold sphere_root_small
      exact div_nonpos_of_nonpos_of_nonneg (by linarith) (le_of_lt ha)
    have : ¬ (inrange tmin tmax (sphere_root_small sqrt r sphere) = true) := by
      rw [inrange_iff]
      intro h
      linarith [h.1]
    rw [if_neg this]

/-- C6. For a ray through the sphere's centre the near hit faces the ray: if `radius > 0`,
the origin is outside the sphere, `center - origin = k * D` with `k > 0` and the near root is
strictly inside `(tmin, tmax)`, then `sphere_hit` returns `true` with `front_face = true` and
`hit.normal = -D / |D|`. -/
theorem sphere_hit_through_center (sqrt : F → F) (hsqrt : SqrtSpec sqrt) (r : ray_t F)
    (sphere : sphere_t F) (tmin tmax k : F) (hrad : 0 < sphere.radius)
    (hout : lengthsq (sphere.center - r.point) > sphere.radius * sphere.radius)
    (_hk : 0 < k) (hthrough : sphere.center - r.point = vec3.smul k r.dir)
    (hlo : tmin < sphere_root_small sqrt r sphere)
    (hhi : sphere_root_small sqrt r sphere < tmax) :
    ∃ hit : hit_t F, sphere_hit sqrt r tmin tmax sphere = some hit ∧
      hit.front_face = true ∧ hit.normal = (-r.dir).divs (length sqrt r.dir) := by
  -- the direction is not the zero vector
  have hd : r.dir ≠ ⟨0, 0, 0⟩ := by
    intro h0
    rw [hthrough, h0] at hout
    simp only [lengthsq, vec3.smul] at hout
    nlinarith [mul_self_nonneg sphere.radius]
  have ha := dot_self_pos hd
  have hcx : sphere.center.x - r.point.x = r.dir.x * k := congrArg vec3.x hthrough
  have hcy : sphere.center.y - r.point.y = r.dir.y * k := congrArg vec3.y hthrough
  have hcz : sphere.center.z - r.point.z = r.dir.z * k := congrArg vec3.z hthrough
  have hh : dot r.dir (sphere.center - r.point) = k * dot r.dir r.dir := by
    rw [hthrough]; simp only [dot, vec3.smul]; ring
  have hdisc : sphere_discriminant r sphere =
      dot r.dir r.dir * (sphere.radius * sphere.radius) := by
    simp only [sphere_discriminant]
    rw [hthrough]; simp only [dot, vec3.smul]; ring
  have hdisc0 : 0 ≤ sphere_discriminant r sphere := by
    rw [hdisc]; exact mul_nonneg (le_of_lt ha) (mul_self_nonneg _)
  -- the length of the direction
  have hL : length sqrt r.dir = sqrt (dot r.dir r.dir) := rfl
  obtain ⟨hL0, hLL⟩ := hsqrt _ (le_of_lt ha)
  have hLpos : 0 < sqrt (dot r.dir r.dir) := by
    rcases lt_or_eq_of_le hL0 with h | h
    · exact h
    · rw [← h] at hLL; linarith
  obtain ⟨hs0, hss⟩ := hsqrt _ hdisc0
  have hs : sqrt (sphere_discriminant r sphere) = sphere.radius * sqrt (dot r.dir r.dir) := by
    apply eq_of_sq_eq hs0 (mul_nonneg (le_of_lt hrad) hL0)
    rw [hss, hdisc]
    calc dot r.dir r.dir * (sphere.radius * sphere.radius)
        = (sqrt (dot r.dir r.dir) * sqrt (dot r.dir r.dir)) *
            (sphere.radius * sphere.radius) := by rw [hLL]
      _ = _ := by ring
  have ht : sphere_root_small sqrt r sphere = k - sphere.radius / sqrt (dot r.dir r.dir) := by
    unfold sphere_root_small
    rw [hh, hs]
    have aux : ∀ a L : F, L * L = a → L ≠ 0 →
        (k * a - sphere.radius * L) / a = k - sphere.radius / L := by
      intro a L h hL0
      subst h
      field_simp
      ring
    exact aux _ _ hLL (ne_of_gt hLpos)
  have hnormal : (r.at_ (sphere_root_small sqrt r sphere) - sphere.center).divs sphere.radius =
      (-r.dir).divs (length sqrt r.dir) := by
    have hrne := ne_of_gt hrad
    have hLne := ne_of_gt hLpos
    rw [ht, hL]
    ext
    · simp only [vec3.divs, ray_t.at_, vec3.muls, vec3.add_x, vec3.sub_x, vec3.neg_x]
      have : sphere.center.x = r.point.x + r.dir.x * k := by linarith
      rw [this]; field_simp; ring
    · simp only [vec3.divs, ray_t.at_, vec3.muls, vec3.add_y, vec3.sub_y, vec3.neg_y]
      have : sphere.center.y = r.point.y + r.dir.y * k := by linarith
      rw [this]; field_simp; ring
    · simp only [vec3.divs, ray_t.at_, vec3.muls, vec3.add_z, vec3.sub_z, vec3.neg_z]
      have : sphere.center.z = r.point.z + r.dir.z * k := by linarith
      rw [this]; field_simp; ring
  have hdot : dot r.dir ((-r.dir).divs (length sqrt r.dir)) ≤ 0 := by
    have : dot r.dir ((-r.dir).divs (length sqrt r.dir)) =
        -(dot r.dir r.dir / sqrt (dot r.dir r.dir)) := by
      rw [hL]; simp only [dot, vec3.divs, vec3.neg_x, vec3.neg_y, vec3.neg_z]
      ring
    rw [this]
    exact neg_nonpos.mpr (div_nonneg (le_of_lt ha) hL0)
  refine ⟨create_hit_info_for_sphere r (sphere_root_small sqrt r sphere) sphere, ?_, ?_, ?_⟩
  · rw [sphere_hit_some_iff]; exact ⟨hdisc0, hlo, hhi, rfl⟩
  · simp only [create_hit_info_for_sphere, hnormal, decide_eq_true_eq]; exact hdot
  · simp only [create_hit_info_for_sphere, hnormal, decide_eq_true hdot, if_true]


/-! ### Evaluation at concrete inputs over the reals -/

theorem sqrtSpec_real : SqrtSpec Real.sqrt :=
  fun x hx => ⟨Real.sqrt_nonneg x, Real.mul_self_sqrt hx⟩

theorem INF_POS_gt : (1000 : F) < INF_POS := by
  unfold INF_POS
  have h1 : (1 : F) ≤ 2 ^ 971 := one_le_pow₀ (by norm_num)
  have h2 : (1000 : F) ≤ 2 ^ 53 - 1 := by norm_num
  nlinarith

@[simp] theorem vec3.mk_sub_mk (a b c d e f : F) :
    (⟨a, b, c⟩ : vec3 F) - ⟨d, e, f⟩ = ⟨a - d, b - e, c - f⟩ := rfl
@[simp] theorem vec3.mk_add_mk (a b c d e f : F) :
    (⟨a, b, c⟩ : vec3 F) + ⟨d, e, f⟩ = ⟨a + d, b + e, c + f⟩ := rfl
@[simp] theorem vec3.neg_mk (a b c : F) : -(⟨a, b, c⟩ : vec3 F) = ⟨-a, -b, -c⟩ := rfl
@[simp] theorem vec3.mk_mul_mk (a b c d e f : F) :
    (⟨a, b, c⟩ : vec3 F) * ⟨d, e, f⟩ = ⟨d * a, e * b, f * c⟩ := rfl

/-- C1. The ray from the centre of the unit sphere along +z, bounds `(0.001, INF_POS)`: the
discriminant is non-negative, the smaller root `-1` is outside the bounds, the larger root
`1` is strictly inside, and `sphere_hit` reports no hit. -/
theorem sphere_hit_from_center_misses :
    0 ≤ sphere_discriminant (⟨⟨0, 0, 0⟩, ⟨0, 0, 1⟩⟩ : ray_t ℝ)
        ⟨⟨0, 0, 0⟩, material_t.Lambertian ⟨0, 0, 0⟩, 1⟩ ∧
    sphere_root_small Real.sqrt (⟨⟨0, 0, 0⟩, ⟨0, 0, 1⟩⟩ : ray_t ℝ)
        ⟨⟨0, 0, 0⟩, material_t.Lambertian ⟨0, 0, 0⟩, 1⟩ = -1 ∧
    sphere_root_large Real.sqrt (⟨⟨0, 0, 0⟩, ⟨0, 0, 1⟩⟩ : ray_t ℝ)
        ⟨⟨0, 0, 0⟩, material_t.Lambertian ⟨0, 0, 0⟩, 1⟩ = 1 ∧
    (0.001 : ℝ) < 1 ∧ (1 : ℝ) < INF_POS ∧
    sphere_hit Real.sqrt (⟨⟨0, 0, 0⟩, ⟨0, 0, 1⟩⟩ : ray_t ℝ) 0.001 INF_POS
        ⟨⟨0, 0, 0⟩, material_t.Lambertian ⟨0, 0, 0⟩, 1⟩ = none := by
  have hd : sphere_discriminant (⟨⟨0, 0, 0⟩, ⟨0, 0, 1⟩⟩ : ray_t ℝ)
        ⟨⟨0, 0, 0⟩, material_t.Lambertian ⟨0, 0, 0⟩, 1⟩ = 1 := by
    simp [sphere_discriminant, dot]
  have hs : sphere_root_small Real.sqrt (⟨⟨0, 0, 0⟩, ⟨0, 0, 1⟩⟩ : ray_t ℝ)
        ⟨⟨0, 0, 0⟩, material_t.Lambertian ⟨0, 0, 0⟩, 1⟩ = -1 := by
    rw [sphere_root_small, hd]; simp [dot]
  have hl : sphere_root_large Real.sqrt (⟨⟨0, 0, 0⟩, ⟨0, 0, 1⟩⟩ : ray_t ℝ)
        ⟨⟨0, 0, 0⟩, material_t.Lambertian ⟨0, 0, 0⟩, 1⟩ = 1 := by
    rw [sphere_root_large, hd]; simp [dot]
  refine ⟨by rw [hd]; norm_num, hs, hl, by norm_num, by linarith [INF_POS_gt (F := ℝ)], ?_⟩
  rw [sphere_hit_eq, hd, hs]
  norm_num [inrange]

/-- The ray from `(0,0,-3)` along +z meets the unit sphere at the smaller root `t = 2`. -/
theorem sphere_root_small_example :
    0 ≤ sphere_discriminant (⟨⟨0, 0, -3⟩, ⟨0, 0, 1⟩⟩ : ray_t ℝ)
        ⟨⟨0, 0, 0⟩, material_t.Lambertian ⟨0, 0, 0⟩, 1⟩ ∧
    sphere_root_small Real.sqrt (⟨⟨0, 0, -3⟩, ⟨0, 0, 1⟩⟩ : ray_t ℝ)
        ⟨⟨0, 0, 0⟩, material_t.Lambertian ⟨0, 0, 0⟩, 1⟩ = 2 := by
  have hd : sphere_discriminant (⟨⟨0, 0, -3⟩, ⟨0, 0, 1⟩⟩ : ray_t ℝ)
        ⟨⟨0, 0, 0⟩, material_t.Lambertian ⟨0, 0, 0⟩, 1⟩ = 1 := by
    norm_num [sphere_discriminant, dot]
  refine ⟨by rw [hd]; norm_num, ?_⟩
  rw [sphere_root_small, hd]; norm_num [dot]

/-- Witness for C4: the ray from `(0,0,-3)` along +z hits the unit sphere at `t = 2`. -/
theorem sphere_hit_postcondition_witness :
    SqrtSpec Real.sqrt ∧ (⟨0, 0, 1⟩ : vec3 ℝ) ≠ ⟨0, 0, 0⟩ ∧
    (sphere_hit Real.sqrt (⟨⟨0, 0, -3⟩, ⟨0, 0, 1⟩⟩ : ray_t ℝ) 0.001 INF_POS
      ⟨⟨0, 0, 0⟩, material_t.Lambertian ⟨0, 0, 0⟩, 1⟩).isSome = true ∧
    ((∀ hit : hit_t ℝ, sphere_hit Real.sqrt ⟨⟨0, 0, -3⟩, ⟨0, 0, 1⟩⟩ 0.001 INF_POS
          ⟨⟨0, 0, 0⟩, material_t.Lambertian ⟨0, 0, 0⟩, 1⟩ = some hit →
        0.001 < hit.delta ∧ hit.delta < INF_POS ∧
        hit.point = (⟨0, 0, -3⟩ : vec3 ℝ) + vec3.smul hit.delta ⟨0, 0, 1⟩ ∧
        lengthsq (hit.point - ⟨0, 0, 0⟩) = 1 * 1) ∧
      (sphere_discriminant (⟨⟨0, 0, -3⟩, ⟨0, 0, 1⟩⟩ : ray_t ℝ)
          ⟨⟨0, 0, 0⟩, material_t.Lambertian ⟨0, 0, 0⟩, 1⟩ < 0 →
        sphere_hit Real.sqrt (⟨⟨0, 0, -3⟩, ⟨0, 0, 1⟩⟩ : ray_t ℝ) 0.001 INF_POS
          ⟨⟨0, 0, 0⟩, material_t.Lambertian ⟨0, 0, 0⟩, 1⟩ = none)) :=
  ⟨sqrtSpec_real, by simp,
    by
      rw [Option.isSome_iff_exists]
      refine ⟨_, (sphere_hit_some_iff _ _ _ _ _ _).mpr
        ⟨sphere_root_small_example.1, ?_, ?_, rfl⟩⟩
      · rw [sphere_root_small_example.2]; norm_num
      · rw [sphere_root_small_example.2]; linarith [INF_POS_gt (F := ℝ)],
    sphere_hit_postcondition Real.sqrt sqrtSpec_real ⟨⟨0, 0, -3⟩, ⟨0, 0, 1⟩⟩ (by simp)
      ⟨⟨0, 0, 0⟩, material_t.Lambertian ⟨0, 0, 0⟩, 1⟩ 0.001 INF_POS⟩

/-- Witness for C5: the ray from `(0,0,-3)` along -z points away from the unit sphere. -/
theorem sphere_hit_pointing_away_witness :
    SqrtSpec Real.sqrt ∧ (⟨0, 0, -1⟩ : vec3 ℝ) ≠ ⟨0, 0, 0⟩ ∧
    lengthsq ((⟨0, 0, 0⟩ : vec3 ℝ) - ⟨0, 0, -3⟩) > 1 * 1 ∧
    dot (⟨0, 0, -1⟩ : vec3 ℝ) (⟨0, 0, 0⟩ - ⟨0, 0, -3⟩) ≤ 0 ∧ (0 : ℝ) ≤ 0.001 ∧
    sphere_hit Real.sqrt (⟨⟨0, 0, -3⟩, ⟨0, 0, -1⟩⟩ : ray_t ℝ) 0.001 INF_POS
      ⟨⟨0, 0, 0⟩, material_t.Lambertian ⟨0, 0, 0⟩, 1⟩ = none :=
  ⟨sqrtSpec_real, by simp, by norm_num [lengthsq], by norm_num [dot], by norm_num,
    sphere_hit_pointing_away Real.sqrt sqrtSpec_real ⟨⟨0, 0, -3⟩, ⟨0, 0, -1⟩⟩
      ⟨⟨0, 0, 0⟩, material_t.Lambertian ⟨0, 0, 0⟩, 1⟩ 0.001 INF_POS (by simp)
      (by norm_num [lengthsq]) (by norm_num [dot]) (by norm_num)⟩

/-- Witness for C6: the ray from `(0,0,-3)` along +z passes through the centre of the unit
sphere (`k = 3`) and its near hit has the normal `(0,0,-1)/|D|`. -/
theorem sphere_hit_through_center_witness :
    SqrtSpec Real.sqrt ∧ (0 : ℝ) < 1 ∧
    lengthsq ((⟨0, 0, 0⟩ : vec3 ℝ) - ⟨0, 0, -3⟩) > 1 * 1 ∧ (0 : ℝ) < 3 ∧
    (⟨0, 0, 0⟩ : vec3 ℝ) - ⟨0, 0, -3⟩ = vec3.smul 3 ⟨0, 0, 1⟩ ∧
    0.001 < sphere_root_small Real.sqrt (⟨⟨0, 0, -3⟩, ⟨0, 0, 1⟩⟩ : ray_t ℝ)
      ⟨⟨0, 0, 0⟩, material_t.Lambertian ⟨0, 0, 0⟩, 1⟩ ∧
    sphere_root_small Real.sqrt (⟨⟨0, 0, -3⟩, ⟨0, 0, 1⟩⟩ : ray_t ℝ)
      ⟨⟨0, 0, 0⟩, material_t.Lambertian ⟨0, 0, 0⟩, 1⟩ < INF_POS ∧
    ∃ hit : hit_t ℝ, sphere_hit Real.sqrt (⟨⟨0, 0, -3⟩, ⟨0, 0, 1⟩⟩ : ray_t ℝ) 0.001 INF_POS
        ⟨⟨0, 0, 0⟩, material_t.Lambertian ⟨0, 0, 0⟩, 1⟩ = some hit ∧
      hit.front_face = true ∧
      hit.normal = (-(⟨0, 0, 1⟩ : vec3 ℝ)).divs (length Real.sqrt ⟨0, 0, 1⟩) :=
  have h1 : lengthsq ((⟨0, 0, 0⟩ : vec3 ℝ) - ⟨0, 0, -3⟩) > 1 * 1 := by norm_num [lengthsq]
  have h2 : (⟨0, 0, 0⟩ : vec3 ℝ) - ⟨0, 0, -3⟩ = vec3.smul 3 ⟨0, 0, 1⟩ := by
    simp [vec3.smul]
  have h3 : 0.001 < sphere_root_small Real.sqrt (⟨⟨0, 0, -3⟩, ⟨0, 0, 1⟩⟩ : ray_t ℝ)
      ⟨⟨0, 0, 0⟩, material_t.Lambertian ⟨0, 0, 0⟩, 1⟩ := by
    rw [sphere_root_small_example.2]; norm_num
  have h4 : sphere_root_small Real.sqrt (⟨⟨0, 0, -3⟩, ⟨0, 0, 1⟩⟩ : ray_t ℝ)
      ⟨⟨0, 0, 0⟩, material_t.Lambertian ⟨0, 0, 0⟩, 1⟩ < INF_POS := by
    rw [sphere_root_small_example.2]; linarith [INF_POS_gt (F := ℝ)]
  ⟨sqrtSpec_real, by norm_num, h1, by norm_num, h2, h3, h4,
    sphere_hit_through_center Real.sqrt sqrtSpec_real ⟨⟨0, 0, -3⟩, ⟨0, 0, 1⟩⟩
      ⟨⟨0, 0, 0⟩, material_t.Lambertian ⟨0, 0, 0⟩, 1⟩ 0.001 INF_POS 3 (by norm_num) h1
      (by norm_num) h2 h3 h4⟩

/-! ### The nearest-hit loop -/

theorem entity_hit_some_iff (sqrt : F → F) (ray : ray_t F) (e : entity_t F) (h : hit_t F) :
    entity_hit sqrt ray e = some h ↔
      ∃ sphere, e = entity_t.Sphere sphere ∧
        sphere_hit sqrt ray 0.001 INF_POS sphere = some h := by
  cases e with
  | Sphere s => simp [entity_hit]
  | Cube => simp [entity_hit]

theorem cast_ray_loop_step_eq (sqrt : F → F) (ray : ray_t F) (st : Bool × hit_t F)
    (e : entity_t F) :
    cast_ray_loop_step sqrt ray st e =
      match entity_hit sqrt ray e with
      | some hit => if st.1 = false ∨ st.2.delta > hit.delta then (true, hit) else st
      | none => st := by
  cases e with
  | Sphere s => rfl
  | Cube => rfl

theorem loopInv_nil (sqrt : F → F) (ray : ray_t F) :
    LoopInv sqrt ray [] (false, hit_t.zero) := by
  unfold LoopInv
  refine ⟨?_, ?_, ?_⟩
  · simp
  · intro h; simp at h
  · intro _; rfl

theorem loopInv_snoc (sqrt : F → F) (ray : ray_t F) (l : List (entity_t F))
    (st : Bool × hit_t F) (e : entity_t F) (inv : LoopInv sqrt ray l st) :
    LoopInv sqrt ray (l ++ [e]) (cast_ray_loop_step sqrt ray st e) := by
  obtain ⟨inv1, inv2, inv3⟩ := inv
  rw [cast_ray_loop_step_eq]
  cases he : entity_hit sqrt ray e with
  | none =>
    simp only
    refine ⟨?_, ?_, inv3⟩
    · rw [inv1]
      constructor
      · rintro ⟨e1, h1, hm, hh⟩
        exact ⟨e1, h1, List.mem_append_left _ hm, hh⟩
      · rintro ⟨e1, h1, hm, hh⟩
        rcases List.mem_append.mp hm with hm | hm
        · exact ⟨e1, h1, hm, hh⟩
        · rw [List.mem_singleton.mp hm, he] at hh; cases hh
    · intro hst
      obtain ⟨hmin, i, e1, hi, hhit, hbefore⟩ := inv2 hst
      have hil : i < l.length := (List.getElem?_eq_some_iff.mp hi).1
      refine ⟨?_, i, e1, ?_, hhit, ?_⟩
      · intro e2 h2 hm hh
        rcases List.mem_append.mp hm with hm | hm
        · exact hmin e2 h2 hm hh
        · rw [List.mem_singleton.mp hm, he] at hh; cases hh
      · rw [List.getElem?_append_left hil]; exact hi
      · intro j e2 h2 hj hje hh
        rw [List.getElem?_append_left (lt_trans hj hil)] at hje
        exact hbefore j e2 h2 hj hje hh
  | some h0 =>
    simp only
    by_cases hc : st.1 = false ∨ st.2.delta > h0.delta
    · rw [if_pos hc]
      refine ⟨?_, ?_, fun h => by cases h⟩
      · simp only [true_iff]
        exact ⟨e, h0, List.mem_append_right _ (List.mem_singleton.mpr rfl), he⟩
      · intro _
        -- every earlier hit is strictly farther than the new one
        have hfar : ∀ e2 h2, e2 ∈ l → entity_hit sqrt ray e2 = some h2 →
            h0.delta < h2.delta := by
          intro e2 h2 hm hh
          have hst : st.1 = true := inv1.mpr ⟨e2, h2, hm, hh⟩
          rcases hc with hc | hc
          · rw [hst] at hc; cases hc
          · exact lt_of_lt_of_le hc ((inv2 hst).1 e2 h2 hm hh)
        refine ⟨?_, l.length, e, ?_, he, ?_⟩
        · intro e2 h2 hm hh
          rcases List.mem_append.mp hm with hm | hm
          · exact le_of_lt (hfar e2 h2 hm hh)
          · rw [List.mem_singleton.mp hm, he] at hh
            cases hh; exact le_refl _
        · simp
        · intro j e2 h2 hj hje hh
          rw [List.getElem?_append_left hj] at hje
          exact hfar e2 h2 (List.getElem?_mem hje) hh
    · rw [if_neg hc]
      have hst : st.1 = true := by
        by_contra hne
        exact hc (Or.inl (by simpa using hne))
      have hle : st.2.delta ≤ h0.delta := by
        by_contra hne
        exact hc (Or.inr (not_le.mp hne))
      obtain ⟨hmin, i, e1, hi, hhit, hbefore⟩ := inv2 hst
      have hil : i < l.length := (List.getElem?_eq_some_iff.mp hi).1
      refine ⟨?_, ?_, fun h => by rw [hst] at h; cases h⟩
      · simp only [hst, true_iff]
        exact ⟨e, h0, List.mem_append_right _ (List.mem_singleton.mpr rfl), he⟩
      · intro _
        refine ⟨?_, i, e1, ?_, hhit, ?_⟩
        · intro e2 h2 hm hh
          rcases List.mem_append.mp hm with hm | hm
          · exact hmin e2 h2 hm hh
          · rw [List.mem_singleton.mp hm, he] at hh
            cases hh; exact hle
        · rw [List.getElem?_append_left hil]; exact hi
        · intro j e2 h2 hj hje hh
          rw [List.getElem?_append_left (lt_trans hj hil)] at hje
          exact hbefore j e2 h2 hj hje hh

theorem cast_ray_loop_inv (sqrt : F → F) (ray : ray_t F) (entities : List (entity_t F)) :
    LoopInv sqrt ray entities (cast_ray_loop sqrt ray entities) := by
  induction entities using List.reverseRecOn with
  | nil => exact loopInv_nil sqrt ray
  | append_singleton l e ih =>
    have : cast_ray_loop sqrt ray (l ++ [e]) =
        cast_ray_loop_step sqrt ray (cast_ray_loop sqrt ray l) e := by
      simp [cast_ray_loop, List.foldl_append]
    rw [this]
    exact loopInv_snoc sqrt ray l _ e ih

/-- C2. The nearest-hit loop of `cast_ray` keeps the minimum valid `t` over the whole entity
list: it ends with `hitted = true` iff some `Sphere` entity reports a hit by `sphere_hit`
within `(0.001, INF_POS)`; in that case `minhit.delta` is at most the `delta` of every sphere
that reports a hit, and `minhit` is the hit of the earliest entity that attains it (every
earlier hit is strictly farther); and the outcome (`hitted` and `minhit.delta`) is the same
for every reordering of the entity list. -/
theorem cast_ray_loop_nearest (sqrt : F → F) (ray : ray_t F) (entities : List (entity_t F)) :
    ((cast_ray_loop sqrt ray entities).1 = true ↔
      ∃ sphere hit, entity_t.Sphere sphere ∈ entities ∧
        sphere_hit sqrt ray 0.001 INF_POS sphere = some hit) ∧
    ((cast_ray_loop sqrt ray entities).1 = true →
      (∀ sphere hit, entity_t.Sphere sphere ∈ entities →
        sphere_hit sqrt ray 0.001 INF_POS sphere = some hit →
        (cast_ray_loop sqrt ray entities).2.delta ≤ hit.delta) ∧
      ∃ (i : Nat) (sphere : sphere_t F), entities[i]? = some (entity_t.Sphere sphere) ∧
        sphere_hit sqrt ray 0.001 INF_POS sphere = some (cast_ray_loop sqrt ray entities).2 ∧
        ∀ (j : Nat) (sphere2 : sphere_t F) (hit2 : hit_t F), j < i →
          entities[j]? = some (entity_t.Sphere sphere2) →
          sphere_hit sqrt ray 0.001 INF_POS sphere2 = some hit2 →
          (cast_ray_loop sqrt ray entities).2.delta < hit2.delta) ∧
    (∀ entities2 : List (entity_t F), List.Perm entities2 entities →
      (cast_ray_loop sqrt ray entities2).1 = (cast_ray_loop sqrt ray entities).1 ∧
      (cast_ray_loop sqrt ray entities2).2.delta =
        (cast_ray_loop sqrt ray entities).2.delta) := by
  obtain ⟨inv1, inv2, inv3⟩ := cast_ray_loop_inv sqrt ray entities
  refine ⟨?_, ?_, ?_⟩
  · rw [inv1]
    constructor
    · rintro ⟨e, h, hm, hh⟩
      obtain ⟨s, rfl, hs⟩ := (entity_hit_some_iff sqrt ray e h).mp hh
      exact ⟨s, h, hm, hs⟩
    · rintro ⟨s, h, hm, hs⟩
      exact ⟨entity_t.Sphere s, h, hm, hs⟩
  · intro hst
    obtain ⟨hmin, i, e, hi, hhit, hbefore⟩ := inv2 hst
    obtain ⟨s, rfl, hs⟩ := (entity_hit_some_iff sqrt ray e _).mp hhit
    refine ⟨fun s2 h2 hm hh => hmin (entity_t.Sphere s2) h2 hm hh, i, s, hi, hs, ?_⟩
    intro j s2 h2 hj hje hh
    exact hbefore j (entity_t.Sphere s2) h2 hj hje hh
  · intro entities2 hperm
    obtain ⟨p1, p2, p3⟩ := cast_ray_loop_inv sqrt ray entities2
    have hiff : (cast_ray_loop sqrt ray entities2).1 = true ↔
        (cast_ray_loop sqrt ray entities).1 = true := by
      rw [inv1, p1]
      constructor
      · rintro ⟨e, h, hm, hh⟩; exact ⟨e, h, hperm.mem_iff.mp hm, hh⟩
      · rintro ⟨e, h, hm, hh⟩; exact ⟨e, h, hperm.mem_iff.mpr hm, hh⟩
    have hb : (cast_ray_loop sqrt ray entities2).1 = (cast_ray_loop sqrt ray entities).1 := by
      cases h1 : (cast_ray_loop sqrt ray entities2).1 <;>
        cases h2 : (cast_ray_loop sqrt ray entities).1 <;> simp_all
    refine ⟨hb, ?_⟩
    cases h2 : (cast_ray_loop sqrt ray entities).1 with
    | false =>
      rw [inv3 h2, p3 (hb.trans h2)]
    | true =>
      have h1 := hb.trans h2
      obtain ⟨hmin, i, e, hi, hhit, _⟩ := inv2 h2
      obtain ⟨qmin, k, e2, hk, qhit, _⟩ := p2 h1
      apply le_antisymm
      · exact qmin e _ (hperm.mem_iff.mpr (List.getElem?_mem hi)) hhit
      · exact hmin e2 _ (hperm.mem_iff.mp (List.getElem?_mem hk)) qhit

/-! ### The real-time intersection `Sphere::get_intersection` -/

/-- Either root `b - s` or `b + s`, with `s * s` the discriminant, lies on the sphere when
the direction has unit length. -/
theorem Realtime.root_on_sphere (sphere : Realtime.Sphere F) (ray : Realtime.Ray F)
    (hunit : Realtime.dot ray.direction ray.direction = 1) (s t : F)
    (hs : s * s = Realtime.dot (sphere.origin - ray.origin) ray.direction *
        Realtime.dot (sphere.origin - ray.origin) ray.direction -
      Realtime.dot (sphere.origin - ray.origin) (sphere.origin - ray.origin) +
      sphere.radius * sphere.radius)
    (ht : t = Realtime.dot (sphere.origin - ray.origin) ray.direction - s ∨
      t = Realtime.dot (sphere.origin - ray.origin) ray.direction + s) :
    (ray.origin + Realtime.v3.smul t ray.direction - sphere.origin).length_squared =
      sphere.radius * sphere.radius := by
  have key : (ray.origin + Realtime.v3.smul t ray.direction - sphere.origin).length_squared =
      t * t * Realtime.dot ray.direction ray.direction -
        2 * t * Realtime.dot (sphere.origin - ray.origin) ray.direction +
        Realtime.dot (sphere.origin - ray.origin) (sphere.origin - ray.origin) := by
    simp only [Realtime.v3.length_squared, Realtime.dot, Realtime.v3.smul]
    show (ray.origin.x + ray.direction.x * t - sphere.origin.x) *
          (ray.origin.x + ray.direction.x * t - sphere.origin.x) +
        (ray.origin.y + ray.direction.y * t - sphere.origin.y) *
          (ray.origin.y + ray.direction.y * t - sphere.origin.y) +
        (ray.origin.z + ray.direction.z * t - sphere.origin.z) *
          (ray.origin.z + ray.direction.z * t - sphere.origin.z) =
      t * t * (ray.direction.x * ray.direction.x + ray.direction.y * ray.direction.y +
          ray.direction.z * ray.direction.z) -
        2 * t * ((sphere.origin.x - ray.origin.x) * ray.direction.x +
          (sphere.origin.y - ray.origin.y) * ray.direction.y +
          (sphere.origin.z - ray.origin.z) * ray.direction.z) +
        ((sphere.origin.x - ray.origin.x) * (sphere.origin.x - ray.origin.x) +
          (sphere.origin.y - ray.origin.y) * (sphere.origin.y - ray.origin.y) +
          (sphere.origin.z - ray.origin.z) * (sphere.origin.z - ray.origin.z))
    ring
  rw [key, hunit]
  rcases ht with ht | ht <;> (rw [ht]; linear_combination hs)

/-- The value `Sphere::get_intersection` returns. -/
theorem Realtime.get_intersection_eq (sqrt : F → F) (sphere : Realtime.Sphere F)
    (ray : Realtime.Ray F) :
    sphere.get_intersection sqrt ray =
      if Realtime.dot (sphere.origin - ray.origin) ray.direction *
          Realtime.dot (sphere.origin - ray.origin) ray.direction -
          Realtime.dot (sphere.origin - ray.origin) (sphere.origin - ray.origin) +
          sphere.radius * sphere.radius < 0 then 0
      else if Realtime.dot (sphere.origin - ray.origin) ray.direction -
          sqrt (Realtime.dot (sphere.origin - ray.origin) ray.direction *
            Realtime.dot (sphere.origin - ray.origin) ray.direction -
            Realtime.dot (sphere.origin - ray.origin) (sphere.origin - ray.origin) +
            sphere.radius * sphere.radius) > 0 then
        Realtime.dot (sphere.origin - ray.origin) ray.direction -
          sqrt (Realtime.dot (sphere.origin - ray.origin) ray.direction *
            Realtime.dot (sphere.origin - ray.origin) ray.direction -
            Realtime.dot (sphere.origin - ray.origin) (sphere.origin - ray.origin) +
            sphere.radius * sphere.radius)
      else if Realtime.dot (sphere.origin - ray.origin) ray.direction +
          sqrt (Realtime.dot (sphere.origin - ray.origin) ray.direction *
            Realtime.dot (sphere.origin - ray.origin) ray.direction -
            Realtime.dot (sphere.origin - ray.origin) (sphere.origin - ray.origin) +
            sphere.radius * sphere.radius) > 0 then
        Realtime.dot (sphere.origin - ray.origin) ray.direction +
          sqrt (Realtime.dot (sphere.origin - ray.origin) ray.direction *
            Realtime.dot (sphere.origin - ray.origin) ray.direction -
            Realtime.dot (sphere.origin - ray.origin) (sphere.origin - ray.origin) +
            sphere.radius * sphere.radius)
      else 0 := rfl

/-- The intersection test of `main`: the distance is positive. -/
theorem Realtime.get_intersection_test_pos (sqrt : F → F) (hsqrt : SqrtSpec sqrt) :
    0 < Realtime.Sphere.get_intersection sqrt ⟨⟨0, 0, -50⟩, 20, ⟨0, 0, 0, 0⟩⟩
      ⟨⟨0, 0, 10⟩, Realtime.normalised sqrt ⟨1, 1, -10⟩⟩ := by
  have h102 : (⟨1, 1, -10⟩ : Realtime.v3 F).length sqrt = sqrt 102 := by
    simp only [Realtime.v3.length, Realtime.v3.length_squared]; norm_num
  obtain ⟨hL0, hLL⟩ := hsqrt 102 (by norm_num)
  have hLpos : 0 < sqrt 102 := by
    rcases lt_or_eq_of_le hL0 with h | h
    · exact h
    · rw [← h] at hLL; norm_num at hLL
  have hdir : Realtime.normalised sqrt (⟨1, 1, -10⟩ : Realtime.v3 F) =
      ⟨1 / sqrt 102, 1 / sqrt 102, -10 / sqrt 102⟩ := by
    simp only [Realtime.normalised, h102, if_neg (ne_of_gt hLpos)]
  have hb : Realtime.dot ((⟨0, 0, -50⟩ : Realtime.v3 F) - ⟨0, 0, 10⟩)
      (⟨1 / sqrt 102, 1 / sqrt 102, -10 / sqrt 102⟩ : Realtime.v3 F) = 600 / sqrt 102 := by
    show (0 - 0) * (1 / sqrt 102) + (0 - 0) * (1 / sqrt 102) +
      (-50 - 10) * (-10 / sqrt 102) = 600 / sqrt 102
    ring
  have hod : Realtime.dot ((⟨0, 0, -50⟩ : Realtime.v3 F) - ⟨0, 0, 10⟩)
      ((⟨0, 0, -50⟩ : Realtime.v3 F) - ⟨0, 0, 10⟩) = 3600 := by
    show (0 - 0) * (0 - 0) + (0 - 0) * (0 - 0) + (-50 - 10) * (-50 - 10) = (3600 : F)
    norm_num
  have hbb : (600 / sqrt 102) * (600 / sqrt 102) = 360000 / 102 := by
    rw [div_mul_div_comm, hLL]; norm_num
  have hbpos : 0 < 600 / sqrt 102 := div_pos (by norm_num) hLpos
  rw [Realtime.get_intersection_eq]
  simp only [hdir, hb, hod, hbb]
  have hdelta : (0 : F) ≤ 360000 / 102 - 3600 + 20 * 20 := by norm_num
  obtain ⟨hs0, hss⟩ := hsqrt _ hdelta
  have hlt : sqrt (360000 / 102 - 3600 + 20 * 20) < 600 / sqrt 102 := by
    by_contra hge
    have hge := not_lt.mp hge
    have : (600 / sqrt 102) * (600 / sqrt 102) ≤
        sqrt (360000 / 102 - 3600 + 20 * 20) * sqrt (360000 / 102 - 3600 + 20 * 20) :=
      mul_le_mul hge hge (le_of_lt hbpos) hs0
    rw [hss, hbb] at this
    norm_num at this
  rw [if_neg (not_lt.mpr hdelta), if_pos (sub_pos.mpr hlt)]
  exact sub_pos.mpr hlt

/-- C7. `Sphere::get_intersection` returns a distance whose point is on the sphere: for every
sphere and every ray with unit-length direction the result `t` is non-negative, and when
`t` is non-zero the point `ray.origin + t * ray.direction` is at squared distance
`radius * radius` from `sphere.origin`; for the input of the test in `main` (radius 20 at
`(0,0,-50)`, ray from `(0,0,10)` along the normalised `(1,1,-10)`) the result is positive. -/
theorem get_intersection_on_sphere (sqrt : F → F) (hsqrt : SqrtSpec sqrt)
    (sphere : Realtime.Sphere F) (ray : Realtime.Ray F)
    (hunit : ray.direction.length sqrt = 1) :
    0 ≤ sphere.get_intersection sqrt ray ∧
    (sphere.get_intersection sqrt ray ≠ 0 →
      (ray.origin + Realtime.v3.smul (sphere.get_intersection sqrt ray) ray.direction -
        sphere.origin).length_squared = sphere.radius * sphere.radius) ∧
    0 < Realtime.Sphere.get_intersection sqrt ⟨⟨0, 0, -50⟩, 20, ⟨0, 0, 0, 0⟩⟩
      ⟨⟨0, 0, 10⟩, Realtime.normalised sqrt ⟨1, 1, -10⟩⟩ := by
  have hdd : Realtime.dot ray.direction ray.direction = 1 := by
    have h0 : 0 ≤ ray.direction.length_squared := by
      unfold Realtime.v3.length_squared
      nlinarith [mul_self_nonneg ray.direction.x, mul_self_nonneg ray.direction.y,
        mul_self_nonneg ray.direction.z]
    have := (hsqrt _ h0).2
    unfold Realtime.v3.length at hunit
    rw [hunit] at this
    simp only [Realtime.dot]
    simp only [Realtime.v3.length_squared] at this
    linarith
  refine ⟨?_, ?_, Realtime.get_intersection_test_pos sqrt hsqrt⟩
  · rw [Realtime.get_intersection_eq]
    split_ifs with h1 h2 h3
    · exact le_refl _
    · exact le_of_lt h2
    · exact le_of_lt h3
    · exact le_refl _
  · rw [Realtime.get_intersection_eq]
    split_ifs with h1 h2 h3
    · intro h; exact absurd rfl h
    · intro _
      exact Realtime.root_on_sphere sphere ray hdd _ _
        (hsqrt _ (not_lt.mp h1)).2 (Or.inl rfl)
    · intro _
      exact Realtime.root_on_sphere sphere ray hdd _ _
        (hsqrt _ (not_lt.mp h1)).2 (Or.inr rfl)
    · intro h; exact absurd rfl h

/-! ### The material branch of `cast_ray` -/

/-- The template `abs` is the absolute value. -/
theorem abs_eq_abs (x : F) : Raytracer.abs x = |x| := by
  unfold Raytracer.abs
  split_ifs with h
  · exact (abs_of_neg h).symm
  · exact (abs_of_nonneg (not_lt.mp h)).symm

theorem near_zero_iff (a : vec3 F) :
    near_zero a = true ↔ |a.x| < 10e-5 ∧ |a.y| < 10e-5 ∧ |a.z| < 10e-5 := by
  simp only [near_zero, abs_eq_abs, Bool.and_eq_true, decide_eq_true_eq, and_assoc]

/-- A call of `cast_ray` with budget left whose loop found `hit` and whose material branch
produced `attenuation` and `newdirection` returns `attenuation` times the recursive call. -/
theorem cast_ray_of_hit (sqrt : F → F) (RAND_MAX fuel : Nat) (entities : List (entity_t F))
    (bounces_left : Nat) (ray : ray_t F) (g g1 : rng_t) (hit : hit_t F)
    (attenuation : color3 F) (newdirection : vec3 F)
    (hloop : cast_ray_loop sqrt ray entities = (true, hit))
    (hsc : cast_ray_scatter sqrt RAND_MAX fuel ray hit g = some (attenuation, newdirection, g1)) :
    cast_ray sqrt RAND_MAX fuel entities (bounces_left + 1) ray g =
      Option.map (fun cg => (attenuation * cg.1, cg.2))
        (cast_ray sqrt RAND_MAX fuel entities bounces_left ⟨hit.point, newdirection⟩ g1) := by
  rw [cast_ray]
  simp only [hloop, hsc, if_true]
  cases cast_ray sqrt RAND_MAX fuel entities bounces_left ⟨hit.point, newdirection⟩ g1 with
  | none => rfl
  | some cg => rfl

/-- A call of `cast_ray` with budget left whose loop found no hit returns the sky gradient. -/
theorem cast_ray_of_miss (sqrt : F → F) (RAND_MAX fuel : Nat) (entities : List (entity_t F))
    (bounces_left : Nat) (ray : ray_t F) (g : rng_t)
    (hloop : (cast_ray_loop sqrt ray entities).1 = false) :
    cast_ray sqrt RAND_MAX fuel entities (bounces_left + 1) ray g =
      some (vec3.smul (1.0 - 0.5 * (ray.dir.y + 1.0)) (⟨1.0, 1.0, 1.0⟩ : color3 F) +
        vec3.smul (0.5 * (ray.dir.y + 1.0)) ⟨0.5, 0.7, 1.0⟩, g) := by
  rw [cast_ray]
  simp only [hloop, Bool.false_eq_true, if_false]

/-- C10. A Lambertian hit never absorbs: with budget left, for every sampled unit vector
`u`, `cast_ray` returns `albedo` (component-wise) times `cast_ray` of the scattered ray from
`hit.point` with `bounces_left - 1`; the scattered direction is `u + hit.normal`, except that
it is `hit.normal` when every component of `u + hit.normal` is below `10e-5` in absolute
value; for a unit-length normal the scattered direction is not the zero vector. -/
theorem cast_ray_lambertian (sqrt : F → F) (RAND_MAX fuel : Nat)
    (entities : List (entity_t F)) (bounces_left : Nat) (ray : ray_t F) (g g1 : rng_t)
    (hit : hit_t F) (albedo : color3 F) (u : vec3 F) (hb : 1 ≤ bounces_left)
    (hloop : cast_ray_loop sqrt ray entities = (true, hit))
    (hmat : hit.mat = material_t.Lambertian albedo)
    (hu : random_unit_vector sqrt RAND_MAX fuel g = some (u, g1)) :
    cast_ray_scatter sqrt RAND_MAX fuel ray hit g =
      some (albedo, if near_zero (u + hit.normal) then hit.normal else u + hit.normal, g1) ∧
    cast_ray sqrt RAND_MAX fuel entities bounces_left ray g =
      Option.map (fun cg => (albedo * cg.1, cg.2))
        (cast_ray sqrt RAND_MAX fuel entities (bounces_left - 1)
          ⟨hit.point, if near_zero (u + hit.normal) then hit.normal else u + hit.normal⟩ g1) ∧
    (near_zero (u + hit.normal) = true ↔
      |u.x + hit.normal.x| < 10e-5 ∧ |u.y + hit.normal.y| < 10e-5 ∧
        |u.z + hit.normal.z| < 10e-5) ∧
    (lengthsq hit.normal = 1 →
      (if near_zero (u + hit.normal) then hit.normal else u + hit.normal) ≠ ⟨0, 0, 0⟩) := by
  have hsc : cast_ray_scatter sqrt RAND_MAX fuel ray hit g =
      some (albedo, if near_zero (u + hit.normal) then hit.normal else u + hit.normal, g1) := by
    simp only [cast_ray_scatter, hmat, hu]
  obtain ⟨n, rfl⟩ : ∃ n, bounces_left = n + 1 := ⟨bounces_left - 1, by omega⟩
  refine ⟨hsc, ?_, ?_, ?_⟩
  · exact cast_ray_of_hit sqrt RAND_MAX fuel entities n ray g g1 hit albedo _ hloop hsc
  · rw [near_zero_iff]; rfl
  · intro hn
    by_cases hz : near_zero (u + hit.normal) = true
    · rw [if_pos hz]
      intro h0
      rw [h0] at hn
      norm_num [lengthsq] at hn
    · rw [if_neg hz]
      intro h0
      apply hz
      rw [h0, near_zero_iff]
      norm_num

/-- C8 (amended). A Metallic bounce is never absorbed: with budget left, for every sampled
unit vector `u`, whatever the sign of the dot product of the perturbed reflection with
`hit.normal`, `cast_ray` returns `albedo` times `cast_ray` of the outgoing ray from
`hit.point` with `bounces_left - 1`, whose direction is the perturbed reflection
`reflected + u * fuzziness` (or `reflected` when the perturbed one is near zero). -/
theorem cast_ray_metallic_continues (sqrt : F → F) (RAND_MAX fuel : Nat)
    (entities : List (entity_t F)) (bounces_left : Nat) (ray : ray_t F) (g g1 : rng_t)
    (hit : hit_t F) (albedo : color3 F) (fuzziness : F) (u : vec3 F) (hb : 1 ≤ bounces_left)
    (hloop : cast_ray_loop sqrt ray entities = (true, hit))
    (hmat : hit.mat = material_t.Metallic albedo fuzziness)
    (hu : random_unit_vector sqrt RAND_MAX fuel g = some (u, g1)) :
    cast_ray_scatter sqrt RAND_MAX fuel ray hit g =
      some (albedo,
        if near_zero (normalize sqrt (reflect ray.dir hit.normal) + u.muls fuzziness)
        then normalize sqrt (reflect ray.dir hit.normal)
        else normalize sqrt (reflect ray.dir hit.normal) + u.muls fuzziness, g1) ∧
    cast_ray sqrt RAND_MAX fuel entities bounces_left ray g =
      Option.map (fun cg => (albedo * cg.1, cg.2))
        (cast_ray sqrt RAND_MAX fuel entities (bounces_left - 1)
          ⟨hit.point,
            if near_zero (normalize sqrt (reflect ray.dir hit.normal) + u.muls fuzziness)
            then normalize sqrt (reflect ray.dir hit.normal)
            else normalize sqrt (reflect ray.dir hit.normal) + u.muls fuzziness⟩ g1) := by
  have hsc : cast_ray_scatter sqrt RAND_MAX fuel ray hit g =
      some (albedo,
        if near_zero (normalize sqrt (reflect ray.dir hit.normal) + u.muls fuzziness)
        then normalize sqrt (reflect ray.dir hit.normal)
        else normalize sqrt (reflect ray.dir hit.normal) + u.muls fuzziness, g1) := by
    simp only [cast_ray_scatter, hmat, hu]
  obtain ⟨n, rfl⟩ : ∃ n, bounces_left = n + 1 := ⟨bounces_left - 1, by omega⟩
  exact ⟨hsc, cast_ray_of_hit sqrt RAND_MAX fuel entities n ray g g1 hit albedo _ hloop hsc⟩

/-- C9 (amended). With `fuzziness = 0` a Metallic hit scatters along the normalised mirror
direction: for every incoming direction `d = ray.dir`, every hit normal `n` and every sampled
vector `u`, the direction handed to the recursive `cast_ray` is
`normalize (d - 2 * dot d n * n)`, whatever `u` is; it is `d - 2 * dot d n * n` itself when
that vector has length 1. -/
theorem cast_ray_metallic_mirror (sqrt : F → F) (RAND_MAX fuel : Nat)
    (entities : List (entity_t F)) (bounces_left : Nat) (ray : ray_t F) (g g1 : rng_t)
    (hit : hit_t F) (albedo : color3 F) (u : vec3 F) (hb : 1 ≤ bounces_left)
    (hloop : cast_ray_loop sqrt ray entities = (true, hit))
    (hmat : hit.mat = material_t.Metallic albedo 0)
    (hu : random_unit_vector sqrt RAND_MAX fuel g = some (u, g1)) :
    cast_ray_scatter sqrt RAND_MAX fuel ray hit g =
      some (albedo,
        normalize sqrt (ray.dir - vec3.smul (2 * dot ray.dir hit.normal) hit.normal), g1) ∧
    cast_ray sqrt RAND_MAX fuel entities bounces_left ray g =
      Option.map (fun cg => (albedo * cg.1, cg.2))
        (cast_ray sqrt RAND_MAX fuel entities (bounces_left - 1)
          ⟨hit.point,
            normalize sqrt (ray.dir - vec3.smul (2 * dot ray.dir hit.normal) hit.normal)⟩ g1) ∧
    (length sqrt (ray.dir - vec3.smul (2 * dot ray.dir hit.normal) hit.normal) = 1 →
      normalize sqrt (ray.dir - vec3.smul (2 * dot ray.dir hit.normal) hit.normal) =
        ray.dir - vec3.smul (2 * dot ray.dir hit.normal) hit.normal) := by
  have hzero : ∀ v : vec3 F, v + u.muls 0 = v := by
    intro v
    ext <;> simp [vec3.muls]
  have hsc : cast_ray_scatter sqrt RAND_MAX fuel ray hit g =
      some (albedo,
        normalize sqrt (ray.dir - vec3.smul (2 * dot ray.dir hit.normal) hit.normal), g1) := by
    simp only [cast_ray_scatter, hmat, hu, hzero, ite_self, reflect]
  obtain ⟨n, rfl⟩ : ∃ n, bounces_left = n + 1 := ⟨bounces_left - 1, by omega⟩
  refine ⟨hsc, ?_, ?_⟩
  · exact cast_ray_of_hit sqrt RAND_MAX fuel entities n ray g g1 hit albedo _ hloop hsc
  · intro h1
    simp only [normalize, h1, one_ne_zero, if_false]
    ext <;> simp [vec3.divs]

/-! ### Evaluation of `cast_ray` at concrete inputs -/

theorem real_sqrt_four : Real.sqrt 4 = 2 := by
  rw [show (4 : ℝ) = 2 * 2 by norm_num]
  exact Real.sqrt_mul_self (by norm_num)

/-- The first sample of `random_unit_vector` from `rng_down` is `(0, -1, 0)`. -/
theorem random_unit_vector_rng_down :
    random_unit_vector Real.sqrt 2147483647 1 rng_down =
      some ((⟨0, -1, 0⟩ : vec3 ℝ), rng_down3) := by
  simp only [random_unit_vector, rand, rng_down, rng_down3]
  norm_num [lengthsq, vec3.divs]

/-- The ray from `(-2,1,0)` along +x grazes the unit sphere at `(0,1,0)`, `t = 2`. -/
theorem cast_ray_loop_grazing (mat : material_t ℝ) :
    cast_ray_loop Real.sqrt ⟨⟨-2, 1, 0⟩, ⟨1, 0, 0⟩⟩ (unit_sphere_scene mat) =
      (true, ⟨⟨0, 1, 0⟩, ⟨0, 1, 0⟩, 2, mat, true⟩) := by
  have hd : sphere_discriminant (⟨⟨-2, 1, 0⟩, ⟨1, 0, 0⟩⟩ : ray_t ℝ) ⟨⟨0, 0, 0⟩, mat, 1⟩ = 0 := by
    norm_num [sphere_discriminant, dot]
  have hr : sphere_root_small Real.sqrt (⟨⟨-2, 1, 0⟩, ⟨1, 0, 0⟩⟩ : ray_t ℝ)
      ⟨⟨0, 0, 0⟩, mat, 1⟩ = 2 := by
    rw [sphere_root_small, hd]; norm_num [dot]
  have hh : sphere_hit Real.sqrt (⟨⟨-2, 1, 0⟩, ⟨1, 0, 0⟩⟩ : ray_t ℝ) 0.001 INF_POS
      ⟨⟨0, 0, 0⟩, mat, 1⟩ = some ⟨⟨0, 1, 0⟩, ⟨0, 1, 0⟩, 2, mat, true⟩ := by
    rw [sphere_hit_some_iff, hd, hr]
    refine ⟨le_refl _, by norm_num, by linarith [INF_POS_gt (F := ℝ)], ?_⟩
    norm_num [create_hit_info_for_sphere, ray_t.at_, vec3.muls, vec3.divs, dot]
  simp [cast_ray_loop, unit_sphere_scene, cast_ray_loop_step, hh]

/-- The ray from `(0,1,0)` along `(1,-1,0)` starts on the unit sphere and enters it: the
smaller root is `0`, so the loop finds no hit. -/
theorem cast_ray_loop_inward (mat : material_t ℝ) :
    cast_ray_loop Real.sqrt ⟨⟨0, 1, 0⟩, ⟨1, -1, 0⟩⟩ (unit_sphere_scene mat) =
      (false, hit_t.zero) := by
  have hd : sphere_discriminant (⟨⟨0, 1, 0⟩, ⟨1, -1, 0⟩⟩ : ray_t ℝ) ⟨⟨0, 0, 0⟩, mat, 1⟩ = 1 := by
    norm_num [sphere_discriminant, dot]
  have hr : sphere_root_small Real.sqrt (⟨⟨0, 1, 0⟩, ⟨1, -1, 0⟩⟩ : ray_t ℝ)
      ⟨⟨0, 0, 0⟩, mat, 1⟩ = 0 := by
    rw [sphere_root_small, hd]; norm_num [dot]
  have hh : sphere_hit Real.sqrt (⟨⟨0, 1, 0⟩, ⟨1, -1, 0⟩⟩ : ray_t ℝ) 0.001 INF_POS
      ⟨⟨0, 0, 0⟩, mat, 1⟩ = none := by
    rw [sphere_hit_eq, hd, hr]
    norm_num [inrange]
  simp [cast_ray_loop, unit_sphere_scene, cast_ray_loop_step, hh]

/-- C8 (counterexample). A Metallic sphere with `fuzziness = 1`, the grazing ray from
`(-2,1,0)` along +x and the sample `u = (0,-1,0)`: the perturbed reflection `(1,-1,0)` has
dot product `-1` with the hit normal `(0,1,0)`, yet `cast_ray` with budget 2 follows the
outgoing ray and returns the colour `(0.7, 0.6, 0.5)`, not black. -/
theorem cast_ray_metallic_not_absorbed :
    cast_ray_loop Real.sqrt ⟨⟨-2, 1, 0⟩, ⟨1, 0, 0⟩⟩
        (unit_sphere_scene (material_t.Metallic ⟨0.7, 0.6, 0.5⟩ 1)) =
      (true, ⟨⟨0, 1, 0⟩, ⟨0, 1, 0⟩, 2, material_t.Metallic ⟨0.7, 0.6, 0.5⟩ 1, true⟩) ∧
    random_unit_vector Real.sqrt 2147483647 1 rng_down =
      some ((⟨0, -1, 0⟩ : vec3 ℝ), rng_down3) ∧
    normalize Real.sqrt (reflect (⟨1, 0, 0⟩ : vec3 ℝ) ⟨0, 1, 0⟩) +
      (⟨0, -1, 0⟩ : vec3 ℝ).muls 1 = ⟨1, -1, 0⟩ ∧
    dot (⟨1, -1, 0⟩ : vec3 ℝ) ⟨0, 1, 0⟩ ≤ 0 ∧
    cast_ray Real.sqrt 2147483647 1 (unit_sphere_scene (material_t.Metallic ⟨0.7, 0.6, 0.5⟩ 1))
      2 ⟨⟨-2, 1, 0⟩, ⟨1, 0, 0⟩⟩ rng_down = some (⟨0.7, 0.6, 0.5⟩, rng_down3) ∧
    (⟨0.7, 0.6, 0.5⟩ : vec3 ℝ) ≠ ⟨0.0, 0.0, 0.0⟩ := by
  have hrefl : normalize Real.sqrt (reflect (⟨1, 0, 0⟩ : vec3 ℝ) ⟨0, 1, 0⟩) = ⟨1, 0, 0⟩ := by
    norm_num [normalize, reflect, length, dot, vec3.smul, vec3.divs]
  have hpert : normalize Real.sqrt (reflect (⟨1, 0, 0⟩ : vec3 ℝ) ⟨0, 1, 0⟩) +
      (⟨0, -1, 0⟩ : vec3 ℝ).muls 1 = ⟨1, -1, 0⟩ := by
    rw [hrefl]; norm_num [vec3.muls]
  have hnz : near_zero (⟨1, -1, 0⟩ : vec3 ℝ) = false := by
    rw [← Bool.not_eq_true, near_zero_iff]; norm_num
  have hsc : cast_ray_scatter Real.sqrt 2147483647 1 ⟨⟨-2, 1, 0⟩, ⟨1, 0, 0⟩⟩
      ⟨⟨0, 1, 0⟩, ⟨0, 1, 0⟩, 2, material_t.Metallic ⟨0.7, 0.6, 0.5⟩ 1, true⟩ rng_down =
      some (⟨0.7, 0.6, 0.5⟩, ⟨1, -1, 0⟩, rng_down3) := by
    simp only [cast_ray_scatter, random_unit_vector_rng_down, hpert, hnz]
    simp
  refine ⟨cast_ray_loop_grazing _, random_unit_vector_rng_down, hpert, by norm_num [dot], ?_,
    by norm_num⟩
  rw [cast_ray_of_hit Real.sqrt 2147483647 1 _ 1 _ rng_down rng_down3 _ _ _
    (cast_ray_loop_grazing _) hsc]
  rw [cast_ray_of_miss Real.sqrt 2147483647 1 _ 0 _ rng_down3
    (by rw [cast_ray_loop_inward])]
  norm_num [vec3.smul]

/-- The ray from `(0,3,0)` along `(0,-2,0)` hits the unit sphere at `(0,1,0)`, `t = 1`. -/
theorem cast_ray_loop_from_above (mat : material_t ℝ) :
    cast_ray_loop Real.sqrt ⟨⟨0, 3, 0⟩, ⟨0, -2, 0⟩⟩ (unit_sphere_scene mat) =
      (true, ⟨⟨0, 1, 0⟩, ⟨0, 1, 0⟩, 1, mat, true⟩) := by
  have hd : sphere_discriminant (⟨⟨0, 3, 0⟩, ⟨0, -2, 0⟩⟩ : ray_t ℝ) ⟨⟨0, 0, 0⟩, mat, 1⟩ = 4 := by
    norm_num [sphere_discriminant, dot]
  have hr : sphere_root_small Real.sqrt (⟨⟨0, 3, 0⟩, ⟨0, -2, 0⟩⟩ : ray_t ℝ)
      ⟨⟨0, 0, 0⟩, mat, 1⟩ = 1 := by
    rw [sphere_root_small, hd, real_sqrt_four]; norm_num [dot]
  have hh : sphere_hit Real.sqrt (⟨⟨0, 3, 0⟩, ⟨0, -2, 0⟩⟩ : ray_t ℝ) 0.001 INF_POS
      ⟨⟨0, 0, 0⟩, mat, 1⟩ = some ⟨⟨0, 1, 0⟩, ⟨0, 1, 0⟩, 1, mat, true⟩ := by
    rw [sphere_hit_some_iff, hd, hr]
    refine ⟨by norm_num, by norm_num, by linarith [INF_POS_gt (F := ℝ)], ?_⟩
    norm_num [create_hit_info_for_sphere, ray_t.at_, vec3.muls, vec3.divs, dot]
  simp [cast_ray_loop, unit_sphere_scene, cast_ray_loop_step, hh]

/-- C9 (counterexample). A Metallic sphere with `fuzziness = 0` and the ray from `(0,3,0)`
along `d = (0,-2,0)`, which is not of unit length: the hit normal is `n = (0,1,0)`, the
analytic mirror direction `d - 2 * dot d n * n` is `(0,2,0)`, but the direction handed to the
recursive call is `(0,1,0)`. -/
theorem metallic_fuzz0_direction_differs :
    cast_ray_loop Real.sqrt ⟨⟨0, 3, 0⟩, ⟨0, -2, 0⟩⟩
        (unit_sphere_scene (material_t.Metallic ⟨0.7, 0.6, 0.5⟩ 0)) =
      (true, ⟨⟨0, 1, 0⟩, ⟨0, 1, 0⟩, 1, material_t.Metallic ⟨0.7, 0.6, 0.5⟩ 0, true⟩) ∧
    cast_ray_scatter Real.sqrt 2147483647 1 ⟨⟨0, 3, 0⟩, ⟨0, -2, 0⟩⟩
        ⟨⟨0, 1, 0⟩, ⟨0, 1, 0⟩, 1, material_t.Metallic ⟨0.7, 0.6, 0.5⟩ 0, true⟩ rng_down =
      some (⟨0.7, 0.6, 0.5⟩, ⟨0, 1, 0⟩, rng_down3) ∧
    (⟨0, -2, 0⟩ : vec3 ℝ) - vec3.smul (2 * dot (⟨0, -2, 0⟩ : vec3 ℝ) ⟨0, 1, 0⟩) ⟨0, 1, 0⟩ =
      ⟨0, 2, 0⟩ ∧
    (⟨0, 1, 0⟩ : vec3 ℝ) ≠ ⟨0, 2, 0⟩ := by
  have hrefl : normalize Real.sqrt (reflect (⟨0, -2, 0⟩ : vec3 ℝ) ⟨0, 1, 0⟩) = ⟨0, 1, 0⟩ := by
    have h4 : length Real.sqrt (reflect (⟨0, -2, 0⟩ : vec3 ℝ) ⟨0, 1, 0⟩) = 2 := by
      have h : length Real.sqrt (reflect (⟨0, -2, 0⟩ : vec3 ℝ) ⟨0, 1, 0⟩) = Real.sqrt 4 := by
        norm_num [reflect, length, dot, vec3.smul]
      rw [h, real_sqrt_four]
    rw [normalize, h4]
    norm_num [reflect, dot, vec3.smul, vec3.divs]
  have hnz : near_zero (⟨0, 1, 0⟩ : vec3 ℝ) = false := by
    rw [← Bool.not_eq_true, near_zero_iff]; norm_num
  refine ⟨cast_ray_loop_from_above _, ?_, by norm_num [dot, vec3.smul], by norm_num⟩
  simp only [cast_ray_scatter, random_unit_vector_rng_down, hrefl]
  norm_num [vec3.muls, hnz]

/-- Witness for C7: the sphere of the test and the ray from `(0,0,10)` along `(0,0,-1)`. -/
theorem get_intersection_on_sphere_witness :
    SqrtSpec Real.sqrt ∧ (⟨0, 0, -1⟩ : Realtime.v3 ℝ).length Real.sqrt = 1 ∧
    (0 ≤ Realtime.Sphere.get_intersection Real.sqrt ⟨⟨0, 0, -50⟩, 20, ⟨0, 0, 0, 0⟩⟩
        ⟨⟨0, 0, 10⟩, ⟨0, 0, -1⟩⟩ ∧
      (Realtime.Sphere.get_intersection Real.sqrt ⟨⟨0, 0, -50⟩, 20, ⟨0, 0, 0, 0⟩⟩
          ⟨⟨0, 0, 10⟩, ⟨0, 0, -1⟩⟩ ≠ 0 →
        ((⟨0, 0, 10⟩ : Realtime.v3 ℝ) +
          Realtime.v3.smul (Realtime.Sphere.get_intersection Real.sqrt ⟨⟨0, 0, -50⟩, 20, ⟨0, 0, 0, 0⟩⟩
            ⟨⟨0, 0, 10⟩, ⟨0, 0, -1⟩⟩) ⟨0, 0, -1⟩ - ⟨0, 0, -50⟩).length_squared = 20 * 20) ∧
      0 < Realtime.Sphere.get_intersection Real.sqrt ⟨⟨0, 0, -50⟩, 20, ⟨0, 0, 0, 0⟩⟩
        ⟨⟨0, 0, 10⟩, Realtime.normalised Real.sqrt ⟨1, 1, -10⟩⟩) :=
  have hunit : (⟨0, 0, -1⟩ : Realtime.v3 ℝ).length Real.sqrt = 1 := by
    norm_num [Realtime.v3.length, Realtime.v3.length_squared]
  ⟨sqrtSpec_real, hunit,
    get_intersection_on_sphere Real.sqrt sqrtSpec_real ⟨⟨0, 0, -50⟩, 20, ⟨0, 0, 0, 0⟩⟩
      ⟨⟨0, 0, 10⟩, ⟨0, 0, -1⟩⟩ hunit⟩

/-- Witness for C8 (amended): the grazing ray on the Metallic sphere with `fuzziness = 1`. -/
theorem cast_ray_metallic_continues_witness :
    1 ≤ 2 ∧
    cast_ray_loop Real.sqrt ⟨⟨-2, 1, 0⟩, ⟨1, 0, 0⟩⟩
        (unit_sphere_scene (material_t.Metallic ⟨0.7, 0.6, 0.5⟩ 1)) =
      (true, ⟨⟨0, 1, 0⟩, ⟨0, 1, 0⟩, 2, material_t.Metallic ⟨0.7, 0.6, 0.5⟩ 1, true⟩) ∧
    random_unit_vector Real.sqrt 2147483647 1 rng_down =
      some ((⟨0, -1, 0⟩ : vec3 ℝ), rng_down3) ∧
    (cast_ray_scatter Real.sqrt 2147483647 1 ⟨⟨-2, 1, 0⟩, ⟨1, 0, 0⟩⟩
        ⟨⟨0, 1, 0⟩, ⟨0, 1, 0⟩, 2, material_t.Metallic ⟨0.7, 0.6, 0.5⟩ 1, true⟩ rng_down =
      some (⟨0.7, 0.6, 0.5⟩,
        if near_zero (normalize Real.sqrt (reflect (⟨1, 0, 0⟩ : vec3 ℝ) ⟨0, 1, 0⟩) +
          (⟨0, -1, 0⟩ : vec3 ℝ).muls 1)
        then normalize Real.sqrt (reflect (⟨1, 0, 0⟩ : vec3 ℝ) ⟨0, 1, 0⟩)
        else normalize Real.sqrt (reflect (⟨1, 0, 0⟩ : vec3 ℝ) ⟨0, 1, 0⟩) +
          (⟨0, -1, 0⟩ : vec3 ℝ).muls 1, rng_down3) ∧
    cast_ray Real.sqrt 2147483647 1 (unit_sphere_scene (material_t.Metallic ⟨0.7, 0.6, 0.5⟩ 1))
        2 ⟨⟨-2, 1, 0⟩, ⟨1, 0, 0⟩⟩ rng_down =
      Option.map (fun cg => ((⟨0.7, 0.6, 0.5⟩ : vec3 ℝ) * cg.1, cg.2))
        (cast_ray Real.sqrt 2147483647 1
          (unit_sphere_scene (material_t.Metallic ⟨0.7, 0.6, 0.5⟩ 1)) (2 - 1)
          ⟨⟨0, 1, 0⟩,
            if near_zero (normalize Real.sqrt (reflect (⟨1, 0, 0⟩ : vec3 ℝ) ⟨0, 1, 0⟩) +
              (⟨0, -1, 0⟩ : vec3 ℝ).muls 1)
            then normalize Real.sqrt (reflect (⟨1, 0, 0⟩ : vec3 ℝ) ⟨0, 1, 0⟩)
            else normalize Real.sqrt (reflect (⟨1, 0, 0⟩ : vec3 ℝ) ⟨0, 1, 0⟩) +
              (⟨0, -1, 0⟩ : vec3 ℝ).muls 1⟩ rng_down3)) :=
  ⟨by norm_num, cast_ray_loop_grazing _, random_unit_vector_rng_down,
    cast_ray_metallic_continues Real.sqrt 2147483647 1
      (unit_sphere_scene (material_t.Metallic ⟨0.7, 0.6, 0.5⟩ 1)) 2 ⟨⟨-2, 1, 0⟩, ⟨1, 0, 0⟩⟩
      rng_down rng_down3 ⟨⟨0, 1, 0⟩, ⟨0, 1, 0⟩, 2, material_t.Metallic ⟨0.7, 0.6, 0.5⟩ 1, true⟩
      ⟨0.7, 0.6, 0.5⟩ 1 ⟨0, -1, 0⟩ (by norm_num) (cast_ray_loop_grazing _) rfl
      random_unit_vector_rng_down⟩

/-- Witness for C9 (amended): the ray from `(0,3,0)` along `(0,-2,0)` on the Metallic sphere
with `fuzziness = 0`. -/
theorem cast_ray_metallic_mirror_witness :
    1 ≤ 2 ∧
    cast_ray_loop Real.sqrt ⟨⟨0, 3, 0⟩, ⟨0, -2, 0⟩⟩
        (unit_sphere_scene (material_t.Metallic ⟨0.7, 0.6, 0.5⟩ 0)) =
      (true, ⟨⟨0, 1, 0⟩, ⟨0, 1, 0⟩, 1, material_t.Metallic ⟨0.7, 0.6, 0.5⟩ 0, true⟩) ∧
    random_unit_vector Real.sqrt 2147483647 1 rng_down =
      some ((⟨0, -1, 0⟩ : vec3 ℝ), rng_down3) ∧
    (cast_ray_scatter Real.sqrt 2147483647 1 ⟨⟨0, 3, 0⟩, ⟨0, -2, 0⟩⟩
        ⟨⟨0, 1, 0⟩, ⟨0, 1, 0⟩, 1, material_t.Metallic ⟨0.7, 0.6, 0.5⟩ 0, true⟩ rng_down =
      some (⟨0.7, 0.6, 0.5⟩,
        normalize Real.sqrt ((⟨0, -2, 0⟩ : vec3 ℝ) -
          vec3.smul (2 * dot (⟨0, -2, 0⟩ : vec3 ℝ) ⟨0, 1, 0⟩) ⟨0, 1, 0⟩), rng_down3) ∧
    cast_ray Real.sqrt 2147483647 1 (unit_sphere_scene (material_t.Metallic ⟨0.7, 0.6, 0.5⟩ 0))
        2 ⟨⟨0, 3, 0⟩, ⟨0, -2, 0⟩⟩ rng_down =
      Option.map (fun cg => ((⟨0.7, 0.6, 0.5⟩ : vec3 ℝ) * cg.1, cg.2))
        (cast_ray Real.sqrt 2147483647 1
          (unit_sphere_scene (material_t.Metallic ⟨0.7, 0.6, 0.5⟩ 0)) (2 - 1)
          ⟨⟨0, 1, 0⟩, normalize Real.sqrt ((⟨0, -2, 0⟩ : vec3 ℝ) -
            vec3.smul (2 * dot (⟨0, -2, 0⟩ : vec3 ℝ) ⟨0, 1, 0⟩) ⟨0, 1, 0⟩)⟩ rng_down3) ∧
    (length Real.sqrt ((⟨0, -2, 0⟩ : vec3 ℝ) -
        vec3.smul (2 * dot (⟨0, -2, 0⟩ : vec3 ℝ) ⟨0, 1, 0⟩) ⟨0, 1, 0⟩) = 1 →
      normalize Real.sqrt ((⟨0, -2, 0⟩ : vec3 ℝ) -
          vec3.smul (2 * dot (⟨0, -2, 0⟩ : vec3 ℝ) ⟨0, 1, 0⟩) ⟨0, 1, 0⟩) =
        (⟨0, -2, 0⟩ : vec3 ℝ) - vec3.smul (2 * dot (⟨0, -2, 0⟩ : vec3 ℝ) ⟨0, 1, 0⟩) ⟨0, 1, 0⟩)) :=
  ⟨by norm_num, cast_ray_loop_from_above _, random_unit_vector_rng_down,
    cast_ray_metallic_mirror Real.sqrt 2147483647 1
      (unit_sphere_scene (material_t.Metallic ⟨0.7, 0.6, 0.5⟩ 0)) 2 ⟨⟨0, 3, 0⟩, ⟨0, -2, 0⟩⟩
      rng_down rng_down3 ⟨⟨0, 1, 0⟩, ⟨0, 1, 0⟩, 1, material_t.Metallic ⟨0.7, 0.6, 0.5⟩ 0, true⟩
      ⟨0.7, 0.6, 0.5⟩ ⟨0, -1, 0⟩ (by norm_num) (cast_ray_loop_from_above _) rfl
      random_unit_vector_rng_down⟩

/-- Witness for C10: the ray from `(0,3,0)` along `(0,-2,0)` on a Lambertian unit sphere. -/
theorem cast_ray_lambertian_witness :
    1 ≤ 2 ∧
    cast_ray_loop Real.sqrt ⟨⟨0, 3, 0⟩, ⟨0, -2, 0⟩⟩
        (unit_sphere_scene (material_t.Lambertian ⟨0.4, 0.2, 0.1⟩)) =
      (true, ⟨⟨0, 1, 0⟩, ⟨0, 1, 0⟩, 1, material_t.Lambertian ⟨0.4, 0.2, 0.1⟩, true⟩) ∧
    random_unit_vector Real.sqrt 2147483647 1 rng_down =
      some ((⟨0, -1, 0⟩ : vec3 ℝ), rng_down3) ∧
    (cast_ray_scatter Real.sqrt 2147483647 1 ⟨⟨0, 3, 0⟩, ⟨0, -2, 0⟩⟩
        ⟨⟨0, 1, 0⟩, ⟨0, 1, 0⟩, 1, material_t.Lambertian ⟨0.4, 0.2, 0.1⟩, true⟩ rng_down =
      some (⟨0.4, 0.2, 0.1⟩,
        if near_zero ((⟨0, -1, 0⟩ : vec3 ℝ) + ⟨0, 1, 0⟩) then ⟨0, 1, 0⟩
        else (⟨0, -1, 0⟩ : vec3 ℝ) + ⟨0, 1, 0⟩, rng_down3) ∧
    cast_ray Real.sqrt 2147483647 1 (unit_sphere_scene (material_t.Lambertian ⟨0.4, 0.2, 0.1⟩))
        2 ⟨⟨0, 3, 0⟩, ⟨0, -2, 0⟩⟩ rng_down =
      Option.map (fun cg => ((⟨0.4, 0.2, 0.1⟩ : vec3 ℝ) * cg.1, cg.2))
        (cast_ray Real.sqrt 2147483647 1
          (unit_sphere_scene (material_t.Lambertian ⟨0.4, 0.2, 0.1⟩)) (2 - 1)
          ⟨⟨0, 1, 0⟩, if near_zero ((⟨0, -1, 0⟩ : vec3 ℝ) + ⟨0, 1, 0⟩) then ⟨0, 1, 0⟩
            else (⟨0, -1, 0⟩ : vec3 ℝ) + ⟨0, 1, 0⟩⟩ rng_down3) ∧
    (near_zero ((⟨0, -1, 0⟩ : vec3 ℝ) + ⟨0, 1, 0⟩) = true ↔
      |(0 : ℝ) + 0| < 10e-5 ∧ |(-1 : ℝ) + 1| < 10e-5 ∧ |(0 : ℝ) + 0| < 10e-5) ∧
    (lengthsq (⟨0, 1, 0⟩ : vec3 ℝ) = 1 →
      (if near_zero ((⟨0, -1, 0⟩ : vec3 ℝ) + ⟨0, 1, 0⟩) then (⟨0, 1, 0⟩ : vec3 ℝ)
        else (⟨0, -1, 0⟩ : vec3 ℝ) + ⟨0, 1, 0⟩) ≠ ⟨0, 0, 0⟩)) :=
  ⟨by norm_num, cast_ray_loop_from_above _, random_unit_vector_rng_down,
    cast_ray_lambertian Real.sqrt 2147483647 1
      (unit_sphere_scene (material_t.Lambertian ⟨0.4, 0.2, 0.1⟩)) 2 ⟨⟨0, 3, 0⟩, ⟨0, -2, 0⟩⟩
      rng_down rng_down3 ⟨⟨0, 1, 0⟩, ⟨0, 1, 0⟩, 1, material_t.Lambertian ⟨0.4, 0.2, 0.1⟩, true⟩
      ⟨0.4, 0.2, 0.1⟩ ⟨0, -1, 0⟩ (by norm_num) (cast_ray_loop_from_above _) rfl
      random_unit_vector_rng_down⟩

/-! ### Colours and pixels -/

/-- The three channels packed as `(r << 16) | (g << 8) | b` are recovered by the shifts and
masks of `get_color_from_hex`. -/
theorem hex_channels (r g b : Nat) (hr : r < 256) (hg : g < 256) (hb : b < 256) :
    ((r <<< 16 ||| g <<< 8 ||| b) >>> 16) &&& 255 = r ∧
    ((r <<< 16 ||| g <<< 8 ||| b) >>> 8) &&& 255 = g ∧
    (r <<< 16 ||| g <<< 8 ||| b) &&& 255 = b := by
  have h1 : r <<< 16 ||| g <<< 8 = 2 ^ 8 * (r * 256 + g) := by
    rw [Nat.shiftLeft_eq, Nat.shiftLeft_eq]
    have := Nat.mul_add_lt_is_or (i := 16) (b := g * 2 ^ 8) (by omega) r
    rw [show r * 2 ^ 16 = 2 ^ 16 * r by ring, ← this]; ring
  have h2 : r <<< 16 ||| g <<< 8 ||| b = r * 65536 + g * 256 + b := by
    rw [h1, ← Nat.mul_add_lt_is_or (by omega)]; ring
  have hm : ∀ x : Nat, x &&& 255 = x % 256 := fun x => Nat.and_pow_two_sub_one_eq_mod x 8
  rw [h2, hm, hm, hm, Nat.shiftRight_eq_div_pow, Nat.shiftRight_eq_div_pow]
  refine ⟨?_, ?_, ?_⟩ <;> omega

/-- A value in `0 ≤ x < 256` is converted to its integer part. -/
theorem r64_to_u8_eq_floor [FloorRing F] (x : F) (h0 : 0 ≤ x) (h1 : x < 256) :
    r64_to_u8 x = ⌊x⌋₊ := by
  unfold r64_to_u8
  rw [if_pos h0]
  have hf0 : 0 ≤ ⌊x⌋ := Int.floor_nonneg.mpr h0
  have hf1 : ⌊x⌋ < 256 := Int.floor_lt.mpr (by exact_mod_cast h1)
  rw [Int.emod_eq_of_lt hf0 hf1]
  rfl

theorem r64_to_u8_natCast [FloorRing F] (n : Nat) (h : n < 256) :
    r64_to_u8 ((n : F)) = n := by
  rw [r64_to_u8_eq_floor _ (Nat.cast_nonneg n) (by exact_mod_cast h), Nat.floor_natCast]

/-- A channel `n / 255.0` with `n ≤ 255` is mapped back to `n` by the `gamma = false`
branch of `color_to_pixel`. -/
theorem channel_round_trip [FloorRing F] (n : Nat) (h : n < 256) :
    r64_to_u8 (clamp (-1.0) 1.0 ((n : F) / 255.0) * 255) = n := by
  have hn : (n : F) ≤ 255 := by exact_mod_cast Nat.lt_succ_iff.mp h
  have h0 : (0 : F) ≤ (n : F) / 255 := div_nonneg (Nat.cast_nonneg n) (by norm_num)
  have h1 : (n : F) / 255 ≤ 1 := (div_le_one (by norm_num)).mpr hn
  have e1 : (255.0 : F) = 255 := by norm_num
  have e2 : (-1.0 : F) = -1 := by norm_num
  have e3 : (1.0 : F) = 1 := by norm_num
  rw [e1, e2, e3]
  have hc : clamp (-1) 1 ((n : F) / 255) = (n : F) / 255 := by
    unfold clamp
    rw [if_neg (not_lt.mpr h1), if_neg (not_lt.mpr (by linarith))]
  rw [hc]
  have : (n : F) / 255 * 255 = n := by norm_num
  rw [this, r64_to_u8_natCast n h]

/-- C17. Colour/pixel round trip with gamma disabled: for every 8-bit pixel `(r, g, b)`,
`color_to_pixel (get_color_from_hex ((r << 16) | (g << 8) | b)) false` differs from
`(r, g, b)` by at most 1 in each channel; without rounding it is `(r, g, b)` itself. -/
theorem color_to_pixel_round_trip [FloorRing F] (sqrt : F → F) (r g b : Nat) (hr : r < 256)
    (hg : g < 256) (hb : b < 256) :
    ((color_to_pixel sqrt (get_color_from_hex (r <<< 16 ||| g <<< 8 ||| b) : color3 F)
          false).r ≤ r + 1 ∧
      r ≤ (color_to_pixel sqrt (get_color_from_hex (r <<< 16 ||| g <<< 8 ||| b) : color3 F)
          false).r + 1) ∧
    ((color_to_pixel sqrt (get_color_from_hex (r <<< 16 ||| g <<< 8 ||| b) : color3 F)
          false).g ≤ g + 1 ∧
      g ≤ (color_to_pixel sqrt (get_color_from_hex (r <<< 16 ||| g <<< 8 ||| b) : color3 F)
          false).g + 1) ∧
    ((color_to_pixel sqrt (get_color_from_hex (r <<< 16 ||| g <<< 8 ||| b) : color3 F)
          false).b ≤ b + 1 ∧
      b ≤ (color_to_pixel sqrt (get_color_from_hex (r <<< 16 ||| g <<< 8 ||| b) : color3 F)
          false).b + 1) ∧
    color_to_pixel sqrt (get_color_from_hex (r <<< 16 ||| g <<< 8 ||| b) : color3 F) false =
      ⟨r, g, b⟩ := by
  obtain ⟨h1, h2, h3⟩ := hex_channels r g b hr hg hb
  have key : color_to_pixel sqrt
      (get_color_from_hex (r <<< 16 ||| g <<< 8 ||| b) : color3 F) false = ⟨r, g, b⟩ := by
    simp only [color_to_pixel, get_color_from_hex, h1, h2, h3, Bool.false_eq_true, if_false,
      channel_round_trip r hr, channel_round_trip g hg, channel_round_trip b hb]
  rw [key]
  exact ⟨⟨Nat.le_succ r, Nat.le_succ r⟩, ⟨Nat.le_succ g, Nat.le_succ g⟩,
    ⟨Nat.le_succ b, Nat.le_succ b⟩, rfl⟩

/-- Witness for C17: the pixel `(136, 67, 33)`, packed as `0x884321`. -/
theorem color_to_pixel_round_trip_witness :
    136 < 256 ∧ 67 < 256 ∧ 33 < 256 ∧
    (((color_to_pixel Real.sqrt (get_color_from_hex (136 <<< 16 ||| 67 <<< 8 ||| 33) : color3 ℝ)
          false).r ≤ 136 + 1 ∧
      136 ≤ (color_to_pixel Real.sqrt
          (get_color_from_hex (136 <<< 16 ||| 67 <<< 8 ||| 33) : color3 ℝ) false).r + 1) ∧
    ((color_to_pixel Real.sqrt (get_color_from_hex (136 <<< 16 ||| 67 <<< 8 ||| 33) : color3 ℝ)
          false).g ≤ 67 + 1 ∧
      67 ≤ (color_to_pixel Real.sqrt
          (get_color_from_hex (136 <<< 16 ||| 67 <<< 8 ||| 33) : color3 ℝ) false).g + 1) ∧
    ((color_to_pixel Real.sqrt (get_color_from_hex (136 <<< 16 ||| 67 <<< 8 ||| 33) : color3 ℝ)
          false).b ≤ 33 + 1 ∧
      33 ≤ (color_to_pixel Real.sqrt
          (get_color_from_hex (136 <<< 16 ||| 67 <<< 8 ||| 33) : color3 ℝ) false).b + 1) ∧
    color_to_pixel Real.sqrt (get_color_from_hex (136 <<< 16 ||| 67 <<< 8 ||| 33) : color3 ℝ)
      false = ⟨136, 67, 33⟩) :=
  ⟨by norm_num, by norm_num, by norm_num,
    color_to_pixel_round_trip Real.sqrt 136 67 33 (by norm_num) (by norm_num) (by norm_num)⟩

/-- On positive arguments `sqrt` is monotone. -/
theorem sqrt_le_sqrt_of_le {sqrt : F → F} (hs : SqrtSpec sqrt) {x y : F} (hx : 0 ≤ x)
    (hxy : x ≤ y) : sqrt x ≤ sqrt y := by
  obtain ⟨hx0, hxx⟩ := hs x hx
  obtain ⟨hy0, hyy⟩ := hs y (le_trans hx hxy)
  by_contra hlt
  have hlt := not_le.mp hlt
  have : sqrt y * sqrt y < sqrt x * sqrt x := by nlinarith
  linarith

/-- For a non-negative argument, `sqrt x ≥ 1` exactly when `x ≥ 1`. -/
theorem one_le_sqrt_iff {sqrt : F → F} (hs : SqrtSpec sqrt) {x : F} (hx : 0 ≤ x) :
    1 ≤ sqrt x ↔ 1 ≤ x := by
  obtain ⟨hx0, hxx⟩ := hs x hx
  constructor
  · intro h; nlinarith
  · intro h
    by_contra hlt
    have hlt := not_le.mp hlt
    have : sqrt x * sqrt x < 1 := by nlinarith
    linarith

/-- The clamped value of one gamma-encoded channel. -/
theorem gamma_value_eq {sqrt : F → F} (hs : SqrtSpec sqrt) (x : F) :
    clamp 0.0 1.0 (if x > 0.0 then sqrt x else x) = if x > 0 then min 1 (sqrt x) else 0 := by
  have e0 : (0.0 : F) = 0 := by norm_num
  have e1 : (1.0 : F) = 1 := by norm_num
  rw [e0, e1]
  unfold clamp
  by_cases hx : x > 0
  · have h0 := (hs x (le_of_lt hx)).1
    simp only [hx, if_true]
    by_cases h1 : sqrt x > 1
    · rw [if_pos h1, min_eq_left (le_of_lt h1)]
    · rw [if_neg h1, if_neg (not_lt.mpr h0), min_eq_right (not_lt.mp h1)]
  · simp only [hx, if_false]
    have hx0 : x ≤ 0 := not_lt.mp hx
    rw [if_neg (by linarith)]
    split_ifs with h
    · rfl
    · linarith

/-- One gamma-encoded channel is the integer part of `255 * v`, with `v` the clamped value. -/
theorem gamma_channel_eq [FloorRing F] {sqrt : F → F} (hs : SqrtSpec sqrt) (x : F) :
    gamma_channel sqrt x = ⌊(255 : F) * (if x > 0 then min 1 (sqrt x) else 0)⌋₊ ∧
    0 ≤ (if x > 0 then min 1 (sqrt x) else 0) ∧ (if x > 0 then min 1 (sqrt x) else 0) ≤ 1 := by
  have hv0 : 0 ≤ (if x > 0 then min 1 (sqrt x) else 0) := by
    split_ifs with hx
    · exact le_min zero_le_one (hs x (le_of_lt hx)).1
    · exact le_refl _
  have hv1 : (if x > 0 then min 1 (sqrt x) else 0) ≤ 1 := by
    split_ifs with hx
    · exact min_le_left _ _
    · exact zero_le_one
  refine ⟨?_, hv0, hv1⟩
  unfold gamma_channel
  rw [gamma_value_eq hs, r64_to_u8_eq_floor _ (by positivity) (by linarith), mul_comm]

/-- C18. With gamma enabled `color_to_pixel` is square root, clamp to `[0,1]`, then 8-bit
quantisation: each output channel is `gamma_channel` of the input channel, which equals
`floor (255 * min 1 (sqrt x))` when `x > 0` and `0` when `x ≤ 0`; it is monotone
non-decreasing in `x`, it is `255` exactly when `x ≥ 1`, and it never exceeds `255`. -/
theorem color_to_pixel_gamma [FloorRing F] (sqrt : F → F) (hs : SqrtSpec sqrt) (c : color3 F) :
    color_to_pixel sqrt c true =
      ⟨gamma_channel sqrt c.x, gamma_channel sqrt c.y, gamma_channel sqrt c.z⟩ ∧
    (∀ x : F, 0 < x → gamma_channel sqrt x = ⌊(255 : F) * min 1 (sqrt x)⌋₊) ∧
    (∀ x : F, x ≤ 0 → gamma_channel sqrt x = 0) ∧
    (∀ x y : F, x ≤ y → gamma_channel sqrt x ≤ gamma_channel sqrt y) ∧
    (∀ x : F, gamma_channel sqrt x = 255 ↔ 1 ≤ x) ∧
    (∀ x : F, gamma_channel sqrt x ≤ 255) := by
  have hpos : ∀ x : F, 0 < x → gamma_channel sqrt x = ⌊(255 : F) * min 1 (sqrt x)⌋₊ := by
    intro x hx
    rw [(gamma_channel_eq hs x).1, if_pos hx]
  have hneg : ∀ x : F, x ≤ 0 → gamma_channel sqrt x = 0 := by
    intro x hx
    rw [(gamma_channel_eq hs x).1, if_neg (not_lt.mpr hx)]
    simp
  have hle : ∀ x : F, gamma_channel sqrt x ≤ 255 := by
    intro x
    obtain ⟨h, _, h1⟩ := gamma_channel_eq hs x
    rw [h]
    apply Nat.floor_le_of_le
    push_cast
    linarith
  refine ⟨rfl, hpos, hneg, ?_, ?_, hle⟩
  · intro x y hxy
    by_cases hx : 0 < x
    · have hy : 0 < y := lt_of_lt_of_le hx hxy
      rw [hpos x hx, hpos y hy]
      apply Nat.floor_mono
      have := sqrt_le_sqrt_of_le hs (le_of_lt hx) hxy
      have : min 1 (sqrt x) ≤ min 1 (sqrt y) := min_le_min (le_refl _) this
      linarith
    · rw [hneg x (not_lt.mp hx)]
      exact Nat.zero_le _
  · intro x
    by_cases hx : 0 < x
    · rw [hpos x hx, ← one_le_sqrt_iff hs (le_of_lt hx)]
      have hm0 : 0 ≤ min 1 (sqrt x) := le_min zero_le_one (hs x (le_of_lt hx)).1
      constructor
      · intro h
        have h255 : (255 : F) ≤ 255 * min 1 (sqrt x) := by
          have := (Nat.le_floor_iff (by positivity)).mp (le_of_eq h.symm)
          exact_mod_cast this
        have : 1 ≤ min 1 (sqrt x) := by linarith
        exact le_trans this (min_le_right _ _)
      · intro h
        rw [min_eq_left h]
        norm_num
    · have hx0 := not_lt.mp hx
      rw [hneg x hx0]
      constructor
      · intro h; norm_num at h
      · intro h; linarith

/-! ### The fixed-capacity scene -/

/-- A store into a C array is defined exactly below the capacity. -/
theorem Realtime.array_store_eq {α : Type} (capacity : Nat) (array : Nat → α) (index : Nat)
    (value : α) :
    (index < capacity →
      Realtime.array_store capacity array index value =
        some (Function.update array index value)) ∧
    (capacity ≤ index → Realtime.array_store capacity array index value = none) := by
  constructor
  · intro h
    rw [Realtime.array_store, if_pos h]
  · intro h
    rw [Realtime.array_store, if_neg (not_lt.mpr h)]

/-- C19. `add_sphere` and `add_directional_light` make no capacity check.  On the scene
`full_scene`, whose `sphere_count` equals `MAX_SPHERE_COUNT = 25` and whose
`directional_light_count` equals `MAX_LIGHT_COUNT = 25`, the store `spheres[sphere_count] =
sphere` (`directional_light[directional_light_count] = light`) is a store at index 25 of an
array of 25 elements: it has no defined result, no capacity-exceeded condition is reported
and the scene is not left unchanged.  The same holds for every scene whose count is at or
above the capacity; below capacity the new element is stored at index `count`, the other
slots and fields are unchanged, and the count increases by one. -/
theorem add_sphere_full_scene_out_of_bounds :
    Realtime.MAX_SPHERE_COUNT = 25 ∧ Realtime.MAX_LIGHT_COUNT = 25 ∧
    (Realtime.full_scene : Realtime.Scene ℝ).sphere_count = Realtime.MAX_SPHERE_COUNT ∧
    Realtime.array_store Realtime.MAX_SPHERE_COUNT
      (Realtime.full_scene : Realtime.Scene ℝ).spheres
      (Realtime.full_scene : Realtime.Scene ℝ).sphere_count
      ⟨⟨0, 0, 0⟩, 1, ⟨0, 0, 0, 0⟩⟩ = none ∧
    (Realtime.full_scene : Realtime.Scene ℝ).add_sphere ⟨⟨0, 0, 0⟩, 1, ⟨0, 0, 0, 0⟩⟩ = none ∧
    (Realtime.full_scene : Realtime.Scene ℝ).directional_light_count =
      Realtime.MAX_LIGHT_COUNT ∧
    (Realtime.full_scene : Realtime.Scene ℝ).add_directional_light
      ⟨⟨0, 0, 0⟩, ⟨0, 0, 0, 0⟩⟩ = none ∧
    (∀ (G : Type) (scene : Realtime.Scene G) (sphere : Realtime.Sphere G),
      (Realtime.MAX_SPHERE_COUNT ≤ scene.sphere_count → scene.add_sphere sphere = none) ∧
      (scene.sphere_count < Realtime.MAX_SPHERE_COUNT →
        scene.add_sphere sphere =
          some { scene with
            spheres := Function.update scene.spheres scene.sphere_count sphere
            sphere_count := scene.sphere_count + 1 })) ∧
    (∀ (G : Type) (scene : Realtime.Scene G) (light : Realtime.DirectionalLight G),
      (Realtime.MAX_LIGHT_COUNT ≤ scene.directional_light_count →
        scene.add_directional_light light = none) ∧
      (scene.directional_light_count < Realtime.MAX_LIGHT_COUNT →
        scene.add_directional_light light =
          some { scene with
            directional_light :=
              Function.update scene.directional_light scene.directional_light_count light
            directional_light_count := scene.directional_light_count + 1 })) := by
  have hs : ∀ (G : Type) (scene : Realtime.Scene G) (sphere : Realtime.Sphere G),
      (Realtime.MAX_SPHERE_COUNT ≤ scene.sphere_count → scene.add_sphere sphere = none) ∧
      (scene.sphere_count < Realtime.MAX_SPHERE_COUNT →
        scene.add_sphere sphere =
          some { scene with
            spheres := Function.update scene.spheres scene.sphere_count sphere
            sphere_count := scene.sphere_count + 1 }) := by
    intro G scene sphere
    constructor
    · intro h
      rw [Realtime.Scene.add_sphere, (Realtime.array_store_eq _ _ _ _).2 h]
    · intro h
      rw [Realtime.Scene.add_sphere, (Realtime.array_store_eq _ _ _ _).1 h]
      have hm : (scene.sphere_count + 1) % 2 ^ 32 = scene.sphere_count + 1 := by
        rw [Realtime.MAX_SPHERE_COUNT] at h
        omega
      simp only [hm]
  have hl : ∀ (G : Type) (scene : Realtime.Scene G) (light : Realtime.DirectionalLight G),
      (Realtime.MAX_LIGHT_COUNT ≤ scene.directional_light_count →
        scene.add_directional_light light = none) ∧
      (scene.directional_light_count < Realtime.MAX_LIGHT_COUNT →
        scene.add_directional_light light =
          some { scene with
            directional_light :=
              Function.update scene.directional_light scene.directional_light_count light
            directional_light_count := scene.directional_light_count + 1 }) := by
    intro G scene light
    constructor
    · intro h
      rw [Realtime.Scene.add_directional_light, (Realtime.array_store_eq _ _ _ _).2 h]
    · intro h
      rw [Realtime.Scene.add_directional_light, (Realtime.array_store_eq _ _ _ _).1 h]
      have hm : (scene.directional_light_count + 1) % 2 ^ 32 =
          scene.directional_light_count + 1 := by
        rw [Realtime.MAX_LIGHT_COUNT] at h
        omega
      simp only [hm]
  exact ⟨rfl, rfl, rfl, (Realtime.array_store_eq _ _ _ _).2 (le_refl _),
    (hs ℝ _ _).1 (le_refl _), rfl, (hl ℝ _ _).1 (le_refl _), hs, hl⟩

/-! ### The work queue -/

/-- The value and the queue of one `get_next_work` call whose lock acquisition succeeds. -/
theorem Realtime.get_next_work_zero (q : Realtime.thread_work_queue) :
    Realtime.get_next_work 0 q =
      if q.current_row_index = q.height then some (-1, q)
      else some (q.current_row_index, ⟨q.current_row_index + 1, q.height⟩) := by
  simp [Realtime.get_next_work]

/-- Before its `k`-th call a single caller finds the cursor at `min k H`. -/
theorem Realtime.queue_before_call_eq (H : Int) (hH : 0 ≤ H) (k : Nat) :
    Realtime.queue_before_call k (Realtime.create_thread_work_queue H) =
      some ⟨min (k : Int) H, H⟩ := by
  induction k with
  | zero =>
    simp [Realtime.queue_before_call, Realtime.create_thread_work_queue, hH]
  | succ n ih =>
    rw [Realtime.queue_before_call, ih]
    simp only [Realtime.get_next_work_zero]
    by_cases h : min (n : Int) H = H
    · simp only [h, if_true]
      congr 2
      push_cast
      omega
    · simp only [h, if_false]
      congr 2
      push_cast
      omega

/-- C15. Run by a single caller, `get_next_work` enumerates the rows once and then reports
the sentinel: for `H ≥ 0` and the queue of `create_thread_work_queue(H)`, the `k`-th call
(`k = 0, 1, 2, ...`) returns `k` when `k < H` and `-1` when `k ≥ H`; the cursor
`current_row_index` found by every call is at most `H`, as is the cursor it leaves; and a call
that returns `-1` leaves the queue unchanged. -/
theorem get_next_work_single_caller (H : Int) (hH : 0 ≤ H) (k : Nat) :
    ∃ q q2 : Realtime.thread_work_queue,
      Realtime.queue_before_call k (Realtime.create_thread_work_queue H) = some q ∧
      Realtime.get_next_work 0 q = some (if (k : Int) < H then (k : Int) else -1, q2) ∧
      q.current_row_index ≤ H ∧ q2.current_row_index ≤ H ∧ q.height = H ∧ q2.height = H ∧
      (¬ (k : Int) < H → q2 = q) := by
  refine ⟨⟨min (k : Int) H, H⟩, if (k : Int) < H then ⟨(k : Int) + 1, H⟩ else ⟨H, H⟩,
    Realtime.queue_before_call_eq H hH k, ?_, min_le_right _ _, ?_, rfl, ?_, ?_⟩
  · rw [Realtime.get_next_work_zero]
    by_cases h : (k : Int) < H
    · have hm : min (k : Int) H = k := min_eq_left (le_of_lt h)
      simp only [hm, h, if_true, if_neg (ne_of_lt h)]
    · have hm : min (k : Int) H = H := min_eq_right (not_lt.mp h)
      simp only [hm, h, if_true, if_false]
  · by_cases h : (k : Int) < H
    · simp only [h, if_true]; omega
    · simp only [h, if_false]; exact le_refl _
  · by_cases h : (k : Int) < H <;> simp [h]
  · intro h
    simp only [h, if_false, min_eq_right (not_lt.mp h)]

/-- Witness for C15: a queue of height 3, the call number 1. -/
theorem get_next_work_single_caller_witness :
    (0 : Int) ≤ 3 ∧
    ∃ q q2 : Realtime.thread_work_queue,
      Realtime.queue_before_call 1 (Realtime.create_thread_work_queue 3) = some q ∧
      Realtime.get_next_work 0 q = some (if ((1 : Nat) : Int) < 3 then ((1 : Nat) : Int) else -1, q2) ∧
      q.current_row_index ≤ 3 ∧ q2.current_row_index ≤ 3 ∧ q.height = 3 ∧ q2.height = 3 ∧
      (¬ ((1 : Nat) : Int) < 3 → q2 = q) :=
  ⟨by norm_num, get_next_work_single_caller 3 (by norm_num) 1⟩

/-- C16. Height 1 and two workers under the schedule `0, 1, 0, 1`: both workers pass the
comparison `current_row_index == height` while the cursor is 0, then each runs the locked
section; worker 0 receives row 0 and worker 1 receives 1, which is neither `-1` nor a row
index in `[0, 1)`, and the cursor is left at 2, past `height`. -/
theorem dispatch_race_returns_row_out_of_range :
    (Realtime.dispatch_run 1 2 [0, 1, 0, 1]).returned = [(0, 0), (1, 1)] ∧
    (Realtime.dispatch_run 1 2 [0, 1, 0, 1]).queue.current_row_index = 2 ∧
    (Realtime.dispatch_run 1 2 [0, 1, 0, 1]).queue.height = 1 ∧
    ¬ ((1 : Int) = -1 ∨ (0 ≤ (1 : Int) ∧ (1 : Int) < 1)) := by
  refine ⟨by decide, by decide, by decide, by decide⟩

/-! ### Terminal branches of `cast_ray` -/

/-- The loop finds no hit when no `Sphere` entity reports one. -/
theorem cast_ray_loop_miss (sqrt : F → F) (ray : ray_t F) (entities : List (entity_t F))
    (hmiss : ∀ sphere : sphere_t F, entity_t.Sphere sphere ∈ entities →
      sphere_hit sqrt ray 0.001 INF_POS sphere = none) :
    cast_ray_loop sqrt ray entities = (false, hit_t.zero) := by
  obtain ⟨inv1, _, inv3⟩ := cast_ray_loop_inv sqrt ray entities
  have h1 : (cast_ray_loop sqrt ray entities).1 = false := by
    rw [← Bool.not_eq_true, inv1]
    rintro ⟨e, h, hm, hh⟩
    obtain ⟨s, rfl, hs⟩ := (entity_hit_some_iff sqrt ray e h).mp hh
    rw [hmiss s hm] at hs
    cases hs
  exact Prod.ext h1 (inv3 h1)

/-- C13. On a miss `cast_ray` returns the sky gradient: for every ray, every entity list in
which no `Sphere` entity is hit within `(0.001, INF_POS)` and every `bounces_left ≥ 1` the
result is `(1-a)*(1,1,1) + a*(0.5,0.7,1.0)` with `a = 0.5*(ray.dir.y + 1)`, for every `fuel`
and with the generator state untouched (no sampling, no recursive call); and for
`bounces_left = 0` the result is `(0,0,0)` whatever the ray and the scene. -/
theorem cast_ray_miss_and_floor (sqrt : F → F) (RAND_MAX fuel : Nat)
    (entities : List (entity_t F)) (bounces_left : Nat) (ray : ray_t F) (g : rng_t)
    (hb : 1 ≤ bounces_left)
    (hmiss : ∀ sphere : sphere_t F, entity_t.Sphere sphere ∈ entities →
      sphere_hit sqrt ray 0.001 INF_POS sphere = none) :
    cast_ray sqrt RAND_MAX fuel entities bounces_left ray g =
      some (vec3.smul (1 - 0.5 * (ray.dir.y + 1)) (⟨1, 1, 1⟩ : color3 F) +
        vec3.smul (0.5 * (ray.dir.y + 1)) ⟨0.5, 0.7, 1.0⟩, g) ∧
    (∀ (scene : List (entity_t F)) (r : ray_t F) (s : rng_t),
      cast_ray sqrt RAND_MAX fuel scene 0 r s = some (⟨0, 0, 0⟩, s)) := by
  constructor
  · obtain ⟨n, rfl⟩ : ∃ n, bounces_left = n + 1 := ⟨bounces_left - 1, by omega⟩
    rw [cast_ray_of_miss sqrt RAND_MAX fuel entities n ray g
      (by rw [cast_ray_loop_miss sqrt ray entities hmiss])]
    norm_num
  · intro scene r s
    rw [cast_ray]
    norm_num

/-- A ray whose direction has no component towards the centre does not hit, for
`tmin ≥ 0`: the only root tested is `(h - dsqrt) / a ≤ 0`. -/
theorem sphere_hit_none_of_dot_nonpos (sqrt : F → F) (hsqrt : SqrtSpec sqrt) (r : ray_t F)
    (sphere : sphere_t F) (tmin tmax : F) (hd : r.dir ≠ ⟨0, 0, 0⟩)
    (haway : dot r.dir (sphere.center - r.point) ≤ 0) (htmin : 0 ≤ tmin) :
    sphere_hit sqrt r tmin tmax sphere = none := by
  rw [sphere_hit_eq]
  by_cases hdisc : sphere_discriminant r sphere < 0
  · rw [if_pos hdisc]
  · rw [if_neg hdisc]
    have hs := (hsqrt _ (not_lt.mp hdisc)).1
    have ht : sphere_root_small sqrt r sphere ≤ 0 := by
      unfold sphere_root_small
      exact div_nonpos_of_nonpos_of_nonneg (by linarith) (le_of_lt (dot_self_pos hd))
    have : ¬ (inrange tmin tmax (sphere_root_small sqrt r sphere) = true) := by
      rw [inrange_iff]
      intro h
      linarith [h.1]
    rw [if_neg this]

/-- The loop over a scene of one sphere. -/
theorem cast_ray_loop_singleton (sqrt : F → F) (ray : ray_t F) (sphere : sphere_t F) :
    cast_ray_loop sqrt ray [entity_t.Sphere sphere] =
      match sphere_hit sqrt ray 0.001 INF_POS sphere with
      | some hit => (true, hit)
      | none => (false, hit_t.zero) := by
  simp only [cast_ray_loop, List.foldl, cast_ray_loop_step]
  cases sphere_hit sqrt ray 0.001 INF_POS sphere with
  | none => rfl
  | some hit => simp

/-- The record written by `sphere_hit` carries the material of the sphere. -/
theorem sphere_hit_mat (sqrt : F → F) (r : ray_t F) (tmin tmax : F) (sphere : sphere_t F)
    (hit : hit_t F) (h : sphere_hit sqrt r tmin tmax sphere = some hit) :
    hit.mat = sphere.mat := by
  obtain ⟨_, _, _, rfl⟩ := (sphere_hit_some_iff sqrt r tmin tmax sphere hit).mp h
  rfl

/-- The component-wise product with black is black. -/
theorem vec3.mul_zero_color (a : vec3 F) : a * (⟨0.0, 0.0, 0.0⟩ : vec3 F) = ⟨0, 0, 0⟩ := by
  ext <;> norm_num

/-- The blue channel of the sky gradient is 1, so the gradient is never black. -/
theorem sky_ne_black (a : F) :
    vec3.smul (1 - a) (⟨1, 1, 1⟩ : color3 F) + vec3.smul a ⟨0.5, 0.7, 1.0⟩ ≠ ⟨0, 0, 0⟩ := by
  intro h
  have hz := congrArg vec3.z h
  simp only [vec3.smul, vec3.add_z] at hz
  norm_num at hz

/-- C12 (amended). Scenario B: for an entity list that consists of a single Lambertian
sphere, `cast_ray` with `bounces_left = 1` returns the sky-gradient colour of the ray,
`(1-a)*(1,1,1) + a*(0.5,0.7,1.0)` with `a = 0.5*(ray.dir.y + 1)`, when the ray misses the
sphere; when the ray hits the sphere (and a unit vector is sampled) it returns black
`(0,0,0)`, the albedo times the colour of the exhausted budget, which differs from the
sky-gradient colour. -/
theorem cast_ray_single_lambertian_budget_one (sqrt : F → F) (RAND_MAX fuel : Nat)
    (sphere : sphere_t F) (albedo : color3 F) (ray : ray_t F) (g : rng_t)
    (hmat : sphere.mat = material_t.Lambertian albedo) :
    (sphere_hit sqrt ray 0.001 INF_POS sphere = none →
      cast_ray sqrt RAND_MAX fuel [entity_t.Sphere sphere] 1 ray g =
        some (vec3.smul (1 - 0.5 * (ray.dir.y + 1)) (⟨1, 1, 1⟩ : color3 F) +
          vec3.smul (0.5 * (ray.dir.y + 1)) ⟨0.5, 0.7, 1.0⟩, g)) ∧
    (∀ (hit : hit_t F) (u : vec3 F) (g1 : rng_t),
      sphere_hit sqrt ray 0.001 INF_POS sphere = some hit →
      random_unit_vector sqrt RAND_MAX fuel g = some (u, g1) →
      cast_ray sqrt RAND_MAX fuel [entity_t.Sphere sphere] 1 ray g = some (⟨0, 0, 0⟩, g1)) ∧
    vec3.smul (1 - 0.5 * (ray.dir.y + 1)) (⟨1, 1, 1⟩ : color3 F) +
      vec3.smul (0.5 * (ray.dir.y + 1)) ⟨0.5, 0.7, 1.0⟩ ≠ ⟨0, 0, 0⟩ := by
  refine ⟨?_, ?_, sky_ne_black _⟩
  · intro hnone
    rw [cast_ray_of_miss sqrt RAND_MAX fuel _ 0 ray g
      (by rw [cast_ray_loop_singleton, hnone])]
    norm_num
  · intro hit u g1 hhit hu
    have hloop : cast_ray_loop sqrt ray [entity_t.Sphere sphere] = (true, hit) := by
      rw [cast_ray_loop_singleton, hhit]
    have hm : hit.mat = material_t.Lambertian albedo := by
      rw [sphere_hit_mat sqrt ray _ _ sphere hit hhit, hmat]
    have hsc : cast_ray_scatter sqrt RAND_MAX fuel ray hit g =
        some (albedo, if near_zero (u + hit.normal) then hit.normal else u + hit.normal,
          g1) := by
      simp only [cast_ray_scatter, hm, hu]
    rw [cast_ray_of_hit sqrt RAND_MAX fuel _ 0 ray g g1 hit albedo _ hloop hsc, cast_ray]
    simp only [Option.map_some', vec3.mul_zero_color]

/-- The sample `(0,-1,0)` added to the normal `(0,1,0)` is near zero. -/
theorem near_zero_down_up : near_zero ((⟨0, -1, 0⟩ : vec3 ℝ) + ⟨0, 1, 0⟩) = true := by
  rw [near_zero_iff]; norm_num

/-- C12 (counterexample). A single Lambertian unit sphere and the ray from `(0,3,0)` along
`(0,-2,0)`, which hits it: with `bounces_left = 1`, `cast_ray` returns `(0,0,0)`, while the
sky-gradient colour of that ray is `(1.25, 1.15, 1)`. -/
theorem cast_ray_budget_one_hit_is_black :
    cast_ray Real.sqrt 2147483647 1 (unit_sphere_scene (material_t.Lambertian ⟨0.4, 0.2, 0.1⟩))
      1 ⟨⟨0, 3, 0⟩, ⟨0, -2, 0⟩⟩ rng_down = some (⟨0, 0, 0⟩, rng_down3) ∧
    vec3.smul (1 - 0.5 * ((-2 : ℝ) + 1)) (⟨1, 1, 1⟩ : color3 ℝ) +
      vec3.smul (0.5 * ((-2 : ℝ) + 1)) ⟨0.5, 0.7, 1.0⟩ = ⟨1.25, 1.15, 1⟩ ∧
    (⟨0, 0, 0⟩ : color3 ℝ) ≠ ⟨1.25, 1.15, 1⟩ := by
  have hsc : cast_ray_scatter Real.sqrt 2147483647 1 ⟨⟨0, 3, 0⟩, ⟨0, -2, 0⟩⟩
      ⟨⟨0, 1, 0⟩, ⟨0, 1, 0⟩, 1, material_t.Lambertian ⟨0.4, 0.2, 0.1⟩, true⟩ rng_down =
      some (⟨0.4, 0.2, 0.1⟩, ⟨0, 1, 0⟩, rng_down3) := by
    simp only [cast_ray_scatter, random_unit_vector_rng_down, near_zero_down_up, if_true]
  refine ⟨?_, by norm_num [vec3.smul], by norm_num⟩
  rw [cast_ray_of_hit Real.sqrt 2147483647 1 _ 0 _ rng_down rng_down3 _ _ _
    (cast_ray_loop_from_above _) hsc, cast_ray]
  simp only [Option.map_some', vec3.mul_zero_color]

/-- Witness for C12 (amended): the Lambertian unit sphere and the ray from `(0,3,0)` along
`(0,-2,0)`. -/
theorem cast_ray_single_lambertian_budget_one_witness :
    (⟨⟨0, 0, 0⟩, material_t.Lambertian ⟨0.4, 0.2, 0.1⟩, 1⟩ : sphere_t ℝ).mat =
      material_t.Lambertian ⟨0.4, 0.2, 0.1⟩ ∧
    ((sphere_hit Real.sqrt ⟨⟨0, 3, 0⟩, ⟨0, -2, 0⟩⟩ 0.001 INF_POS
          ⟨⟨0, 0, 0⟩, material_t.Lambertian ⟨0.4, 0.2, 0.1⟩, 1⟩ = none →
      cast_ray Real.sqrt 2147483647 1
          [entity_t.Sphere ⟨⟨0, 0, 0⟩, material_t.Lambertian ⟨0.4, 0.2, 0.1⟩, 1⟩] 1
          ⟨⟨0, 3, 0⟩, ⟨0, -2, 0⟩⟩ rng_down =
        some (vec3.smul (1 - 0.5 * ((-2 : ℝ) + 1)) (⟨1, 1, 1⟩ : color3 ℝ) +
          vec3.smul (0.5 * ((-2 : ℝ) + 1)) ⟨0.5, 0.7, 1.0⟩, rng_down)) ∧
    (∀ (hit : hit_t ℝ) (u : vec3 ℝ) (g1 : rng_t),
      sphere_hit Real.sqrt ⟨⟨0, 3, 0⟩, ⟨0, -2, 0⟩⟩ 0.001 INF_POS
          ⟨⟨0, 0, 0⟩, material_t.Lambertian ⟨0.4, 0.2, 0.1⟩, 1⟩ = some hit →
      random_unit_vector Real.sqrt 2147483647 1 rng_down = some (u, g1) →
      cast_ray Real.sqrt 2147483647 1
          [entity_t.Sphere ⟨⟨0, 0, 0⟩, material_t.Lambertian ⟨0.4, 0.2, 0.1⟩, 1⟩] 1
          ⟨⟨0, 3, 0⟩, ⟨0, -2, 0⟩⟩ rng_down = some (⟨0, 0, 0⟩, g1)) ∧
    vec3.smul (1 - 0.5 * ((-2 : ℝ) + 1)) (⟨1, 1, 1⟩ : color3 ℝ) +
      vec3.smul (0.5 * ((-2 : ℝ) + 1)) ⟨0.5, 0.7, 1.0⟩ ≠ ⟨0, 0, 0⟩) :=
  ⟨rfl, cast_ray_single_lambertian_budget_one Real.sqrt 2147483647 1
    ⟨⟨0, 0, 0⟩, material_t.Lambertian ⟨0.4, 0.2, 0.1⟩, 1⟩ ⟨0.4, 0.2, 0.1⟩
    ⟨⟨0, 3, 0⟩, ⟨0, -2, 0⟩⟩ rng_down rfl⟩

/-- Witness for C13: the ray from `(0,1,0)` along `(1,-1,0)` misses the unit sphere it
starts on (the only root tested is 0). -/
theorem cast_ray_miss_and_floor_witness :
    1 ≤ 1 ∧
    (∀ sphere : sphere_t ℝ,
      entity_t.Sphere sphere ∈ unit_sphere_scene (material_t.Lambertian ⟨0.4, 0.2, 0.1⟩) →
      sphere_hit Real.sqrt ⟨⟨0, 1, 0⟩, ⟨1, -1, 0⟩⟩ 0.001 INF_POS sphere = none) ∧
    (cast_ray Real.sqrt 2147483647 1 (unit_sphere_scene (material_t.Lambertian ⟨0.4, 0.2, 0.1⟩))
        1 ⟨⟨0, 1, 0⟩, ⟨1, -1, 0⟩⟩ rng_down =
      some (vec3.smul (1 - 0.5 * ((-1 : ℝ) + 1)) (⟨1, 1, 1⟩ : color3 ℝ) +
        vec3.smul (0.5 * ((-1 : ℝ) + 1)) ⟨0.5, 0.7, 1.0⟩, rng_down) ∧
      (∀ (scene : List (entity_t ℝ)) (r : ray_t ℝ) (s : rng_t),
        cast_ray Real.sqrt 2147483647 1 scene 0 r s = some (⟨0, 0, 0⟩, s))) :=
  have hmiss : ∀ sphere : sphere_t ℝ,
      entity_t.Sphere sphere ∈ unit_sphere_scene (material_t.Lambertian ⟨0.4, 0.2, 0.1⟩) →
      sphere_hit Real.sqrt ⟨⟨0, 1, 0⟩, ⟨1, -1, 0⟩⟩ 0.001 INF_POS sphere = none := by
    intro sphere hm
    simp only [unit_sphere_scene, List.mem_singleton, entity_t.Sphere.injEq] at hm
    subst hm
    have hd : sphere_discriminant (⟨⟨0, 1, 0⟩, ⟨1, -1, 0⟩⟩ : ray_t ℝ)
        ⟨⟨0, 0, 0⟩, material_t.Lambertian ⟨0.4, 0.2, 0.1⟩, 1⟩ = 1 := by
      norm_num [sphere_discriminant, dot]
    have hr : sphere_root_small Real.sqrt (⟨⟨0, 1, 0⟩, ⟨1, -1, 0⟩⟩ : ray_t ℝ)
        ⟨⟨0, 0, 0⟩, material_t.Lambertian ⟨0.4, 0.2, 0.1⟩, 1⟩ = 0 := by
      rw [sphere_root_small, hd]; norm_num [dot]
    rw [sphere_hit_eq, hd, hr]
    norm_num [inrange]
  ⟨le_refl 1, hmiss,
    cast_ray_miss_and_floor Real.sqrt 2147483647 1
      (unit_sphere_scene (material_t.Lambertian ⟨0.4, 0.2, 0.1⟩)) 1
      ⟨⟨0, 1, 0⟩, ⟨1, -1, 0⟩⟩ rng_down (le_refl 1) hmiss⟩

/-! ### The effect of `cast_ray` on the generator -/

/-- A generator state `g1` reached from `g` by `rand()` calls: the same sequence, a position
that did not move back. -/
theorem rand_advances (RAND_MAX : Nat) (g : rng_t) :
    (rand RAND_MAX g).2.seq = g.seq ∧ (rand RAND_MAX g).2.pos = g.pos + 1 :=
  ⟨rfl, rfl⟩

theorem random_unit_vector_advances (sqrt : F → F) (RAND_MAX : Nat) (fuel : Nat) :
    ∀ (g g1 : rng_t) (u : vec3 F), random_unit_vector sqrt RAND_MAX fuel g = some (u, g1) →
      g1.seq = g.seq ∧ g.pos < g1.pos := by
  induction fuel with
  | zero => intro g g1 u h; simp [random_unit_vector] at h
  | succ n ih =>
    intro g g1 u h
    rw [random_unit_vector] at h
    simp only [rand] at h
    split_ifs at h with hc
    · simp only [Option.some.injEq, Prod.mk.injEq] at h
      obtain ⟨_, rfl⟩ := h
      exact ⟨rfl, by show g.pos < g.pos + 1 + 1 + 1; omega⟩
    · obtain ⟨h1, h2⟩ := ih _ g1 u h
      exact ⟨h1, by simp only at h2; omega⟩

theorem cast_ray_scatter_advances (sqrt : F → F) (RAND_MAX fuel : Nat) (ray : ray_t F)
    (hit : hit_t F) (g g1 : rng_t) (attenuation : color3 F) (newdirection : vec3 F)
    (h : cast_ray_scatter sqrt RAND_MAX fuel ray hit g = some (attenuation, newdirection, g1)) :
    g1.seq = g.seq ∧ g.pos ≤ g1.pos := by
  unfold cast_ray_scatter at h
  cases hm : hit.mat with
  | Lambertian albedo =>
    simp only [hm] at h
    cases hu : random_unit_vector sqrt RAND_MAX fuel g with
    | none => simp [hu] at h
    | some ug =>
      obtain ⟨u, g2⟩ := ug
      simp only [hu, Option.some.injEq, Prod.mk.injEq] at h
      obtain ⟨_, _, rfl⟩ := h
      obtain ⟨h1, h2⟩ := random_unit_vector_advances sqrt RAND_MAX fuel g g2 u hu
      exact ⟨h1, le_of_lt h2⟩
  | Metallic albedo fuzziness =>
    simp only [hm] at h
    cases hu : random_unit_vector sqrt RAND_MAX fuel g with
    | none => simp [hu] at h
    | some ug =>
      obtain ⟨u, g2⟩ := ug
      simp only [hu, Option.some.injEq, Prod.mk.injEq] at h
      obtain ⟨_, _, rfl⟩ := h
      obtain ⟨h1, h2⟩ := random_unit_vector_advances sqrt RAND_MAX fuel g g2 u hu
      exact ⟨h1, le_of_lt h2⟩
  | Dielectric albedo refractive =>
    simp only [hm, random_double, rand] at h
    split_ifs at h <;>
      (simp only [Option.some.injEq, Prod.mk.injEq] at h
       obtain ⟨_, _, rfl⟩ := h
       first | exact ⟨rfl, le_refl _⟩ | exact ⟨rfl, Nat.le_succ _⟩)

/-- The first sample of `random_unit_vector` from `rng_tilt` is `(0, 0.6, 0.8)`. -/
theorem random_unit_vector_rng_tilt :
    random_unit_vector Real.sqrt 2147483647 1 rng_tilt =
      some ((⟨0, 0.6, 0.8⟩ : vec3 ℝ), rng_tilt3) := by
  simp only [random_unit_vector, rand, rng_tilt, rng_tilt3]
  norm_num [lengthsq, vec3.divs]

/-- A ray that leaves the point `(0,1,0)` of the unit sphere with a direction whose
`y` component is not negative finds no hit. -/
theorem cast_ray_loop_leaving (mat : material_t ℝ) (d : vec3 ℝ) (hd : d ≠ ⟨0, 0, 0⟩)
    (hy : 0 ≤ d.y) :
    (cast_ray_loop Real.sqrt ⟨⟨0, 1, 0⟩, d⟩ (unit_sphere_scene mat)).1 = false := by
  have hh : sphere_hit Real.sqrt (⟨⟨0, 1, 0⟩, d⟩ : ray_t ℝ) 0.001 INF_POS
      ⟨⟨0, 0, 0⟩, mat, 1⟩ = none := by
    apply sphere_hit_none_of_dot_nonpos Real.sqrt sqrtSpec_real _ _ _ _ hd
    · simp only [dot, vec3.mk_sub_mk]; linarith
    · norm_num
  rw [unit_sphere_scene, cast_ray_loop_singleton, hh]

/-! ### The zero-radius sphere -/

/-- With radius 0 the discriminant is minus the squared cross product of the direction and
`center - origin` (Lagrange's identity). -/
theorem sphere_discriminant_zero_radius (r : ray_t F) (sphere : sphere_t F)
    (hr : sphere.radius = 0) :
    sphere_discriminant r sphere =
      -(dot (cross r.dir (sphere.center - r.point)) (cross r.dir (sphere.center - r.point))) := by
  simp only [sphere_discriminant, dot, cross, hr, vec3.sub_x, vec3.sub_y, vec3.sub_z]
  ring

/-- C20 (amended). A zero-radius sphere is a non-hit for every ray with non-zero direction
that does not pass through the sphere's centre point; for a ray that passes exactly through
the centre, at the parameter `k`, `sphere_hit` returns `true` with `hit.delta = k` when
`tmin < k < tmax`, and `false` otherwise. -/
theorem sphere_hit_zero_radius (sqrt : F → F) (hsqrt : SqrtSpec sqrt) (r : ray_t F)
    (sphere : sphere_t F) (tmin tmax : F) (hd : r.dir ≠ ⟨0, 0, 0⟩)
    (hr : sphere.radius = 0) :
    ((∀ k : F, r.at_ k ≠ sphere.center) → sphere_hit sqrt r tmin tmax sphere = none) ∧
    (∀ k : F, r.at_ k = sphere.center →
      (tmin < k ∧ k < tmax →
        sphere_hit sqrt r tmin tmax sphere = some (create_hit_info_for_sphere r k sphere) ∧
        (create_hit_info_for_sphere r k sphere).delta = k) ∧
      (¬ (tmin < k ∧ k < tmax) → sphere_hit sqrt r tmin tmax sphere = none)) := by
  have ha := dot_self_pos hd
  constructor
  · intro hoff
    rw [sphere_hit_eq]
    by_cases hdisc : sphere_discriminant r sphere < 0
    · rw [if_pos hdisc]
    · exfalso
      rw [sphere_discriminant_zero_radius r sphere hr] at hdisc
      have hc0 := dot_self_nonneg (cross r.dir (sphere.center - r.point))
      have hc : dot (cross r.dir (sphere.center - r.point))
          (cross r.dir (sphere.center - r.point)) = 0 := by linarith [not_lt.mp hdisc]
      have hcross : cross r.dir (sphere.center - r.point) = ⟨0, 0, 0⟩ := by
        by_contra hne
        exact absurd hc (ne_of_gt (dot_self_pos hne))
      have hx := congrArg vec3.x hcross
      have hy := congrArg vec3.y hcross
      have hz := congrArg vec3.z hcross
      simp only [cross, vec3.sub_x, vec3.sub_y, vec3.sub_z] at hx hy hz
      apply hoff (dot r.dir (sphere.center - r.point) / dot r.dir r.dir)
      have hane := ne_of_gt ha
      ext
      · simp only [ray_t.at_, vec3.muls, vec3.add_x]
        field_simp
        simp only [dot, vec3.sub_x, vec3.sub_y, vec3.sub_z]
        linear_combination r.dir.y * hz - r.dir.z * hy
      · simp only [ray_t.at_, vec3.muls, vec3.add_y]
        field_simp
        simp only [dot, vec3.sub_x, vec3.sub_y, vec3.sub_z]
        linear_combination r.dir.z * hx - r.dir.x * hz
      · simp only [ray_t.at_, vec3.muls, vec3.add_z]
        field_simp
        simp only [dot, vec3.sub_x, vec3.sub_y, vec3.sub_z]
        linear_combination r.dir.x * hy - r.dir.y * hx
  · intro k hk
    have hx : sphere.center.x - r.point.x = r.dir.x * k := by
      have := congrArg vec3.x hk
      simp only [ray_t.at_, vec3.muls, vec3.add_x] at this
      linarith
    have hy : sphere.center.y - r.point.y = r.dir.y * k := by
      have := congrArg vec3.y hk
      simp only [ray_t.at_, vec3.muls, vec3.add_y] at this
      linarith
    have hz : sphere.center.z - r.point.z = r.dir.z * k := by
      have := congrArg vec3.z hk
      simp only [ray_t.at_, vec3.muls, vec3.add_z] at this
      linarith
    have hh : dot r.dir (sphere.center - r.point) = k * dot r.dir r.dir := by
      simp only [dot, vec3.sub_x, vec3.sub_y, vec3.sub_z, hx, hy, hz]; ring
    have hdisc : sphere_discriminant r sphere = 0 := by
      simp only [sphere_discriminant, dot, vec3.sub_x, vec3.sub_y, vec3.sub_z, hx, hy, hz, hr]
      ring
    have hs0 : sqrt 0 = 0 := by
      have := (hsqrt 0 (le_refl 0)).2
      exact mul_self_eq_zero.mp this
    have hroot : sphere_root_small sqrt r sphere = k := by
      rw [sphere_root_small, hdisc, hs0, hh, sub_zero]
      field_simp
    constructor
    · intro hin
      refine ⟨?_, rfl⟩
      rw [sphere_hit_some_iff, hroot, hdisc]
      exact ⟨le_refl 0, hin.1, hin.2, rfl⟩
    · intro hout
      rw [sphere_hit_eq, hdisc, hroot, if_neg (lt_irrefl 0),
        if_neg (fun h => hout ((inrange_iff _ _ _).mp h))]

/-- Witness for C20 (amended): the ray from `(0,0,-3)` along +z and the zero-radius sphere at
the origin. -/
theorem sphere_hit_zero_radius_witness :
    SqrtSpec Real.sqrt ∧ (⟨0, 0, 1⟩ : vec3 ℝ) ≠ ⟨0, 0, 0⟩ ∧
    (⟨⟨0, 0, 0⟩, material_t.Lambertian ⟨0, 0, 0⟩, 0⟩ : sphere_t ℝ).radius = 0 ∧
    (((∀ k : ℝ, (⟨⟨0, 0, -3⟩, ⟨0, 0, 1⟩⟩ : ray_t ℝ).at_ k ≠ ⟨0, 0, 0⟩) →
        sphere_hit Real.sqrt ⟨⟨0, 0, -3⟩, ⟨0, 0, 1⟩⟩ 0.001 INF_POS
          ⟨⟨0, 0, 0⟩, material_t.Lambertian ⟨0, 0, 0⟩, 0⟩ = none) ∧
      (∀ k : ℝ, (⟨⟨0, 0, -3⟩, ⟨0, 0, 1⟩⟩ : ray_t ℝ).at_ k = ⟨0, 0, 0⟩ →
        (0.001 < k ∧ k < INF_POS →
          sphere_hit Real.sqrt ⟨⟨0, 0, -3⟩, ⟨0, 0, 1⟩⟩ 0.001 INF_POS
              ⟨⟨0, 0, 0⟩, material_t.Lambertian ⟨0, 0, 0⟩, 0⟩ =
            some (create_hit_info_for_sphere ⟨⟨0, 0, -3⟩, ⟨0, 0, 1⟩⟩ k
              ⟨⟨0, 0, 0⟩, material_t.Lambertian ⟨0, 0, 0⟩, 0⟩) ∧
          (create_hit_info_for_sphere (⟨⟨0, 0, -3⟩, ⟨0, 0, 1⟩⟩ : ray_t ℝ) k
            ⟨⟨0, 0, 0⟩, material_t.Lambertian ⟨0, 0, 0⟩, 0⟩).delta = k) ∧
        (¬ (0.001 < k ∧ k < INF_POS) →
          sphere_hit Real.sqrt ⟨⟨0, 0, -3⟩, ⟨0, 0, 1⟩⟩ 0.001 INF_POS
            ⟨⟨0, 0, 0⟩, material_t.Lambertian ⟨0, 0, 0⟩, 0⟩ = none))) :=
  ⟨sqrtSpec_real, by simp, rfl,
    sphere_hit_zero_radius Real.sqrt sqrtSpec_real ⟨⟨0, 0, -3⟩, ⟨0, 0, 1⟩⟩
      ⟨⟨0, 0, 0⟩, material_t.Lambertian ⟨0, 0, 0⟩, 0⟩ 0.001 INF_POS (by simp) rfl⟩

/-- C20 (counterexample). The ray from `(0,0,-3)` along +z passes exactly through the centre
of the zero-radius sphere at the origin, and `sphere_hit` with bounds `(0.001, INF_POS)`
returns `true`, with `hit.delta = 3` and `hit.point` the centre. -/
theorem sphere_hit_zero_radius_through_center :
    (⟨⟨0, 0, -3⟩, ⟨0, 0, 1⟩⟩ : ray_t ℝ).at_ 3 = ⟨0, 0, 0⟩ ∧
    ∃ hit : hit_t ℝ, sphere_hit Real.sqrt ⟨⟨0, 0, -3⟩, ⟨0, 0, 1⟩⟩ 0.001 INF_POS
        ⟨⟨0, 0, 0⟩, material_t.Lambertian ⟨0, 0, 0⟩, 0⟩ = some hit ∧
      hit.delta = 3 ∧ hit.point = ⟨0, 0, 0⟩ := by
  have hat : (⟨⟨0, 0, -3⟩, ⟨0, 0, 1⟩⟩ : ray_t ℝ).at_ 3 = ⟨0, 0, 0⟩ := by
    norm_num [ray_t.at_, vec3.muls]
  have hd : sphere_discriminant (⟨⟨0, 0, -3⟩, ⟨0, 0, 1⟩⟩ : ray_t ℝ)
      ⟨⟨0, 0, 0⟩, material_t.Lambertian ⟨0, 0, 0⟩, 0⟩ = 0 := by
    norm_num [sphere_discriminant, dot]
  have hr : sphere_root_small Real.sqrt (⟨⟨0, 0, -3⟩, ⟨0, 0, 1⟩⟩ : ray_t ℝ)
      ⟨⟨0, 0, 0⟩, material_t.Lambertian ⟨0, 0, 0⟩, 0⟩ = 3 := by
    rw [sphere_root_small, hd]; norm_num [dot]
  refine ⟨hat, create_hit_info_for_sphere ⟨⟨0, 0, -3⟩, ⟨0, 0, 1⟩⟩ 3
    ⟨⟨0, 0, 0⟩, material_t.Lambertian ⟨0, 0, 0⟩, 0⟩, ?_, rfl, hat⟩
  rw [sphere_hit_some_iff, hd, hr]
  exact ⟨le_refl 0, by norm_num, by linarith [INF_POS_gt (F := ℝ)], rfl⟩

/-! ### The Dielectric branch -/

/-- The Dielectric branch of `cast_ray_scatter` in terms of `n1overn2`, `sint` and
`reflectance`. -/
theorem cast_ray_scatter_dielectric (sqrt : F → F) (RAND_MAX fuel : Nat) (ray : ray_t F)
    (hit : hit_t F) (g : rng_t) (albedo : color3 F) (refractive : F)
    (hmat : hit.mat = material_t.Dielectric albedo refractive) :
    cast_ray_scatter sqrt RAND_MAX fuel ray hit g =
      if dielectric_n1overn2 hit refractive * dielectric_sint sqrt ray hit > 1.0 then
        some (⟨1.0, 1.0, 1.0⟩, reflect (normalize sqrt ray.dir) (normalize sqrt hit.normal), g)
      else if dielectric_reflectance sqrt ray hit refractive >
          (random_double RAND_MAX g : F × rng_t).1 then
        some (⟨1.0, 1.0, 1.0⟩, reflect (normalize sqrt ray.dir) (normalize sqrt hit.normal),
          (random_double RAND_MAX g : F × rng_t).2)
      else
        some (⟨1.0, 1.0, 1.0⟩,
          refract sqrt (normalize sqrt ray.dir) (normalize sqrt hit.normal)
            (dielectric_n1overn2 hit refractive),
          (random_double RAND_MAX g : F × rng_t).2) := by
  simp only [cast_ray_scatter, hmat]
  rfl

/-- The value of `random_double()` lies in `[0, 1)`. -/
theorem random_double_range01 (RAND_MAX : Nat) (g : rng_t) :
    0 ≤ (random_double RAND_MAX g : F × rng_t).1 ∧
      (random_double RAND_MAX g : F × rng_t).1 < 1 := by
  have hpos : (0 : F) < (RAND_MAX : F) + 1.0 := by
    have : (0 : F) ≤ (RAND_MAX : F) := Nat.cast_nonneg _
    norm_num; linarith
  simp only [random_double, rand]
  refine ⟨div_nonneg (Nat.cast_nonneg _) (le_of_lt hpos), ?_⟩
  rw [div_lt_one hpos]
  have h : g.seq g.pos % (RAND_MAX + 1) < RAND_MAX + 1 := Nat.mod_lt _ (Nat.succ_pos _)
  have h2 : ((g.seq g.pos % (RAND_MAX + 1) : Nat) : F) < ((RAND_MAX + 1 : Nat) : F) :=
    Nat.cast_lt.mpr h
  push_cast at h2
  norm_num
  exact h2

/-- C11 (amended). At the total-internal-reflection boundary the integrator samples: for a
Dielectric hit with `n1overn2 * sint` exactly 1, `cast_ray` draws `x = random_double()`, a
value in `[0,1)`, and chooses `reflect(unit_direction, unit_normal)` when `reflectance > x`
and `refract(unit_direction, unit_normal, n1overn2)` otherwise; it reflects for every
draw, without drawing and without calling `refract`, when `n1overn2 * sint > 1`. -/
theorem cast_ray_dielectric_boundary (sqrt : F → F) (RAND_MAX fuel : Nat) (ray : ray_t F)
    (hit : hit_t F) (g : rng_t) (albedo : color3 F) (refractive : F)
    (hmat : hit.mat = material_t.Dielectric albedo refractive) :
    (dielectric_n1overn2 hit refractive * dielectric_sint sqrt ray hit > 1 →
      cast_ray_scatter sqrt RAND_MAX fuel ray hit g =
        some (⟨1, 1, 1⟩, reflect (normalize sqrt ray.dir) (normalize sqrt hit.normal), g)) ∧
    (dielectric_n1overn2 hit refractive * dielectric_sint sqrt ray hit = 1 →
      (dielectric_reflectance sqrt ray hit refractive >
          (random_double RAND_MAX g : F × rng_t).1 →
        cast_ray_scatter sqrt RAND_MAX fuel ray hit g =
          some (⟨1, 1, 1⟩, reflect (normalize sqrt ray.dir) (normalize sqrt hit.normal),
            (random_double RAND_MAX g : F × rng_t).2)) ∧
      (¬ dielectric_reflectance sqrt ray hit refractive >
          (random_double RAND_MAX g : F × rng_t).1 →
        cast_ray_scatter sqrt RAND_MAX fuel ray hit g =
          some (⟨1, 1, 1⟩,
            refract sqrt (normalize sqrt ray.dir) (normalize sqrt hit.normal)
              (dielectric_n1overn2 hit refractive),
            (random_double RAND_MAX g : F × rng_t).2))) ∧
    0 ≤ (random_double RAND_MAX g : F × rng_t).1 ∧
    (random_double RAND_MAX g : F × rng_t).1 < 1 := by
  have e1 : (1.0 : F) = 1 := by norm_num
  refine ⟨?_, ?_, random_double_range01 RAND_MAX g⟩
  · intro h
    rw [cast_ray_scatter_dielectric sqrt RAND_MAX fuel ray hit g albedo refractive hmat, e1,
      if_pos h]
  · intro h
    have hn : ¬ dielectric_n1overn2 hit refractive * dielectric_sint sqrt ray hit > 1 := by
      rw [h]; exact lt_irrefl 1
    constructor
    · intro hx
      rw [cast_ray_scatter_dielectric sqrt RAND_MAX fuel ray hit g albedo refractive hmat, e1,
        if_neg hn, if_pos hx]
    · intro hx
      rw [cast_ray_scatter_dielectric sqrt RAND_MAX fuel ray hit g albedo refractive hmat, e1,
        if_neg hn, if_neg hx]

theorem real_sqrt_9_25 : Real.sqrt (9 / 25) = 3 / 5 := by
  rw [show (9 / 25 : ℝ) = 3 / 5 * (3 / 5) by norm_num]
  exact Real.sqrt_mul_self (by norm_num)

theorem real_sqrt_16_25 : Real.sqrt (16 / 25) = 4 / 5 := by
  rw [show (16 / 25 : ℝ) = 4 / 5 * (4 / 5) by norm_num]
  exact Real.sqrt_mul_self (by norm_num)

/-- The unit-length ray from `(-4,4,0)` along `(4/5,-3/5,0)` hits the unit sphere at
`(0,1,0)`, `t = 5`, with `cos(theta) = 3/5`. -/
theorem cast_ray_loop_slanted (mat : material_t ℝ) :
    cast_ray_loop Real.sqrt ⟨⟨-4, 4, 0⟩, ⟨4 / 5, -3 / 5, 0⟩⟩ (unit_sphere_scene mat) =
      (true, ⟨⟨0, 1, 0⟩, ⟨0, 1, 0⟩, 5, mat, true⟩) := by
  have hd : sphere_discriminant (⟨⟨-4, 4, 0⟩, ⟨4 / 5, -3 / 5, 0⟩⟩ : ray_t ℝ)
      ⟨⟨0, 0, 0⟩, mat, 1⟩ = 9 / 25 := by
    norm_num [sphere_discriminant, dot]
  have hr : sphere_root_small Real.sqrt (⟨⟨-4, 4, 0⟩, ⟨4 / 5, -3 / 5, 0⟩⟩ : ray_t ℝ)
      ⟨⟨0, 0, 0⟩, mat, 1⟩ = 5 := by
    rw [sphere_root_small, hd, real_sqrt_9_25]; norm_num [dot]
  have hh : sphere_hit Real.sqrt (⟨⟨-4, 4, 0⟩, ⟨4 / 5, -3 / 5, 0⟩⟩ : ray_t ℝ) 0.001 INF_POS
      ⟨⟨0, 0, 0⟩, mat, 1⟩ = some ⟨⟨0, 1, 0⟩, ⟨0, 1, 0⟩, 5, mat, true⟩ := by
    rw [sphere_hit_some_iff, hd, hr]
    refine ⟨by norm_num, by norm_num, by linarith [INF_POS_gt (F := ℝ)], ?_⟩
    norm_num [create_hit_info_for_sphere, ray_t.at_, vec3.muls, vec3.divs, dot]
  rw [unit_sphere_scene, cast_ray_loop_singleton, hh]

/-- C11 (counterexample). A Dielectric unit sphere of refractive index `4/5` hit on its
front face at `cos(theta) = 3/5`: `n1overn2 = 5/4`, `sint = 4/5`, so `n1overn2 * sint` is
exactly 1; the reflectance is `379/16875` and the draw is `1/2`, so `cast_ray` calls
`refract` and the outgoing direction is `(1,0,0)`, not the reflection `(4/5,3/5,0)`. -/
theorem cast_ray_dielectric_boundary_refracts :
    cast_ray_loop Real.sqrt ⟨⟨-4, 4, 0⟩, ⟨4 / 5, -3 / 5, 0⟩⟩
        (unit_sphere_scene (material_t.Dielectric ⟨1, 1, 1⟩ (4 / 5))) =
      (true, ⟨⟨0, 1, 0⟩, ⟨0, 1, 0⟩, 5, material_t.Dielectric ⟨1, 1, 1⟩ (4 / 5), true⟩) ∧
    dielectric_n1overn2
        (⟨⟨0, 1, 0⟩, ⟨0, 1, 0⟩, 5, material_t.Dielectric ⟨1, 1, 1⟩ (4 / 5), true⟩ : hit_t ℝ)
        (4 / 5) *
      dielectric_sint Real.sqrt ⟨⟨-4, 4, 0⟩, ⟨4 / 5, -3 / 5, 0⟩⟩
        ⟨⟨0, 1, 0⟩, ⟨0, 1, 0⟩, 5, material_t.Dielectric ⟨1, 1, 1⟩ (4 / 5), true⟩ = 1 ∧
    (random_double 2147483647 rng_half : ℝ × rng_t) = (1 / 2, rng_half1) ∧
    cast_ray_scatter Real.sqrt 2147483647 1 ⟨⟨-4, 4, 0⟩, ⟨4 / 5, -3 / 5, 0⟩⟩
        ⟨⟨0, 1, 0⟩, ⟨0, 1, 0⟩, 5, material_t.Dielectric ⟨1, 1, 1⟩ (4 / 5), true⟩ rng_half =
      some (⟨1, 1, 1⟩, ⟨1, 0, 0⟩, rng_half1) ∧
    reflect (normalize Real.sqrt (⟨4 / 5, -3 / 5, 0⟩ : vec3 ℝ))
      (normalize Real.sqrt ⟨0, 1, 0⟩) = ⟨4 / 5, 3 / 5, 0⟩ ∧
    refract Real.sqrt (normalize Real.sqrt (⟨4 / 5, -3 / 5, 0⟩ : vec3 ℝ))
      (normalize Real.sqrt ⟨0, 1, 0⟩) (5 / 4) = ⟨1, 0, 0⟩ ∧
    (⟨1, 0, 0⟩ : vec3 ℝ) ≠ ⟨4 / 5, 3 / 5, 0⟩ := by
  have hud : normalize Real.sqrt (⟨4 / 5, -3 / 5, 0⟩ : vec3 ℝ) = ⟨4 / 5, -3 / 5, 0⟩ := by
    have hl : length Real.sqrt (⟨4 / 5, -3 / 5, 0⟩ : vec3 ℝ) = 1 := by
      norm_num [length]
    rw [normalize, hl]
    norm_num [vec3.divs]
  have hun : normalize Real.sqrt (⟨0, 1, 0⟩ : vec3 ℝ) = ⟨0, 1, 0⟩ := by
    norm_num [normalize, length, vec3.divs]
  have hcost : dielectric_cost Real.sqrt ⟨⟨-4, 4, 0⟩, ⟨4 / 5, -3 / 5, 0⟩⟩
      ⟨⟨0, 1, 0⟩, ⟨0, 1, 0⟩, 5, material_t.Dielectric ⟨1, 1, 1⟩ (4 / 5), true⟩ = 3 / 5 := by
    simp only [dielectric_cost, hud, hun]
    norm_num [dot]
  have hsint : dielectric_sint Real.sqrt ⟨⟨-4, 4, 0⟩, ⟨4 / 5, -3 / 5, 0⟩⟩
      ⟨⟨0, 1, 0⟩, ⟨0, 1, 0⟩, 5, material_t.Dielectric ⟨1, 1, 1⟩ (4 / 5), true⟩ = 4 / 5 := by
    rw [dielectric_sint, hcost, show (1 - 3 / 5 * (3 / 5) : ℝ) = 16 / 25 by norm_num,
      real_sqrt_16_25]
  have hn : dielectric_n1overn2
      (⟨⟨0, 1, 0⟩, ⟨0, 1, 0⟩, 5, material_t.Dielectric ⟨1, 1, 1⟩ (4 / 5), true⟩ : hit_t ℝ)
      (4 / 5) = 5 / 4 := by
    norm_num [dielectric_n1overn2]
  have hrefl : dielectric_reflectance Real.sqrt ⟨⟨-4, 4, 0⟩, ⟨4 / 5, -3 / 5, 0⟩⟩
      ⟨⟨0, 1, 0⟩, ⟨0, 1, 0⟩, 5, material_t.Dielectric ⟨1, 1, 1⟩ (4 / 5), true⟩ (4 / 5) =
      379 / 16875 := by
    simp only [dielectric_reflectance, hn, hcost]
    norm_num
  have hrd : (random_double 2147483647 rng_half : ℝ × rng_t) = (1 / 2, rng_half1) := by
    simp only [random_double, rand, rng_half, rng_half1]
    norm_num
  have hrefract : refract Real.sqrt (⟨4 / 5, -3 / 5, 0⟩ : vec3 ℝ) ⟨0, 1, 0⟩ (5 / 4) =
      ⟨1, 0, 0⟩ := by
    norm_num [refract, dot, vec3.smul, lengthsq, Raytracer.abs]
  refine ⟨cast_ray_loop_slanted _, by rw [hn, hsint]; norm_num, hrd, ?_, ?_, ?_, by norm_num⟩
  · rw [cast_ray_scatter_dielectric Real.sqrt 2147483647 1 _ _ rng_half ⟨1, 1, 1⟩ (4 / 5) rfl,
      hn, hsint, hrefl, hrd, hud, hun, hrefract]
    norm_num
  · rw [hud, hun]
    norm_num [reflect, dot, vec3.smul]
  · rw [hud, hun, hrefract]

/-- Witness for C11 (amended): the Dielectric hit at `(0,1,0)` of the slanted ray, with the
generator `rng_half`. -/
theorem cast_ray_dielectric_boundary_witness :
    (⟨⟨0, 1, 0⟩, ⟨0, 1, 0⟩, 5, material_t.Dielectric ⟨1, 1, 1⟩ (4 / 5), true⟩ : hit_t ℝ).mat =
      material_t.Dielectric ⟨1, 1, 1⟩ (4 / 5) ∧
    ((dielectric_n1overn2
          (⟨⟨0, 1, 0⟩, ⟨0, 1, 0⟩, 5, material_t.Dielectric ⟨1, 1, 1⟩ (4 / 5), true⟩ : hit_t ℝ)
          (4 / 5) *
        dielectric_sint Real.sqrt ⟨⟨-4, 4, 0⟩, ⟨4 / 5, -3 / 5, 0⟩⟩
          ⟨⟨0, 1, 0⟩, ⟨0, 1, 0⟩, 5, material_t.Dielectric ⟨1, 1, 1⟩ (4 / 5), true⟩ > 1 →
      cast_ray_scatter Real.sqrt 2147483647 1 ⟨⟨-4, 4, 0⟩, ⟨4 / 5, -3 / 5, 0⟩⟩
          ⟨⟨0, 1, 0⟩, ⟨0, 1, 0⟩, 5, material_t.Dielectric ⟨1, 1, 1⟩ (4 / 5), true⟩ rng_half =
        some (⟨1, 1, 1⟩, reflect (normalize Real.sqrt (⟨4 / 5, -3 / 5, 0⟩ : vec3 ℝ))
          (normalize Real.sqrt ⟨0, 1, 0⟩), rng_half)) ∧
    (dielectric_n1overn2
          (⟨⟨0, 1, 0⟩, ⟨0, 1, 0⟩, 5, material_t.Dielectric ⟨1, 1, 1⟩ (4 / 5), true⟩ : hit_t ℝ)
          (4 / 5) *
        dielectric_sint Real.sqrt ⟨⟨-4, 4, 0⟩, ⟨4 / 5, -3 / 5, 0⟩⟩
          ⟨⟨0, 1, 0⟩, ⟨0, 1, 0⟩, 5, material_t.Dielectric ⟨1, 1, 1⟩ (4 / 5), true⟩ = 1 →
      (dielectric_reflectance Real.sqrt ⟨⟨-4, 4, 0⟩, ⟨4 / 5, -3 / 5, 0⟩⟩
            ⟨⟨0, 1, 0⟩, ⟨0, 1, 0⟩, 5, material_t.Dielectric ⟨1, 1, 1⟩ (4 / 5), true⟩ (4 / 5) >
          (random_double 2147483647 rng_half : ℝ × rng_t).1 →
        cast_ray_scatter Real.sqrt 2147483647 1 ⟨⟨-4, 4, 0⟩, ⟨4 / 5, -3 / 5, 0⟩⟩
            ⟨⟨0, 1, 0⟩, ⟨0, 1, 0⟩, 5, material_t.Dielectric ⟨1, 1, 1⟩ (4 / 5), true⟩ rng_half =
          some (⟨1, 1, 1⟩, reflect (normalize Real.sqrt (⟨4 / 5, -3 / 5, 0⟩ : vec3 ℝ))
            (normalize Real.sqrt ⟨0, 1, 0⟩),
            (random_double 2147483647 rng_half : ℝ × rng_t).2)) ∧
      (¬ dielectric_reflectance Real.sqrt ⟨⟨-4, 4, 0⟩, ⟨4 / 5, -3 / 5, 0⟩⟩
            ⟨⟨0, 1, 0⟩, ⟨0, 1, 0⟩, 5, material_t.Dielectric ⟨1, 1, 1⟩ (4 / 5), true⟩ (4 / 5) >
          (random_double 2147483647 rng_half : ℝ × rng_t).1 →
        cast_ray_scatter Real.sqrt 2147483647 1 ⟨⟨-4, 4, 0⟩, ⟨4 / 5, -3 / 5, 0⟩⟩
            ⟨⟨0, 1, 0⟩, ⟨0, 1, 0⟩, 5, material_t.Dielectric ⟨1, 1, 1⟩ (4 / 5), true⟩ rng_half =
          some (⟨1, 1, 1⟩,
            refract Real.sqrt (normalize Real.sqrt (⟨4 / 5, -3 / 5, 0⟩ : vec3 ℝ))
              (normalize Real.sqrt ⟨0, 1, 0⟩)
              (dielectric_n1overn2
                (⟨⟨0, 1, 0⟩, ⟨0, 1, 0⟩, 5, material_t.Dielectric ⟨1, 1, 1⟩ (4 / 5), true⟩ :
                  hit_t ℝ) (4 / 5)),
            (random_double 2147483647 rng_half : ℝ × rng_t).2))) ∧
    0 ≤ (random_double 2147483647 rng_half : ℝ × rng_t).1 ∧
    (random_double 2147483647 rng_half : ℝ × rng_t).1 < 1) :=
  ⟨rfl, cast_ray_dielectric_boundary Real.sqrt 2147483647 1 ⟨⟨-4, 4, 0⟩, ⟨4 / 5, -3 / 5, 0⟩⟩
    ⟨⟨0, 1, 0⟩, ⟨0, 1, 0⟩, 5, material_t.Dielectric ⟨1, 1, 1⟩ (4 / 5), true⟩ rng_half
    ⟨1, 1, 1⟩ (4 / 5) rfl⟩

/-- Witness for C18: the colour `(1/4, 2, -1)` over the reals. -/
theorem color_to_pixel_gamma_witness :
    SqrtSpec Real.sqrt ∧
    (color_to_pixel Real.sqrt (⟨1 / 4, 2, -1⟩ : color3 ℝ) true =
        ⟨gamma_channel Real.sqrt (1 / 4), gamma_channel Real.sqrt 2,
          gamma_channel Real.sqrt (-1)⟩ ∧
      (∀ x : ℝ, 0 < x → gamma_channel Real.sqrt x = ⌊(255 : ℝ) * min 1 (Real.sqrt x)⌋₊) ∧
      (∀ x : ℝ, x ≤ 0 → gamma_channel Real.sqrt x = 0) ∧
      (∀ x y : ℝ, x ≤ y → gamma_channel Real.sqrt x ≤ gamma_channel Real.sqrt y) ∧
      (∀ x : ℝ, gamma_channel Real.sqrt x = 255 ↔ 1 ≤ x) ∧
      (∀ x : ℝ, gamma_channel Real.sqrt x ≤ 255)) :=
  ⟨sqrtSpec_real, color_to_pixel_gamma Real.sqrt sqrtSpec_real ⟨1 / 4, 2, -1⟩⟩

/-! ### `reflect` and `refract` -/

/-- C29. `reflect` is a length-preserving involution about a unit normal: for every vector
`d` and every `n` of length 1, `lengthsq (reflect d n) = lengthsq d`,
`dot (reflect d n) n = -dot d n` and `reflect (reflect d n) n = d`. -/
theorem reflect_involution (d n : vec3 F) (hn : lengthsq n = 1) :
    lengthsq (reflect d n) = lengthsq d ∧
    dot (reflect d n) n = -dot d n ∧
    reflect (reflect d n) n = d := by
  have hn' : n.x * n.x + n.y * n.y + n.z * n.z = 1 := hn
  have hdot : dot (reflect d n) n = -dot d n := by
    simp only [reflect, dot, vec3.smul, vec3.sub_x, vec3.sub_y, vec3.sub_z]
    linear_combination (-2 * (d.x * n.x + d.y * n.y + d.z * n.z)) * hn'
  refine ⟨?_, hdot, ?_⟩
  · simp only [reflect, lengthsq, dot, vec3.smul, vec3.sub_x, vec3.sub_y, vec3.sub_z]
    linear_combination (4 * (d.x * n.x + d.y * n.y + d.z * n.z) ^ 2) * hn'
  · have h2 : reflect (reflect d n) n = reflect d n - vec3.smul (2 * dot (reflect d n) n) n := rfl
    rw [h2, hdot]
    ext <;> simp [reflect, vec3.smul]

/-- Witness for C29: `d = (1, -2, 3)` reflected about `n = (0, 1, 0)`. -/
theorem reflect_involution_witness :
    lengthsq (⟨0, 1, 0⟩ : vec3 ℝ) = 1 ∧
    (lengthsq (reflect (⟨1, -2, 3⟩ : vec3 ℝ) ⟨0, 1, 0⟩) = lengthsq (⟨1, -2, 3⟩ : vec3 ℝ) ∧
      dot (reflect (⟨1, -2, 3⟩ : vec3 ℝ) ⟨0, 1, 0⟩) ⟨0, 1, 0⟩ =
        -dot (⟨1, -2, 3⟩ : vec3 ℝ) ⟨0, 1, 0⟩ ∧
      reflect (reflect (⟨1, -2, 3⟩ : vec3 ℝ) ⟨0, 1, 0⟩) ⟨0, 1, 0⟩ = ⟨1, -2, 3⟩) :=
  ⟨by norm_num [lengthsq], reflect_involution ⟨1, -2, 3⟩ ⟨0, 1, 0⟩ (by norm_num [lengthsq])⟩

/-- A vector of length 1 has squared length 1. -/
theorem lengthsq_of_length_one {sqrt : F → F} (hs : SqrtSpec sqrt) (v : vec3 F)
    (h : length sqrt v = 1) : lengthsq v = 1 := by
  have h0 : 0 ≤ lengthsq v := by
    unfold lengthsq
    nlinarith [mul_self_nonneg v.x, mul_self_nonneg v.y, mul_self_nonneg v.z]
  have := (hs _ h0).2
  have e : sqrt (lengthsq v) = 1 := h
  rw [e] at this
  linarith

/-- The square root of 1 is 1. -/
theorem sqrt_one_of_spec {sqrt : F → F} (hs : SqrtSpec sqrt) : sqrt 1 = 1 := by
  obtain ⟨h0, h1⟩ := hs 1 zero_le_one
  exact eq_of_sq_eq h0 zero_le_one (by rw [h1]; ring)

/-- The square root of 0 is 0. -/
theorem sqrt_zero_of_spec {sqrt : F → F} (hs : SqrtSpec sqrt) : sqrt 0 = 0 :=
  mul_self_eq_zero.mp (hs 0 (le_refl 0)).2

/-- Cauchy-Schwarz for vectors of length 1. -/
theorem dot_le_one_of_unit (a b : vec3 F) (ha : lengthsq a = 1) (hb : lengthsq b = 1) :
    dot a b * dot a b ≤ 1 := by
  have hc := dot_self_nonneg (cross a b)
  have hl : dot (cross a b) (cross a b) = lengthsq a * lengthsq b - dot a b * dot a b := by
    simp only [dot, cross, lengthsq]; ring
  rw [hl, ha, hb] at hc
  linarith

/-- C27. `refract` implements Snell's law: for a direction `d` and a normal `n` of length 1
with `cos(theta) = dot (-d) n ≥ 0` and a positive `eta` with
`eta^2 * (1 - cos(theta)^2) ≤ 1`, the vector `refract d n eta` has length 1, its component
perpendicular to `n` is `eta` times that of `d`, and its component along `n` is
`-sqrt (1 - eta^2 * (1 - cos(theta)^2))`, which is not positive. -/
theorem refract_snell (sqrt : F → F) (hs : SqrtSpec sqrt) (d n : vec3 F) (eta : F)
    (hd : length sqrt d = 1) (hn : length sqrt n = 1) (_hcos : 0 ≤ dot (-d) n)
    (_heta : 0 < eta) (hsin : eta ^ 2 * (1 - dot (-d) n ^ 2) ≤ 1) :
    length sqrt (refract sqrt d n eta) = 1 ∧
    lengthsq (refract sqrt d n eta) = 1 ∧
    refract sqrt d n eta - vec3.smul (dot (refract sqrt d n eta) n) n =
      vec3.smul eta (d - vec3.smul (dot d n) n) ∧
    dot (refract sqrt d n eta) n = -sqrt (1 - eta ^ 2 * (1 - dot (-d) n ^ 2)) ∧
    dot (refract sqrt d n eta) n ≤ 0 := by
  have hd2 := lengthsq_of_length_one hs d hd
  have hn2 := lengthsq_of_length_one hs n hn
  have hd' : d.x * d.x + d.y * d.y + d.z * d.z = 1 := hd2
  have hn' : n.x * n.x + n.y * n.y + n.z * n.z = 1 := hn2
  have hneg : dot (-d) n = -dot d n := by
    simp only [dot, vec3.neg_x, vec3.neg_y, vec3.neg_z]; ring
  have hcs := dot_le_one_of_unit d n hd2 hn2
  have hle1 : ¬ dot (-d) n > 1 := by
    intro h
    rw [hneg] at h
    nlinarith
  have hcd0 : dot (-d) n = -(d.x * n.x + d.y * n.y + d.z * n.z) := by rw [hneg]; rfl
  obtain ⟨c, hc⟩ : ∃ c, dot (-d) n = c := ⟨_, rfl⟩
  rw [hc] at hsin hle1 hcd0 ⊢
  have hcd : c = -(d.x * n.x + d.y * n.y + d.z * n.z) := hcd0
  have e1 : (1.0 : F) = 1 := by norm_num
  -- the perpendicular part
  have hprep : lengthsq (vec3.smul eta (d + vec3.smul c n)) = eta ^ 2 * (1 - c ^ 2) := by
    simp only [lengthsq, vec3.smul, vec3.add_x, vec3.add_y, vec3.add_z]
    rw [hcd]
    linear_combination (eta ^ 2) * hd' +
      (eta ^ 2 * (d.x * n.x + d.y * n.y + d.z * n.z) ^ 2) * hn'
  have hnonneg : 0 ≤ 1 - eta ^ 2 * (1 - c ^ 2) := by linarith
  have habs : Raytracer.abs (1 - eta ^ 2 * (1 - c ^ 2)) = 1 - eta ^ 2 * (1 - c ^ 2) := by
    rw [abs_eq_abs, abs_of_nonneg hnonneg]
  obtain ⟨hs0, hss⟩ := hs _ hnonneg
  have hform : refract sqrt d n eta =
      vec3.smul eta (d + vec3.smul c n) +
        vec3.smul (-sqrt (1 - eta ^ 2 * (1 - c ^ 2))) n := by
    simp only [refract, e1, hc, if_neg hle1, hprep, habs]
  obtain ⟨s, hsdef⟩ : ∃ s, sqrt (1 - eta ^ 2 * (1 - c ^ 2)) = s := ⟨_, rfl⟩
  rw [hsdef] at hform hs0 hss ⊢
  have hdotn : dot (refract sqrt d n eta) n = -s := by
    rw [hform]
    simp only [dot, vec3.smul, vec3.add_x, vec3.add_y, vec3.add_z]
    rw [hcd]
    linear_combination (-(eta * (d.x * n.x + d.y * n.y + d.z * n.z) + s)) * hn'
  have hlsq : lengthsq (refract sqrt d n eta) = 1 := by
    rw [hform]
    have hss' : s * s = 1 - eta ^ 2 * (1 - c ^ 2) := hss
    rw [hcd] at hss'
    simp only [lengthsq, vec3.smul, vec3.add_x, vec3.add_y, vec3.add_z]
    rw [hcd]
    linear_combination (eta ^ 2) * hd' + hss' +
      ((eta * (d.x * n.x + d.y * n.y + d.z * n.z) + s) ^ 2) * hn'
  refine ⟨?_, hlsq, ?_, hdotn, ?_⟩
  · have : length sqrt (refract sqrt d n eta) = sqrt (lengthsq (refract sqrt d n eta)) := rfl
    rw [this, hlsq, sqrt_one_of_spec hs]
  · rw [hdotn, hform]
    ext
    · simp only [vec3.smul, vec3.add_x, vec3.sub_x, dot]
      rw [hcd]; ring
    · simp only [vec3.smul, vec3.add_y, vec3.sub_y, dot]
      rw [hcd]; ring
    · simp only [vec3.smul, vec3.add_z, vec3.sub_z, dot]
      rw [hcd]; ring
  · rw [hdotn]; linarith

/-- Witness for C27: `d = (4/5, -3/5, 0)`, `n = (0, 1, 0)` and `eta = 5/4`, the grazing
refraction. -/
theorem refract_snell_witness :
    SqrtSpec Real.sqrt ∧ length Real.sqrt (⟨4 / 5, -3 / 5, 0⟩ : vec3 ℝ) = 1 ∧
    length Real.sqrt (⟨0, 1, 0⟩ : vec3 ℝ) = 1 ∧
    0 ≤ dot (-(⟨4 / 5, -3 / 5, 0⟩ : vec3 ℝ)) ⟨0, 1, 0⟩ ∧ (0 : ℝ) < 5 / 4 ∧
    (5 / 4 : ℝ) ^ 2 * (1 - dot (-(⟨4 / 5, -3 / 5, 0⟩ : vec3 ℝ)) ⟨0, 1, 0⟩ ^ 2) ≤ 1 ∧
    (length Real.sqrt (refract Real.sqrt (⟨4 / 5, -3 / 5, 0⟩ : vec3 ℝ) ⟨0, 1, 0⟩ (5 / 4)) = 1 ∧
      lengthsq (refract Real.sqrt (⟨4 / 5, -3 / 5, 0⟩ : vec3 ℝ) ⟨0, 1, 0⟩ (5 / 4)) = 1 ∧
      refract Real.sqrt (⟨4 / 5, -3 / 5, 0⟩ : vec3 ℝ) ⟨0, 1, 0⟩ (5 / 4) -
          vec3.smul (dot (refract Real.sqrt (⟨4 / 5, -3 / 5, 0⟩ : vec3 ℝ) ⟨0, 1, 0⟩ (5 / 4))
            ⟨0, 1, 0⟩) ⟨0, 1, 0⟩ =
        vec3.smul (5 / 4) ((⟨4 / 5, -3 / 5, 0⟩ : vec3 ℝ) -
          vec3.smul (dot (⟨4 / 5, -3 / 5, 0⟩ : vec3 ℝ) ⟨0, 1, 0⟩) ⟨0, 1, 0⟩) ∧
      dot (refract Real.sqrt (⟨4 / 5, -3 / 5, 0⟩ : vec3 ℝ) ⟨0, 1, 0⟩ (5 / 4)) ⟨0, 1, 0⟩ =
        -Real.sqrt (1 - (5 / 4 : ℝ) ^ 2 *
          (1 - dot (-(⟨4 / 5, -3 / 5, 0⟩ : vec3 ℝ)) ⟨0, 1, 0⟩ ^ 2)) ∧
      dot (refract Real.sqrt (⟨4 / 5, -3 / 5, 0⟩ : vec3 ℝ) ⟨0, 1, 0⟩ (5 / 4)) ⟨0, 1, 0⟩ ≤ 0) :=
  have h1 : length Real.sqrt (⟨4 / 5, -3 / 5, 0⟩ : vec3 ℝ) = 1 := by norm_num [length]
  have h2 : length Real.sqrt (⟨0, 1, 0⟩ : vec3 ℝ) = 1 := by norm_num [length]
  have h3 : 0 ≤ dot (-(⟨4 / 5, -3 / 5, 0⟩ : vec3 ℝ)) ⟨0, 1, 0⟩ := by norm_num [dot]
  have h4 : (5 / 4 : ℝ) ^ 2 * (1 - dot (-(⟨4 / 5, -3 / 5, 0⟩ : vec3 ℝ)) ⟨0, 1, 0⟩ ^ 2) ≤ 1 := by
    norm_num [dot]
  ⟨sqrtSpec_real, h1, h2, h3, by norm_num, h4,
    refract_snell Real.sqrt sqrtSpec_real ⟨4 / 5, -3 / 5, 0⟩ ⟨0, 1, 0⟩ (5 / 4) h1 h2 h3
      (by norm_num) h4⟩

/-! ### Normalisation -/

/-- The offline `normalize` on a vector of positive squared length. -/
theorem normalize_of_ne_zero {sqrt : F → F} (hs : SqrtSpec sqrt) (v : vec3 F)
    (hv : v ≠ ⟨0, 0, 0⟩) :
    0 < length sqrt v ∧ length sqrt v * length sqrt v = lengthsq v ∧
      normalize sqrt v = v.divs (length sqrt v) := by
  have hpos : 0 < lengthsq v := dot_self_pos hv
  obtain ⟨h0, hh⟩ := hs (lengthsq v) (le_of_lt hpos)
  have hl : length sqrt v = sqrt (lengthsq v) := rfl
  have hlpos : 0 < length sqrt v := by
    rw [hl]
    rcases lt_or_eq_of_le h0 with h | h
    · exact h
    · rw [← h] at hh; linarith
  refine ⟨hlpos, by rw [hl]; exact hh, ?_⟩
  rw [normalize, if_neg (ne_of_gt hlpos)]

/-- Dividing a vector by its positive length gives a vector of squared length 1. -/
theorem lengthsq_divs_length (v : vec3 F) (l : F) (hl : 0 < l) (hll : l * l = lengthsq v) :
    lengthsq (v.divs l) = 1 := by
  have hne := ne_of_gt hl
  simp only [lengthsq, vec3.divs] at hll ⊢
  field_simp
  linarith

/-- The real-time `normalised` on a vector of positive squared length. -/
theorem Realtime.normalised_of_ne_zero {sqrt : F → F} (hs : SqrtSpec sqrt)
    (a : Realtime.v3 F) (ha : a ≠ ⟨0, 0, 0⟩) :
    0 < a.length sqrt ∧ a.length sqrt * a.length sqrt = a.length_squared ∧
      Realtime.normalised sqrt a = ⟨a.x / a.length sqrt, a.y / a.length sqrt,
        a.z / a.length sqrt⟩ := by
  have hnn : 0 ≤ a.length_squared := by
    unfold Realtime.v3.length_squared
    nlinarith [mul_self_nonneg a.x, mul_self_nonneg a.y, mul_self_nonneg a.z]
  have hpos : 0 < a.length_squared := by
    rcases lt_or_eq_of_le hnn with h | h
    · exact h
    · exfalso
      apply ha
      unfold Realtime.v3.length_squared at h
      have hx : a.x * a.x = 0 := by
        nlinarith [mul_self_nonneg a.x, mul_self_nonneg a.y, mul_self_nonneg a.z]
      have hy : a.y * a.y = 0 := by
        nlinarith [mul_self_nonneg a.x, mul_self_nonneg a.y, mul_self_nonneg a.z]
      have hz : a.z * a.z = 0 := by
        nlinarith [mul_self_nonneg a.x, mul_self_nonneg a.y, mul_self_nonneg a.z]
      ext
      · exact mul_self_eq_zero.mp hx
      · exact mul_self_eq_zero.mp hy
      · exact mul_self_eq_zero.mp hz
  obtain ⟨h0, hh⟩ := hs a.length_squared hnn
  have hlpos : 0 < a.length sqrt := by
    unfold Realtime.v3.length
    rcases lt_or_eq_of_le h0 with h | h
    · exact h
    · rw [← h] at hh; linarith
  refine ⟨hlpos, hh, ?_⟩
  simp only [Realtime.normalised, if_neg (ne_of_gt hlpos)]

/-- The method `v3::normalise` computes the same vector as `normalised`. -/
theorem Realtime.normalise_eq_normalised (sqrt : F → F) (a : Realtime.v3 F) :
    a.normalise sqrt = Realtime.normalised sqrt a := rfl

/-- C21. Normalisation is total with a defined degenerate case: the offline `normalize` and
the real-time `normalised` and `v3::normalise` return the zero vector for the zero vector;
for a non-zero vector `v` they return `v / |v|`, which has length 1 and is the positive
multiple `(1 / |v|) * v` of `v`; and normalising twice gives the same as normalising once. -/
theorem normalize_total (sqrt : F → F) (hs : SqrtSpec sqrt) (v : vec3 F)
    (a : Realtime.v3 F) :
    (normalize sqrt (⟨0, 0, 0⟩ : vec3 F) = ⟨0, 0, 0⟩ ∧
      Realtime.normalised sqrt (⟨0, 0, 0⟩ : Realtime.v3 F) = ⟨0, 0, 0⟩ ∧
      (⟨0, 0, 0⟩ : Realtime.v3 F).normalise sqrt = ⟨0, 0, 0⟩) ∧
    (v ≠ ⟨0, 0, 0⟩ →
      normalize sqrt v = v.divs (length sqrt v) ∧ length sqrt (normalize sqrt v) = 1 ∧
      0 < 1 / length sqrt v ∧ normalize sqrt v = vec3.smul (1 / length sqrt v) v) ∧
    (a ≠ ⟨0, 0, 0⟩ →
      Realtime.normalised sqrt a =
        ⟨a.x / a.length sqrt, a.y / a.length sqrt, a.z / a.length sqrt⟩ ∧
      a.normalise sqrt = ⟨a.x / a.length sqrt, a.y / a.length sqrt, a.z / a.length sqrt⟩ ∧
      (Realtime.normalised sqrt a).length sqrt = 1 ∧ (a.normalise sqrt).length sqrt = 1 ∧
      0 < 1 / a.length sqrt ∧
      Realtime.normalised sqrt a = Realtime.v3.smul (1 / a.length sqrt) a) ∧
    (normalize sqrt (normalize sqrt v) = normalize sqrt v ∧
      Realtime.normalised sqrt (Realtime.normalised sqrt a) = Realtime.normalised sqrt a ∧
      (a.normalise sqrt).normalise sqrt = a.normalise sqrt) := by
  have hz := sqrt_zero_of_spec hs
  have ho := sqrt_one_of_spec hs
  have hzero : normalize sqrt (⟨0, 0, 0⟩ : vec3 F) = ⟨0, 0, 0⟩ := by
    have : length sqrt (⟨0, 0, 0⟩ : vec3 F) = 0 := by
      simp only [length]; rw [show (0 : F) * 0 + 0 * 0 + 0 * 0 = 0 by ring]; exact hz
    rw [normalize, if_pos this]
  have hzero2 : Realtime.normalised sqrt (⟨0, 0, 0⟩ : Realtime.v3 F) = ⟨0, 0, 0⟩ := by
    have : (⟨0, 0, 0⟩ : Realtime.v3 F).length sqrt = 0 := by
      simp only [Realtime.v3.length, Realtime.v3.length_squared]
      rw [show (0 : F) * 0 + 0 * 0 + 0 * 0 = 0 by ring]; exact hz
    simp only [Realtime.normalised, this, if_true]
  -- facts about a non-zero offline vector
  have hv : v ≠ ⟨0, 0, 0⟩ →
      normalize sqrt v = v.divs (length sqrt v) ∧ length sqrt (normalize sqrt v) = 1 ∧
      0 < 1 / length sqrt v ∧ normalize sqrt v = vec3.smul (1 / length sqrt v) v := by
    intro hne
    obtain ⟨hl, hll, hn⟩ := normalize_of_ne_zero hs v hne
    refine ⟨hn, ?_, one_div_pos.mpr hl, ?_⟩
    · have : length sqrt (normalize sqrt v) = sqrt (lengthsq (normalize sqrt v)) := rfl
      rw [this, hn, lengthsq_divs_length v _ hl hll, ho]
    · rw [hn]
      ext <;> simp [vec3.divs, vec3.smul, div_eq_mul_inv]
  have ha : a ≠ ⟨0, 0, 0⟩ →
      Realtime.normalised sqrt a =
        ⟨a.x / a.length sqrt, a.y / a.length sqrt, a.z / a.length sqrt⟩ ∧
      (Realtime.normalised sqrt a).length sqrt = 1 ∧
      0 < 1 / a.length sqrt ∧
      Realtime.normalised sqrt a = Realtime.v3.smul (1 / a.length sqrt) a := by
    intro hne
    obtain ⟨hl, hll, hn⟩ := Realtime.normalised_of_ne_zero hs a hne
    refine ⟨hn, ?_, one_div_pos.mpr hl, ?_⟩
    · rw [hn]
      have hne' := ne_of_gt hl
      have : (⟨a.x / a.length sqrt, a.y / a.length sqrt, a.z / a.length sqrt⟩ :
          Realtime.v3 F).length_squared = 1 := by
        simp only [Realtime.v3.length_squared] at hll ⊢
        field_simp
        linarith
      change sqrt (Realtime.v3.length_squared _) = 1
      rw [this, ho]
    · rw [hn]
      ext <;> simp [Realtime.v3.smul, div_eq_mul_inv]
  have hidem1 : normalize sqrt (normalize sqrt v) = normalize sqrt v := by
    by_cases hne : v = ⟨0, 0, 0⟩
    · rw [hne, hzero, hzero]
    · obtain ⟨_, h1, _, _⟩ := hv hne
      rw [normalize, h1, if_neg one_ne_zero]
      ext <;> simp [vec3.divs]
  have hidem2 : Realtime.normalised sqrt (Realtime.normalised sqrt a) =
      Realtime.normalised sqrt a := by
    by_cases hne : a = ⟨0, 0, 0⟩
    · rw [hne, hzero2, hzero2]
    · obtain ⟨_, h1, _, _⟩ := ha hne
      generalize Realtime.normalised sqrt a = b at h1 ⊢
      simp only [Realtime.normalised, h1, if_neg one_ne_zero, div_one]
  refine ⟨⟨hzero, hzero2, hzero2⟩, hv, ?_, hidem1, hidem2, hidem2⟩
  intro hne
  obtain ⟨h1, h2, h3, h4⟩ := ha hne
  exact ⟨h1, h1, h2, h2, h3, h4⟩

/-- Witness for C21: the vector `(0, 3, 4)` over the reals. -/
theorem normalize_total_witness :
    SqrtSpec Real.sqrt ∧
    ((normalize Real.sqrt (⟨0, 0, 0⟩ : vec3 ℝ) = ⟨0, 0, 0⟩ ∧
      Realtime.normalised Real.sqrt (⟨0, 0, 0⟩ : Realtime.v3 ℝ) = ⟨0, 0, 0⟩ ∧
      (⟨0, 0, 0⟩ : Realtime.v3 ℝ).normalise Real.sqrt = ⟨0, 0, 0⟩) ∧
    ((⟨0, 3, 4⟩ : vec3 ℝ) ≠ ⟨0, 0, 0⟩ →
      normalize Real.sqrt (⟨0, 3, 4⟩ : vec3 ℝ) = (⟨0, 3, 4⟩ : vec3 ℝ).divs (length Real.sqrt (⟨0, 3, 4⟩ : vec3 ℝ)) ∧ length Real.sqrt (normalize Real.sqrt (⟨0, 3, 4⟩ : vec3 ℝ)) = 1 ∧
      0 < 1 / length Real.sqrt (⟨0, 3, 4⟩ : vec3 ℝ) ∧ normalize Real.sqrt (⟨0, 3, 4⟩ : vec3 ℝ) = vec3.smul (1 / length Real.sqrt (⟨0, 3, 4⟩ : vec3 ℝ)) (⟨0, 3, 4⟩ : vec3 ℝ)) ∧
    ((⟨0, 3, 4⟩ : Realtime.v3 ℝ) ≠ ⟨0, 0, 0⟩ →
      Realtime.normalised Real.sqrt (⟨0, 3, 4⟩ : Realtime.v3 ℝ) =
        ⟨(⟨0, 3, 4⟩ : Realtime.v3 ℝ).x / (⟨0, 3, 4⟩ : Realtime.v3 ℝ).length Real.sqrt, (⟨0, 3, 4⟩ : Realtime.v3 ℝ).y / (⟨0, 3, 4⟩ : Realtime.v3 ℝ).length Real.sqrt, (⟨0, 3, 4⟩ : Realtime.v3 ℝ).z / (⟨0, 3, 4⟩ : Realtime.v3 ℝ).length Real.sqrt⟩ ∧
      (⟨0, 3, 4⟩ : Realtime.v3 ℝ).normalise Real.sqrt = ⟨(⟨0, 3, 4⟩ : Realtime.v3 ℝ).x / (⟨0, 3, 4⟩ : Realtime.v3 ℝ).length Real.sqrt, (⟨0, 3, 4⟩ : Realtime.v3 ℝ).y / (⟨0, 3, 4⟩ : Realtime.v3 ℝ).length Real.sqrt, (⟨0, 3, 4⟩ : Realtime.v3 ℝ).z / (⟨0, 3, 4⟩ : Realtime.v3 ℝ).length Real.sqrt⟩ ∧
      (Realtime.normalised Real.sqrt (⟨0, 3, 4⟩ : Realtime.v3 ℝ)).length Real.sqrt = 1 ∧ ((⟨0, 3, 4⟩ : Realtime.v3 ℝ).normalise Real.sqrt).length Real.sqrt = 1 ∧
      0 < 1 / (⟨0, 3, 4⟩ : Realtime.v3 ℝ).length Real.sqrt ∧
      Realtime.normalised Real.sqrt (⟨0, 3, 4⟩ : Realtime.v3 ℝ) = Realtime.v3.smul (1 / (⟨0, 3, 4⟩ : Realtime.v3 ℝ).length Real.sqrt) (⟨0, 3, 4⟩ : Realtime.v3 ℝ)) ∧
    (normalize Real.sqrt (normalize Real.sqrt (⟨0, 3, 4⟩ : vec3 ℝ)) = normalize Real.sqrt (⟨0, 3, 4⟩ : vec3 ℝ) ∧
      Realtime.normalised Real.sqrt (Realtime.normalised Real.sqrt (⟨0, 3, 4⟩ : Realtime.v3 ℝ)) = Realtime.normalised Real.sqrt (⟨0, 3, 4⟩ : Realtime.v3 ℝ) ∧
      ((⟨0, 3, 4⟩ : Realtime.v3 ℝ).normalise Real.sqrt).normalise Real.sqrt = (⟨0, 3, 4⟩ : Realtime.v3 ℝ).normalise Real.sqrt)) :=
  ⟨sqrtSpec_real, normalize_total Real.sqrt sqrtSpec_real ⟨0, 3, 4⟩ ⟨0, 3, 4⟩⟩

/-! ### The camera basis -/

theorem dot_cross_self_left (a b : vec3 F) : dot (cross a b) a = 0 := by
  simp only [dot, cross]; ring

theorem dot_cross_self_right (a b : vec3 F) : dot (cross a b) b = 0 := by
  simp only [dot, cross]; ring

theorem lengthsq_cross (a b : vec3 F) :
    lengthsq (cross a b) = lengthsq a * lengthsq b - dot a b * dot a b := by
  simp only [lengthsq, dot, cross]; ring

theorem dot_divs_left (a b : vec3 F) (l : F) : dot (a.divs l) b = dot a b / l := by
  simp only [dot, vec3.divs]; ring

theorem dot_divs_right (a b : vec3 F) (l : F) : dot a (b.divs l) = dot a b / l := by
  simp only [dot, vec3.divs]; ring

theorem cross_divs_right (a b : vec3 F) (l : F) : cross a (b.divs l) = (cross a b).divs l := by
  ext <;> simp only [cross, vec3.divs] <;> ring

theorem divs_ne_zero (a : vec3 F) (l : F) (hl : l ≠ 0) (ha : a ≠ ⟨0, 0, 0⟩) :
    a.divs l ≠ ⟨0, 0, 0⟩ := by
  intro h
  apply ha
  have hx := congrArg vec3.x h
  have hy := congrArg vec3.y h
  have hz := congrArg vec3.z h
  simp only [vec3.divs] at hx hy hz
  ext
  · exact (div_eq_zero_iff.mp hx).resolve_right hl
  · exact (div_eq_zero_iff.mp hy).resolve_right hl
  · exact (div_eq_zero_iff.mp hz).resolve_right hl

/-- The normalised form of a non-zero vector has squared length 1 and length 1. -/
theorem normalize_unit {sqrt : F → F} (hs : SqrtSpec sqrt) (v : vec3 F)
    (hv : v ≠ ⟨0, 0, 0⟩) :
    lengthsq (normalize sqrt v) = 1 ∧ length sqrt (normalize sqrt v) = 1 := by
  obtain ⟨hl, hll, hn⟩ := normalize_of_ne_zero hs v hv
  have h1 : lengthsq (normalize sqrt v) = 1 := by
    rw [hn]; exact lengthsq_divs_length v _ hl hll
  refine ⟨h1, ?_⟩
  have : length sqrt (normalize sqrt v) = sqrt (lengthsq (normalize sqrt v)) := rfl
  rw [this, h1, sqrt_one_of_spec hs]

/-- C26. The camera basis is orthonormal: for `lookfrom ≠ look_at` and `camera_up` not
parallel to `lookfrom - look_at`, the vectors `w = normalize (lookfrom - look_at)`,
`u = normalize (cross camera_up w)` and `v = normalize (cross w u)` computed by `main` have
length 1 and are pairwise orthogonal, and `v` equals `cross w u`. -/
theorem camera_basis_orthonormal (sqrt : F → F) (hs : SqrtSpec sqrt)
    (lookfrom look_at camera_up : vec3 F) (hne : lookfrom ≠ look_at)
    (hpar : cross camera_up (lookfrom - look_at) ≠ ⟨0, 0, 0⟩) :
    length sqrt (camera_basis sqrt lookfrom look_at camera_up).1 = 1 ∧
    length sqrt (camera_basis sqrt lookfrom look_at camera_up).2.1 = 1 ∧
    length sqrt (camera_basis sqrt lookfrom look_at camera_up).2.2 = 1 ∧
    dot (camera_basis sqrt lookfrom look_at camera_up).1
      (camera_basis sqrt lookfrom look_at camera_up).2.1 = 0 ∧
    dot (camera_basis sqrt lookfrom look_at camera_up).1
      (camera_basis sqrt lookfrom look_at camera_up).2.2 = 0 ∧
    dot (camera_basis sqrt lookfrom look_at camera_up).2.1
      (camera_basis sqrt lookfrom look_at camera_up).2.2 = 0 ∧
    (camera_basis sqrt lookfrom look_at camera_up).2.1 =
      cross (camera_basis sqrt lookfrom look_at camera_up).2.2
        (camera_basis sqrt lookfrom look_at camera_up).1 := by
  have hd : lookfrom - look_at ≠ ⟨0, 0, 0⟩ := by
    intro h
    apply hne
    have hx := congrArg vec3.x h
    have hy := congrArg vec3.y h
    have hz := congrArg vec3.z h
    simp only [vec3.sub_x, vec3.sub_y, vec3.sub_z] at hx hy hz
    ext <;> linarith
  -- the vector w
  obtain ⟨hL, _, hwn⟩ := normalize_of_ne_zero hs (lookfrom - look_at) hd
  obtain ⟨hw2, hw1⟩ := normalize_unit hs (lookfrom - look_at) hd
  -- the vector u
  have hc : cross camera_up (normalize sqrt (lookfrom - look_at)) ≠ ⟨0, 0, 0⟩ := by
    rw [hwn, cross_divs_right]
    exact divs_ne_zero _ _ (ne_of_gt hL) hpar
  obtain ⟨hM, _, hun⟩ := normalize_of_ne_zero hs _ hc
  obtain ⟨hu2, hu1⟩ := normalize_unit hs _ hc
  have huw : dot (normalize sqrt (cross camera_up (normalize sqrt (lookfrom - look_at))))
      (normalize sqrt (lookfrom - look_at)) = 0 := by
    rw [hun, dot_divs_left, dot_cross_self_right, zero_div]
  -- the vector v
  have hwu : dot (normalize sqrt (lookfrom - look_at))
      (normalize sqrt (cross camera_up (normalize sqrt (lookfrom - look_at)))) = 0 := by
    have : ∀ a b : vec3 F, dot a b = dot b a := by
      intro a b; simp only [dot]; ring
    rw [this, huw]
  have hcl : lengthsq (cross (normalize sqrt (lookfrom - look_at))
      (normalize sqrt (cross camera_up (normalize sqrt (lookfrom - look_at))))) = 1 := by
    rw [lengthsq_cross, hw2, hu2, hwu]; ring
  have hclen : length sqrt (cross (normalize sqrt (lookfrom - look_at))
      (normalize sqrt (cross camera_up (normalize sqrt (lookfrom - look_at))))) = 1 := by
    have : ∀ x : vec3 F, length sqrt x = sqrt (lengthsq x) := fun _ => rfl
    rw [this, hcl, sqrt_one_of_spec hs]
  have hv : normalize sqrt (cross (normalize sqrt (lookfrom - look_at))
      (normalize sqrt (cross camera_up (normalize sqrt (lookfrom - look_at))))) =
      cross (normalize sqrt (lookfrom - look_at))
        (normalize sqrt (cross camera_up (normalize sqrt (lookfrom - look_at)))) := by
    generalize cross (normalize sqrt (lookfrom - look_at))
      (normalize sqrt (cross camera_up (normalize sqrt (lookfrom - look_at)))) = x at hclen ⊢
    rw [normalize, hclen, if_neg one_ne_zero]
    ext <;> simp [vec3.divs]
  simp only [camera_basis]
  refine ⟨hu1, ?_, hw1, ?_, huw, ?_, hv⟩
  · rw [hv]; exact hclen
  · rw [hv]
    have : ∀ a b : vec3 F, dot a b = dot b a := by
      intro a b; simp only [dot]; ring
    rw [this, dot_cross_self_right]
  · rw [hv, dot_cross_self_left]

/-- Witness for C26: looking from `(0, 0, 2)` to the origin with `camera_up = (0, 1, 0)`. -/
theorem camera_basis_orthonormal_witness :
    SqrtSpec Real.sqrt ∧ (⟨0, 0, 2⟩ : vec3 ℝ) ≠ ⟨0, 0, 0⟩ ∧
    cross (⟨0, 1, 0⟩ : vec3 ℝ) (⟨0, 0, 2⟩ - ⟨0, 0, 0⟩) ≠ ⟨0, 0, 0⟩ ∧
    (length Real.sqrt (camera_basis Real.sqrt (⟨0, 0, 2⟩ : vec3 ℝ) ⟨0, 0, 0⟩ ⟨0, 1, 0⟩).1 = 1 ∧
      length Real.sqrt
        (camera_basis Real.sqrt (⟨0, 0, 2⟩ : vec3 ℝ) ⟨0, 0, 0⟩ ⟨0, 1, 0⟩).2.1 = 1 ∧
      length Real.sqrt
        (camera_basis Real.sqrt (⟨0, 0, 2⟩ : vec3 ℝ) ⟨0, 0, 0⟩ ⟨0, 1, 0⟩).2.2 = 1 ∧
      dot (camera_basis Real.sqrt (⟨0, 0, 2⟩ : vec3 ℝ) ⟨0, 0, 0⟩ ⟨0, 1, 0⟩).1
        (camera_basis Real.sqrt (⟨0, 0, 2⟩ : vec3 ℝ) ⟨0, 0, 0⟩ ⟨0, 1, 0⟩).2.1 = 0 ∧
      dot (camera_basis Real.sqrt (⟨0, 0, 2⟩ : vec3 ℝ) ⟨0, 0, 0⟩ ⟨0, 1, 0⟩).1
        (camera_basis Real.sqrt (⟨0, 0, 2⟩ : vec3 ℝ) ⟨0, 0, 0⟩ ⟨0, 1, 0⟩).2.2 = 0 ∧
      dot (camera_basis Real.sqrt (⟨0, 0, 2⟩ : vec3 ℝ) ⟨0, 0, 0⟩ ⟨0, 1, 0⟩).2.1
        (camera_basis Real.sqrt (⟨0, 0, 2⟩ : vec3 ℝ) ⟨0, 0, 0⟩ ⟨0, 1, 0⟩).2.2 = 0 ∧
      (camera_basis Real.sqrt (⟨0, 0, 2⟩ : vec3 ℝ) ⟨0, 0, 0⟩ ⟨0, 1, 0⟩).2.1 =
        cross (camera_basis Real.sqrt (⟨0, 0, 2⟩ : vec3 ℝ) ⟨0, 0, 0⟩ ⟨0, 1, 0⟩).2.2
          (camera_basis Real.sqrt (⟨0, 0, 2⟩ : vec3 ℝ) ⟨0, 0, 0⟩ ⟨0, 1, 0⟩).1) :=
  have h1 : (⟨0, 0, 2⟩ : vec3 ℝ) ≠ ⟨0, 0, 0⟩ := by simp
  have h2 : cross (⟨0, 1, 0⟩ : vec3 ℝ) (⟨0, 0, 2⟩ - ⟨0, 0, 0⟩) ≠ ⟨0, 0, 0⟩ := by
    simp [cross]
  ⟨sqrtSpec_real, h1, h2,
    camera_basis_orthonormal Real.sqrt sqrtSpec_real ⟨0, 0, 2⟩ ⟨0, 0, 0⟩ ⟨0, 1, 0⟩ h1 h2⟩

/-! ### The anti-aliasing jitter -/

/-- The primary-ray target is `pixel_center` plus `delta_u` and `delta_v` scaled by the
jitter coefficients of two consecutive `rand()` values. -/
theorem primary_ray_point_eq (RAND_MAX : Nat) (pixel_center delta_u delta_v : vec3 F)
    (g : rng_t) :
    primary_ray_point RAND_MAX pixel_center delta_u delta_v g =
      (pixel_center + delta_u.muls (jitter_coefficient (rand RAND_MAX g).1) +
        delta_v.muls (jitter_coefficient (rand RAND_MAX (rand RAND_MAX g).2).1),
        (rand RAND_MAX (rand RAND_MAX g).2).2) := by
  simp only [primary_ray_point, jitter_coefficient, vec3.muls]
  refine Prod.ext ?_ rfl
  ext <;> simp only [vec3.add_x, vec3.add_y, vec3.add_z] <;> ring

/-- The jitter coefficient ranges over `[-0.25, 0.7495]`. -/
theorem jitter_coefficient_range (r : Nat) :
    (-0.25 : F) ≤ jitter_coefficient r ∧ (jitter_coefficient r : F) ≤ 0.7495 := by
  have h0 : (0 : F) ≤ ((r % 2000 : Nat) : F) := Nat.cast_nonneg _
  have h1 : ((r % 2000 : Nat) : F) ≤ 1999 := by
    have : r % 2000 ≤ 1999 := by omega
    exact_mod_cast this
  simp only [jitter_coefficient]
  constructor
  · norm_num
    linarith
  · norm_num
    linarith

/-- C24. The jitter coefficient `0.5 * ((rand() % 2000) / 1000.0 - 0.5)` leaves
`[-0.5, 0.5]`: for `rand() = 1999` it is `0.7495`, and with `delta_u = (1, 0, 0)`,
`delta_v = (0, 1, 0)` and both draws equal to `1999` the primary-ray target is
`pixel_center + (0.7495, 0.7495, 0)`, outside the pixel centred at `pixel_center`; over all
draws the coefficient ranges over `[-0.25, 0.7495]`. -/
theorem jitter_coefficient_exceeds_half :
    jitter_coefficient (F := ℝ) 1999 = 0.7495 ∧
    ¬ (jitter_coefficient (F := ℝ) 1999 ≤ 0.5) ∧
    (primary_ray_point 2147483647 (⟨0, 0, 0⟩ : vec3 ℝ) ⟨1, 0, 0⟩ ⟨0, 1, 0⟩
      ⟨fun _ => 1999, 0⟩).1 = ⟨0.7495, 0.7495, 0⟩ ∧
    (∀ r : Nat, (-0.25 : ℝ) ≤ jitter_coefficient r ∧ (jitter_coefficient r : ℝ) ≤ 0.7495) := by
  refine ⟨?_, ?_, ?_, fun r => jitter_coefficient_range r⟩
  · norm_num [jitter_coefficient]
  · norm_num [jitter_coefficient]
  · rw [primary_ray_point_eq]
    norm_num [rand, jitter_coefficient, vec3.muls]

/-! ### The miss colour -/

/-- The interpolation of the miss branch, channel by channel. -/
theorem miss_colour_channels (y : F) :
    vec3.smul (1.0 - 0.5 * (y + 1.0)) (⟨1.0, 1.0, 1.0⟩ : color3 F) +
        vec3.smul (0.5 * (y + 1.0)) ⟨0.5, 0.7, 1.0⟩ =
      ⟨0.75 - 0.25 * y, 0.85 - 0.15 * y, 1⟩ := by
  ext <;> simp only [vec3.smul, vec3.add_x, vec3.add_y, vec3.add_z] <;> norm_num <;> ring

/-- C25. The miss colour leaves the range between white and sky-blue: the Lambertian unit
sphere hit from `(0,3,0)` along `(0,-2,0)` scatters, from the generator state `rng_tilt`,
into the ray from `(0,1,0)` along `(0, 1.6, 0.8)`; that ray misses, its interpolation
factor `0.5 * (dir.y + 1)` is `1.3 > 1`, and `cast_ray` with `bounces_left = 1` returns
`(0.35, 0.61, 1)`, whose red channel is below `0.5`. -/
theorem cast_ray_miss_colour_outside_gradient :
    cast_ray_loop Real.sqrt ⟨⟨0, 3, 0⟩, ⟨0, -2, 0⟩⟩
        (unit_sphere_scene (material_t.Lambertian ⟨0.4, 0.2, 0.1⟩)) =
      (true, ⟨⟨0, 1, 0⟩, ⟨0, 1, 0⟩, 1, material_t.Lambertian ⟨0.4, 0.2, 0.1⟩, true⟩) ∧
    cast_ray_scatter Real.sqrt 2147483647 1 ⟨⟨0, 3, 0⟩, ⟨0, -2, 0⟩⟩
        ⟨⟨0, 1, 0⟩, ⟨0, 1, 0⟩, 1, material_t.Lambertian ⟨0.4, 0.2, 0.1⟩, true⟩ rng_tilt =
      some (⟨0.4, 0.2, 0.1⟩, ⟨0, 1.6, 0.8⟩, rng_tilt3) ∧
    (cast_ray_loop Real.sqrt ⟨⟨0, 1, 0⟩, ⟨0, 1.6, 0.8⟩⟩
        (unit_sphere_scene (material_t.Lambertian ⟨0.4, 0.2, 0.1⟩))).1 = false ∧
    cast_ray Real.sqrt 2147483647 1 (unit_sphere_scene (material_t.Lambertian ⟨0.4, 0.2, 0.1⟩))
        1 ⟨⟨0, 1, 0⟩, ⟨0, 1.6, 0.8⟩⟩ rng_tilt3 = some (⟨0.35, 0.61, 1⟩, rng_tilt3) ∧
    ¬ ((0.5 : ℝ) * ((⟨⟨0, 1, 0⟩, ⟨0, 1.6, 0.8⟩⟩ : ray_t ℝ).dir.y + 1.0) ≤ 1) ∧
    ¬ ((0.5 : ℝ) ≤ (⟨0.35, 0.61, 1⟩ : color3 ℝ).x) := by
  have hnz : near_zero ((⟨0, 0.6, 0.8⟩ : vec3 ℝ) + ⟨0, 1, 0⟩) = false := by
    rw [← Bool.not_eq_true, near_zero_iff]
    rintro ⟨_, h, _⟩
    rw [vec3.mk_add_mk, abs_of_pos (by norm_num)] at h
    norm_num at h
  refine ⟨cast_ray_loop_from_above _, ?_,
    cast_ray_loop_leaving _ _ (by norm_num) (by norm_num), ?_, by norm_num, by norm_num⟩
  · simp only [cast_ray_scatter, random_unit_vector_rng_tilt, hnz]
    norm_num
  · rw [cast_ray_of_miss Real.sqrt 2147483647 1 _ 0 _ rng_tilt3
      (cast_ray_loop_leaving _ _ (by norm_num) (by norm_num))]
    rw [miss_colour_channels]
    norm_num

/-! ### Packing a colour into a 32-bit word -/

/-- A value in `0 ≤ x ≤ 255` is converted by `(u32) x` to its integer part. -/
theorem Realtime.r32_to_u32_eq_floor [FloorRing F] (x : F) (h0 : 0 ≤ x) (h1 : x ≤ 255) :
    Realtime.r32_to_u32 x = ⌊x⌋₊ ∧ ⌊x⌋₊ ≤ 255 := by
  have hf0 : 0 ≤ ⌊x⌋ := Int.floor_nonneg.mpr h0
  have hf1 : ⌊x⌋ < 2 ^ 32 := Int.floor_lt.mpr (by push_cast; linarith)
  constructor
  · unfold Realtime.r32_to_u32
    rw [if_pos h0, Int.emod_eq_of_lt hf0 hf1]
    rfl
  · exact Nat.floor_le_of_le (by exact_mod_cast h1)

/-- Four bytes combined by shifts and bitwise or. -/
theorem Realtime.pack_bytes (a b c d : Nat) (ha : a ≤ 255) (hb : b ≤ 255) (hc : c ≤ 255)
    (hd : d ≤ 255) :
    ((((0 ||| (a <<< 24) % 2 ^ 32) ||| (b <<< 16) % 2 ^ 32) ||| (c <<< 8) % 2 ^ 32) |||
      (d <<< 0) % 2 ^ 32) = a * 2 ^ 24 + b * 2 ^ 16 + c * 2 ^ 8 + d := by
  simp only [Nat.shiftLeft_eq, Nat.zero_or, pow_zero, mul_one]
  rw [Nat.mod_eq_of_lt (by omega), Nat.mod_eq_of_lt (by omega), Nat.mod_eq_of_lt (by omega),
    Nat.mod_eq_of_lt (by omega)]
  have e1 : a * 2 ^ 24 ||| b * 2 ^ 16 = a * 2 ^ 24 + b * 2 ^ 16 := by
    have := Nat.mul_add_lt_is_or (i := 24) (b := b * 2 ^ 16) (by omega) a
    rw [mul_comm a (2 ^ 24)]; exact this.symm
  have e2 : (a * 2 ^ 24 + b * 2 ^ 16) ||| c * 2 ^ 8 = a * 2 ^ 24 + b * 2 ^ 16 + c * 2 ^ 8 := by
    have := Nat.mul_add_lt_is_or (i := 16) (b := c * 2 ^ 8) (by omega) (a * 2 ^ 8 + b)
    rw [show a * 2 ^ 24 + b * 2 ^ 16 = 2 ^ 16 * (a * 2 ^ 8 + b) by ring, ← this]
  have e3 : (a * 2 ^ 24 + b * 2 ^ 16 + c * 2 ^ 8) ||| d =
      a * 2 ^ 24 + b * 2 ^ 16 + c * 2 ^ 8 + d := by
    have := Nat.mul_add_lt_is_or (i := 8) (b := d) (by omega) (a * 2 ^ 16 + b * 2 ^ 8 + c)
    rw [show a * 2 ^ 24 + b * 2 ^ 16 + c * 2 ^ 8 = 2 ^ 8 * (a * 2 ^ 16 + b * 2 ^ 8 + c) by ring,
      ← this]
  rw [e1, e2, e3]

/-- Every channel of a clipped colour lies in `[0, 1]`. -/
theorem Realtime.clip_channel_range (x : F) :
    0 ≤ (if x > 1.0 then (1.0 : F) else if x < 0.0 then 0.0 else x) ∧
    (if x > 1.0 then (1.0 : F) else if x < 0.0 then 0.0 else x) ≤ 1 := by
  have e1 : (1.0 : F) = 1 := by norm_num
  have e0 : (0.0 : F) = 0 := by norm_num
  rw [e1, e0]
  split_ifs with h1 h0
  · exact ⟨zero_le_one, le_refl _⟩
  · exact ⟨le_refl _, zero_le_one⟩
  · exact ⟨not_lt.mp h0, not_lt.mp h1⟩

/-- A channel in `[0, 1]` is left unchanged by the clip. -/
theorem Realtime.clip_channel_id (x : F) (h0 : 0 ≤ x) (h1 : x ≤ 1) :
    (if x > 1.0 then (1.0 : F) else if x < 0.0 then 0.0 else x) = x := by
  have e1 : (1.0 : F) = 1 := by norm_num
  have e0 : (0.0 : F) = 0 := by norm_num
  rw [e1, e0, if_neg (not_lt.mpr h1), if_neg (not_lt.mpr h0)]

/-- A colour with all channels in `[0, 1]` is left unchanged by `clip_color_value`. -/
theorem Realtime.clip_color_value_id (c : Realtime.Color F) (hx : 0 ≤ c.x ∧ c.x ≤ 1)
    (hy : 0 ≤ c.y ∧ c.y ≤ 1) (hz : 0 ≤ c.z ∧ c.z ≤ 1) (hw : 0 ≤ c.w ∧ c.w ≤ 1) :
    Realtime.clip_color_value c = c := by
  unfold Realtime.clip_color_value
  rw [Realtime.clip_channel_id _ hx.1 hx.2, Realtime.clip_channel_id _ hy.1 hy.2,
    Realtime.clip_channel_id _ hz.1 hz.2, Realtime.clip_channel_id _ hw.1 hw.2]

/-- Every channel of `clip_color_value c` lies in `[0, 1]`. -/
theorem Realtime.clip_color_value_range (c : Realtime.Color F) :
    (0 ≤ (Realtime.clip_color_value c).x ∧ (Realtime.clip_color_value c).x ≤ 1) ∧
    (0 ≤ (Realtime.clip_color_value c).y ∧ (Realtime.clip_color_value c).y ≤ 1) ∧
    (0 ≤ (Realtime.clip_color_value c).z ∧ (Realtime.clip_color_value c).z ≤ 1) ∧
    (0 ≤ (Realtime.clip_color_value c).w ∧ (Realtime.clip_color_value c).w ≤ 1) :=
  ⟨Realtime.clip_channel_range c.x, Realtime.clip_channel_range c.y,
    Realtime.clip_channel_range c.z, Realtime.clip_channel_range c.w⟩

/-- C22. `convert_color_to_u32` packs the channels R-G-B-A from the high byte to the low
byte: for a colour `color` whose four channels lie in `[0,1]` the result is
`floor(255*x)*2^24 + floor(255*y)*2^16 + floor(255*z)*2^8 + floor(255*w)` (the word
`rgba_word` of the four integer parts), it is below `2^32`, and byte `k` of the word is the
integer part of `255` times channel `k`; every colour `c` returned by
`clip_color_value` has all four channels in `[0,1]`, `clip_color_value` is idempotent, and
it is the identity on `color`. -/
theorem convert_color_to_u32_packs [FloorRing F] (color c : Realtime.Color F)
    (hx : 0 ≤ color.x ∧ color.x ≤ 1) (hy : 0 ≤ color.y ∧ color.y ≤ 1)
    (hz : 0 ≤ color.z ∧ color.z ≤ 1) (hw : 0 ≤ color.w ∧ color.w ≤ 1) :
    Realtime.convert_color_to_u32 color =
      Realtime.rgba_word ⌊255 * color.x⌋₊ ⌊255 * color.y⌋₊ ⌊255 * color.z⌋₊ ⌊255 * color.w⌋₊ ∧
    Realtime.convert_color_to_u32 color < 2 ^ 32 ∧
    (Realtime.convert_color_to_u32 color >>> 24) % 256 = ⌊255 * color.x⌋₊ ∧
    (Realtime.convert_color_to_u32 color >>> 16) % 256 = ⌊255 * color.y⌋₊ ∧
    (Realtime.convert_color_to_u32 color >>> 8) % 256 = ⌊255 * color.z⌋₊ ∧
    (Realtime.convert_color_to_u32 color >>> 0) % 256 = ⌊255 * color.w⌋₊ ∧
    ((0 ≤ (Realtime.clip_color_value c).x ∧ (Realtime.clip_color_value c).x ≤ 1) ∧
      (0 ≤ (Realtime.clip_color_value c).y ∧ (Realtime.clip_color_value c).y ≤ 1) ∧
      (0 ≤ (Realtime.clip_color_value c).z ∧ (Realtime.clip_color_value c).z ≤ 1) ∧
      (0 ≤ (Realtime.clip_color_value c).w ∧ (Realtime.clip_color_value c).w ≤ 1)) ∧
    Realtime.clip_color_value (Realtime.clip_color_value c) = Realtime.clip_color_value c ∧
    Realtime.clip_color_value color = color := by
  have hb : ∀ t : F, 0 ≤ t ∧ t ≤ 1 → 0 ≤ t * 255 ∧ t * 255 ≤ 255 := by
    intro t ht
    constructor
    · nlinarith [ht.1]
    · nlinarith [ht.2]
  obtain ⟨ex, bx⟩ := Realtime.r32_to_u32_eq_floor _ (hb _ hx).1 (hb _ hx).2
  obtain ⟨ey, by1⟩ := Realtime.r32_to_u32_eq_floor _ (hb _ hy).1 (hb _ hy).2
  obtain ⟨ez, bz⟩ := Realtime.r32_to_u32_eq_floor _ (hb _ hz).1 (hb _ hz).2
  obtain ⟨ew, bw⟩ := Realtime.r32_to_u32_eq_floor _ (hb _ hw).1 (hb _ hw).2
  have hpack : Realtime.convert_color_to_u32 color =
      ⌊255 * color.x⌋₊ * 2 ^ 24 + ⌊255 * color.y⌋₊ * 2 ^ 16 + ⌊255 * color.z⌋₊ * 2 ^ 8 +
        ⌊255 * color.w⌋₊ := by
    simp only [Realtime.convert_color_to_u32]
    rw [ex, ey, ez, ew, Realtime.pack_bytes _ _ _ _ bx by1 bz bw]
    simp only [mul_comm]
  rw [mul_comm] at bx by1 bz bw
  have hr := Realtime.clip_color_value_range c
  refine ⟨by rw [hpack, Realtime.rgba_word], ?_, ?_, ?_, ?_, ?_, hr, ?_, Realtime.clip_color_value_id color hx hy hz hw⟩
  · rw [hpack]; omega
  · rw [hpack, Nat.shiftRight_eq_div_pow]; omega
  · rw [hpack, Nat.shiftRight_eq_div_pow]; omega
  · rw [hpack, Nat.shiftRight_eq_div_pow]; omega
  · rw [hpack, Nat.shiftRight_eq_div_pow]; omega
  · exact Realtime.clip_color_value_id _ hr.1 hr.2.1 hr.2.2.1 hr.2.2.2

/-- Witness for C22: the colour `(1, 1/2, 0, 1)` is packed, and `(2, -1, 1/2, 0)` is
clipped. -/
theorem convert_color_to_u32_packs_witness :
    ((0 : ℝ) ≤ (⟨1, 1 / 2, 0, 1⟩ : Realtime.Color ℝ).x ∧ (⟨1, 1 / 2, 0, 1⟩ : Realtime.Color ℝ).x ≤ 1) ∧
    ((0 : ℝ) ≤ (⟨1, 1 / 2, 0, 1⟩ : Realtime.Color ℝ).y ∧ (⟨1, 1 / 2, 0, 1⟩ : Realtime.Color ℝ).y ≤ 1) ∧
    ((0 : ℝ) ≤ (⟨1, 1 / 2, 0, 1⟩ : Realtime.Color ℝ).z ∧ (⟨1, 1 / 2, 0, 1⟩ : Realtime.Color ℝ).z ≤ 1) ∧
    ((0 : ℝ) ≤ (⟨1, 1 / 2, 0, 1⟩ : Realtime.Color ℝ).w ∧ (⟨1, 1 / 2, 0, 1⟩ : Realtime.Color ℝ).w ≤ 1) ∧
    (Realtime.convert_color_to_u32 (⟨1, 1 / 2, 0, 1⟩ : Realtime.Color ℝ) =
        Realtime.rgba_word ⌊255 * (⟨1, 1 / 2, 0, 1⟩ : Realtime.Color ℝ).x⌋₊ ⌊255 * (⟨1, 1 / 2, 0, 1⟩ : Realtime.Color ℝ).y⌋₊ ⌊255 * (⟨1, 1 / 2, 0, 1⟩ : Realtime.Color ℝ).z⌋₊ ⌊255 * (⟨1, 1 / 2, 0, 1⟩ : Realtime.Color ℝ).w⌋₊ ∧
      Realtime.convert_color_to_u32 (⟨1, 1 / 2, 0, 1⟩ : Realtime.Color ℝ) < 2 ^ 32 ∧
      (Realtime.convert_color_to_u32 (⟨1, 1 / 2, 0, 1⟩ : Realtime.Color ℝ) >>> 24) % 256 = ⌊255 * (⟨1, 1 / 2, 0, 1⟩ : Realtime.Color ℝ).x⌋₊ ∧
      (Realtime.convert_color_to_u32 (⟨1, 1 / 2, 0, 1⟩ : Realtime.Color ℝ) >>> 16) % 256 = ⌊255 * (⟨1, 1 / 2, 0, 1⟩ : Realtime.Color ℝ).y⌋₊ ∧
      (Realtime.convert_color_to_u32 (⟨1, 1 / 2, 0, 1⟩ : Realtime.Color ℝ) >>> 8) % 256 = ⌊255 * (⟨1, 1 / 2, 0, 1⟩ : Realtime.Color ℝ).z⌋₊ ∧
      (Realtime.convert_color_to_u32 (⟨1, 1 / 2, 0, 1⟩ : Realtime.Color ℝ) >>> 0) % 256 = ⌊255 * (⟨1, 1 / 2, 0, 1⟩ : Realtime.Color ℝ).w⌋₊ ∧
      ((0 ≤ (Realtime.clip_color_value (⟨2, -1, 1 / 2, 0⟩ : Realtime.Color ℝ)).x ∧ (Realtime.clip_color_value (⟨2, -1, 1 / 2, 0⟩ : Realtime.Color ℝ)).x ≤ 1) ∧
        (0 ≤ (Realtime.clip_color_value (⟨2, -1, 1 / 2, 0⟩ : Realtime.Color ℝ)).y ∧ (Realtime.clip_color_value (⟨2, -1, 1 / 2, 0⟩ : Realtime.Color ℝ)).y ≤ 1) ∧
        (0 ≤ (Realtime.clip_color_value (⟨2, -1, 1 / 2, 0⟩ : Realtime.Color ℝ)).z ∧ (Realtime.clip_color_value (⟨2, -1, 1 / 2, 0⟩ : Realtime.Color ℝ)).z ≤ 1) ∧
        (0 ≤ (Realtime.clip_color_value (⟨2, -1, 1 / 2, 0⟩ : Realtime.Color ℝ)).w ∧ (Realtime.clip_color_value (⟨2, -1, 1 / 2, 0⟩ : Realtime.Color ℝ)).w ≤ 1)) ∧
      Realtime.clip_color_value (Realtime.clip_color_value (⟨2, -1, 1 / 2, 0⟩ : Realtime.Color ℝ)) = Realtime.clip_color_value (⟨2, -1, 1 / 2, 0⟩ : Realtime.Color ℝ) ∧
      Realtime.clip_color_value (⟨1, 1 / 2, 0, 1⟩ : Realtime.Color ℝ) = (⟨1, 1 / 2, 0, 1⟩ : Realtime.Color ℝ)) :=
  have hx : (0 : ℝ) ≤ (⟨1, 1 / 2, 0, 1⟩ : Realtime.Color ℝ).x ∧ (⟨1, 1 / 2, 0, 1⟩ : Realtime.Color ℝ).x ≤ 1 := by norm_num
  have hy : (0 : ℝ) ≤ (⟨1, 1 / 2, 0, 1⟩ : Realtime.Color ℝ).y ∧ (⟨1, 1 / 2, 0, 1⟩ : Realtime.Color ℝ).y ≤ 1 := by norm_num
  have hz : (0 : ℝ) ≤ (⟨1, 1 / 2, 0, 1⟩ : Realtime.Color ℝ).z ∧ (⟨1, 1 / 2, 0, 1⟩ : Realtime.Color ℝ).z ≤ 1 := by norm_num
  have hw : (0 : ℝ) ≤ (⟨1, 1 / 2, 0, 1⟩ : Realtime.Color ℝ).w ∧ (⟨1, 1 / 2, 0, 1⟩ : Realtime.Color ℝ).w ≤ 1 := by norm_num
  ⟨hx, hy, hz, hw, convert_color_to_u32_packs (⟨1, 1 / 2, 0, 1⟩ : Realtime.Color ℝ) (⟨2, -1, 1 / 2, 0⟩ : Realtime.Color ℝ) hx hy hz hw⟩

/-! ### The bounce budget -/

/-- The material branch returns whenever the sampling loop returns from the state it is
given. -/
theorem cast_ray_scatter_isSome (sqrt : F → F) (RAND_MAX fuel : Nat) (ray : ray_t F)
    (hit : hit_t F) (g : rng_t)
    (hu : (random_unit_vector sqrt RAND_MAX fuel g).isSome = true) :
    (cast_ray_scatter sqrt RAND_MAX fuel ray hit g).isSome = true := by
  obtain ⟨ug, hug⟩ := Option.isSome_iff_exists.mp hu
  unfold cast_ray_scatter
  cases hm : hit.mat with
  | Lambertian albedo => simp only [hug]; rfl
  | Metallic albedo fuzziness => simp only [hug]; rfl
  | Dielectric albedo refractive =>
    simp only
    split_ifs <;> rfl

/-- The instrumented `cast_ray_counted` and `cast_ray` return, with the same colour and
generator state, and a nesting depth of at most `bounces_left`, when the sampling loop returns
from every position of the generator's sequence. -/
theorem cast_ray_counted_total (sqrt : F → F) (RAND_MAX fuel : Nat)
    (entities : List (entity_t F)) (seq : Nat → Nat)
    (hsample : ∀ pos : Nat, (random_unit_vector sqrt RAND_MAX fuel ⟨seq, pos⟩).isSome = true)
    (bounces_left : Nat) :
    ∀ (ray : ray_t F) (g : rng_t), g.seq = seq →
      ∃ (c : color3 F) (g1 : rng_t) (k : Nat),
        cast_ray_counted sqrt RAND_MAX fuel entities bounces_left ray g = some (c, g1, k) ∧
        cast_ray sqrt RAND_MAX fuel entities bounces_left ray g = some (c, g1) ∧
        k ≤ bounces_left := by
  induction bounces_left with
  | zero =>
    intro ray g _
    exact ⟨_, _, 0, by rw [cast_ray_counted], by rw [cast_ray], le_refl _⟩
  | succ n ih =>
    intro ray g hg
    rw [cast_ray_counted, cast_ray]
    cases hl : (cast_ray_loop sqrt ray entities).1 with
    | false =>
      simp only [Bool.false_eq_true, if_false]
      exact ⟨_, _, 0, rfl, rfl, Nat.zero_le _⟩
    | true =>
      simp only [if_true]
      have hu : (random_unit_vector sqrt RAND_MAX fuel g).isSome = true := by
        have := hsample g.pos
        rw [← hg] at this
        exact this
      obtain ⟨adg, hsc⟩ := Option.isSome_iff_exists.mp
        (cast_ray_scatter_isSome sqrt RAND_MAX fuel ray (cast_ray_loop sqrt ray entities).2 g hu)
      obtain ⟨att, dir, g2⟩ := adg
      have hg2 : g2.seq = seq :=
        (cast_ray_scatter_advances sqrt RAND_MAX fuel ray _ g g2 att dir hsc).1.trans hg
      obtain ⟨c2, g3, k2, h1, h2, h3⟩ := ih ⟨(cast_ray_loop sqrt ray entities).2.point, dir⟩ g2 hg2
      simp only [hsc, h1, h2]
      exact ⟨_, _, k2 + 1, rfl, rfl, Nat.succ_le_succ h3⟩

/-- C28. The recursion of `cast_ray` is bounded by the bounce budget: when the sampling loop
returns from every position of the generator's sequence, `cast_ray` returns for every ray,
entity list and `bounces_left`; the instrumented `cast_ray_counted` returns the same colour
and generator state with a nesting depth `k ≤ bounces_left`, `k = 0` for budget 0; and with
budget `n + 1` a call makes no recursive call on a miss and on a hit exactly one, with budget
`n`, whose nesting depth is `k - 1`. -/
theorem cast_ray_depth_bounded (sqrt : F → F) (RAND_MAX fuel : Nat)
    (entities : List (entity_t F)) (bounces_left : Nat) (ray : ray_t F) (g : rng_t)
    (hsample : ∀ pos : Nat,
      (random_unit_vector sqrt RAND_MAX fuel ⟨g.seq, pos⟩).isSome = true) :
    ∃ (c : color3 F) (g1 : rng_t) (k : Nat),
      cast_ray_counted sqrt RAND_MAX fuel entities bounces_left ray g = some (c, g1, k) ∧
      cast_ray sqrt RAND_MAX fuel entities bounces_left ray g = some (c, g1) ∧
      k ≤ bounces_left ∧ (bounces_left = 0 → k = 0) ∧
      (∀ n : Nat, bounces_left = n + 1 →
        ((cast_ray_loop sqrt ray entities).1 = false → k = 0) ∧
        ((cast_ray_loop sqrt ray entities).1 = true →
          ∃ (att : color3 F) (dir : vec3 F) (g2 : rng_t) (c2 : color3 F) (k2 : Nat),
            cast_ray_scatter sqrt RAND_MAX fuel ray (cast_ray_loop sqrt ray entities).2 g =
              some (att, dir, g2) ∧
            cast_ray_counted sqrt RAND_MAX fuel entities n
              ⟨(cast_ray_loop sqrt ray entities).2.point, dir⟩ g2 = some (c2, g1, k2) ∧
            c = att * c2 ∧ k = k2 + 1 ∧ k2 ≤ n)) := by
  obtain ⟨c, g1, k, h1, h2, h3⟩ :=
    cast_ray_counted_total sqrt RAND_MAX fuel entities g.seq hsample bounces_left ray g rfl
  refine ⟨c, g1, k, h1, h2, h3, fun h0 => by omega, ?_⟩
  intro n hn
  subst hn
  rw [cast_ray_counted] at h1
  constructor
  · intro hl
    simp only [hl, Bool.false_eq_true, if_false, Option.some.injEq, Prod.mk.injEq] at h1
    exact h1.2.2.symm
  · intro hl
    simp only [hl, if_true] at h1
    have hu : (random_unit_vector sqrt RAND_MAX fuel g).isSome = true := hsample g.pos
    obtain ⟨adg, hsc⟩ := Option.isSome_iff_exists.mp
      (cast_ray_scatter_isSome sqrt RAND_MAX fuel ray (cast_ray_loop sqrt ray entities).2 g hu)
    obtain ⟨att, dir, g2⟩ := adg
    have hg2 : g2.seq = g.seq :=
      (cast_ray_scatter_advances sqrt RAND_MAX fuel ray _ g g2 att dir hsc).1
    obtain ⟨c2, g3, k2, e1, _, e3⟩ :=
      cast_ray_counted_total sqrt RAND_MAX fuel entities g.seq hsample n
        ⟨(cast_ray_loop sqrt ray entities).2.point, dir⟩ g2 hg2
    simp only [hsc, e1, Option.some.injEq, Prod.mk.injEq] at h1
    obtain ⟨rfl, rfl, rfl⟩ := h1
    exact ⟨att, dir, g2, c2, k2, hsc, e1, rfl, rfl, e3⟩

/-- From every position of the sequence of `rng_cycle` the sampling loop returns in its
first round. -/
theorem random_unit_vector_rng_cycle (pos : Nat) :
    (random_unit_vector Real.sqrt 2147483647 1 ⟨rng_cycle.seq, pos⟩ :
      Option (vec3 ℝ × rng_t)).isSome = true := by
  have h3 : pos % 3 = 0 ∨ pos % 3 = 1 ∨ pos % 3 = 2 := by omega
  rcases h3 with h | h | h
  · have a1 : (pos + 1) % 3 = 1 := by omega
    have a2 : (pos + 1 + 1) % 3 = 2 := by omega
    simp only [random_unit_vector, rand, rng_cycle, h, a1, a2]
    norm_num [lengthsq]
  · have a1 : (pos + 1) % 3 = 2 := by omega
    have a2 : (pos + 1 + 1) % 3 = 0 := by omega
    simp only [random_unit_vector, rand, rng_cycle, h, a1, a2]
    norm_num [lengthsq]
  · have a1 : (pos + 1) % 3 = 0 := by omega
    have a2 : (pos + 1 + 1) % 3 = 1 := by omega
    simp only [random_unit_vector, rand, rng_cycle, h, a1, a2]
    norm_num [lengthsq]

/-- Witness for C28: the Lambertian unit sphere, the ray from `(0,3,0)` along `(0,-2,0)`,
budget 2 and the generator `rng_cycle`. -/
theorem cast_ray_depth_bounded_witness :
    (∀ pos : Nat,
      (random_unit_vector Real.sqrt 2147483647 1 ⟨rng_cycle.seq, pos⟩ :
        Option (vec3 ℝ × rng_t)).isSome = true) ∧
    (∃ (c : color3 ℝ) (g1 : rng_t) (k : Nat),
        cast_ray_counted Real.sqrt 2147483647 1 (unit_sphere_scene (material_t.Lambertian ⟨0.4, 0.2, 0.1⟩)) 2 ⟨⟨0, 3, 0⟩, ⟨0, -2, 0⟩⟩ rng_cycle = some (c, g1, k) ∧
        cast_ray Real.sqrt 2147483647 1 (unit_sphere_scene (material_t.Lambertian ⟨0.4, 0.2, 0.1⟩)) 2 ⟨⟨0, 3, 0⟩, ⟨0, -2, 0⟩⟩ rng_cycle = some (c, g1) ∧
        k ≤ 2 ∧ (2 = 0 → k = 0) ∧
        (∀ n : Nat, 2 = n + 1 →
          ((cast_ray_loop Real.sqrt ⟨⟨0, 3, 0⟩, ⟨0, -2, 0⟩⟩ (unit_sphere_scene (material_t.Lambertian ⟨0.4, 0.2, 0.1⟩))).1 = false → k = 0) ∧
          ((cast_ray_loop Real.sqrt ⟨⟨0, 3, 0⟩, ⟨0, -2, 0⟩⟩ (unit_sphere_scene (material_t.Lambertian ⟨0.4, 0.2, 0.1⟩))).1 = true →
            ∃ (att : color3 ℝ) (dir : vec3 ℝ) (g2 : rng_t) (c2 : color3 ℝ) (k2 : Nat),
              cast_ray_scatter Real.sqrt 2147483647 1 ⟨⟨0, 3, 0⟩, ⟨0, -2, 0⟩⟩ (cast_ray_loop Real.sqrt ⟨⟨0, 3, 0⟩, ⟨0, -2, 0⟩⟩ (unit_sphere_scene (material_t.Lambertian ⟨0.4, 0.2, 0.1⟩))).2 rng_cycle =
                some (att, dir, g2) ∧
              cast_ray_counted Real.sqrt 2147483647 1 (unit_sphere_scene (material_t.Lambertian ⟨0.4, 0.2, 0.1⟩)) n
                ⟨(cast_ray_loop Real.sqrt ⟨⟨0, 3, 0⟩, ⟨0, -2, 0⟩⟩ (unit_sphere_scene (material_t.Lambertian ⟨0.4, 0.2, 0.1⟩))).2.point, dir⟩ g2 = some (c2, g1, k2) ∧
              c = att * c2 ∧ k = k2 + 1 ∧ k2 ≤ n))) :=
  ⟨random_unit_vector_rng_cycle,
    cast_ray_depth_bounded Real.sqrt 2147483647 1
      (unit_sphere_scene (material_t.Lambertian ⟨0.4, 0.2, 0.1⟩)) 2 ⟨⟨0, 3, 0⟩, ⟨0, -2, 0⟩⟩
      rng_cycle random_unit_vector_rng_cycle⟩

/-! ### The scene built by `create_entities` -/

/-- A store of a sphere with positive radius keeps the stores in step with `offset`. -/
theorem create_state_store_inv (st : create_state F) (s : sphere_t F) (hr : 0 < s.radius)
    (h1 : st.stores.map Prod.fst = List.range st.offset)
    (h2 : ∀ p ∈ st.stores, ∃ s : sphere_t F, p.2 = entity_t.Sphere s ∧ 0 < s.radius) :
    (st.store (entity_t.Sphere s)).offset = st.offset + 1 ∧
    (st.store (entity_t.Sphere s)).stores.map Prod.fst =
      List.range (st.store (entity_t.Sphere s)).offset ∧
    (∀ p ∈ (st.store (entity_t.Sphere s)).stores,
      ∃ s : sphere_t F, p.2 = entity_t.Sphere s ∧ 0 < s.radius) := by
  refine ⟨rfl, ?_, ?_⟩
  · simp only [create_state.store, List.map_append, List.map_cons, List.map_nil, h1,
      List.range_succ]
  · intro p hp
    simp only [create_state.store, List.mem_append, List.mem_singleton] at hp
    rcases hp with hp | rfl
    · exact h2 p hp
    · exact ⟨s, rfl, hr⟩

/-- One grid cell of `create_entities` stores at most one sphere, of radius `0.2`. -/
theorem create_entities_cell_inv (sqrt : F → F) (RAND_MAX : Nat) (i j : Int)
    (st : create_state F)
    (h1 : st.stores.map Prod.fst = List.range st.offset)
    (h2 : ∀ p ∈ st.stores, ∃ s : sphere_t F, p.2 = entity_t.Sphere s ∧ 0 < s.radius) :
    (st.offset ≤ (create_entities_cell sqrt RAND_MAX i j st).offset ∧
      (create_entities_cell sqrt RAND_MAX i j st).offset ≤ st.offset + 1) ∧
    (create_entities_cell sqrt RAND_MAX i j st).stores.map Prod.fst =
      List.range (create_entities_cell sqrt RAND_MAX i j st).offset ∧
    (∀ p ∈ (create_entities_cell sqrt RAND_MAX i j st).stores,
      ∃ s : sphere_t F, p.2 = entity_t.Sphere s ∧ 0 < s.radius) := by
  have hr : (0 : F) < 0.2 := by norm_num
  simp only [create_entities_cell]
  split_ifs
  · obtain ⟨a, b, c⟩ := create_state_store_inv
      { st with g := (random_color3 RAND_MAX (random_color3 RAND_MAX
        (random_double RAND_MAX (random_double RAND_MAX
          (random_double RAND_MAX st.g : F × rng_t).2 : F × rng_t).2 : F × rng_t).2 :
            color3 F × rng_t).2 : color3 F × rng_t).2 } ⟨_, _, 0.2⟩ hr h1 h2
    exact ⟨⟨by rw [a]; exact Nat.le_succ _, by rw [a]⟩, b, c⟩
  · obtain ⟨a, b, c⟩ := create_state_store_inv
      { st with g := (random_double_range RAND_MAX 0 0.5 (random_color3_range RAND_MAX 0.5 1
        (random_double RAND_MAX (random_double RAND_MAX
          (random_double RAND_MAX st.g : F × rng_t).2 : F × rng_t).2 : F × rng_t).2 :
            color3 F × rng_t).2 : F × rng_t).2 } ⟨_, _, 0.2⟩ hr h1 h2
    exact ⟨⟨by rw [a]; exact Nat.le_succ _, by rw [a]⟩, b, c⟩
  · obtain ⟨a, b, c⟩ := create_state_store_inv
      { st with g := (random_double RAND_MAX (random_double RAND_MAX
          (random_double RAND_MAX st.g : F × rng_t).2 : F × rng_t).2 : F × rng_t).2 }
      ⟨_, _, 0.2⟩ hr h1 h2
    exact ⟨⟨by rw [a]; exact Nat.le_succ _, by rw [a]⟩, b, c⟩
  · exact ⟨⟨le_refl _, Nat.le_succ _⟩, h1, h2⟩

/-- A row of grid cells stores at most one sphere per cell. -/
theorem create_entities_row_inv (sqrt : F → F) (RAND_MAX : Nat) (i : Int) (js : List Nat) :
    ∀ st : create_state F,
      st.stores.map Prod.fst = List.range st.offset →
      (∀ p ∈ st.stores, ∃ s : sphere_t F, p.2 = entity_t.Sphere s ∧ 0 < s.radius) →
      (st.offset ≤ (js.foldl
          (fun (st : create_state F) (j : Nat) =>
          create_entities_cell sqrt RAND_MAX i ((j : Int) - 11) st) st).offset ∧
        (js.foldl (fun (st : create_state F) (j : Nat) =>
          create_entities_cell sqrt RAND_MAX i ((j : Int) - 11) st)
          st).offset ≤ st.offset + js.length) ∧
      (js.foldl (fun (st : create_state F) (j : Nat) =>
          create_entities_cell sqrt RAND_MAX i ((j : Int) - 11) st)
        st).stores.map Prod.fst =
        List.range (js.foldl
          (fun (st : create_state F) (j : Nat) =>
          create_entities_cell sqrt RAND_MAX i ((j : Int) - 11) st) st).offset ∧
      (∀ p ∈ (js.foldl (fun (st : create_state F) (j : Nat) =>
          create_entities_cell sqrt RAND_MAX i ((j : Int) - 11) st)
        st).stores, ∃ s : sphere_t F, p.2 = entity_t.Sphere s ∧ 0 < s.radius) := by
  induction js with
  | nil => intro st h1 h2; exact ⟨⟨le_refl _, le_refl _⟩, h1, h2⟩
  | cons j js ih =>
    intro st h1 h2
    obtain ⟨⟨a1, a2⟩, b, c⟩ :=
      create_entities_cell_inv sqrt RAND_MAX i ((j : Int) - 11) st h1 h2
    obtain ⟨⟨d1, d2⟩, e, f⟩ := ih _ b c
    simp only [List.foldl_cons, List.length_cons]
    exact ⟨⟨le_trans a1 d1, by omega⟩, e, f⟩

/-- The grid of `create_entities` stores at most `22` spheres per row. -/
theorem create_entities_grid_inv (sqrt : F → F) (RAND_MAX : Nat) (is : List Nat) :
    ∀ st : create_state F,
      st.stores.map Prod.fst = List.range st.offset →
      (∀ p ∈ st.stores, ∃ s : sphere_t F, p.2 = entity_t.Sphere s ∧ 0 < s.radius) →
      (st.offset ≤ (is.foldl (fun (st : create_state F) (i : Nat) => (List.range 22).foldl
          (fun (st : create_state F) (j : Nat) =>
          create_entities_cell sqrt RAND_MAX ((i : Int) - 11) ((j : Int) - 11) st)
          st) st).offset ∧
        (is.foldl (fun (st : create_state F) (i : Nat) => (List.range 22).foldl
          (fun (st : create_state F) (j : Nat) =>
          create_entities_cell sqrt RAND_MAX ((i : Int) - 11) ((j : Int) - 11) st)
          st) st).offset ≤ st.offset + 22 * is.length) ∧
      (is.foldl (fun (st : create_state F) (i : Nat) => (List.range 22).foldl
        (fun (st : create_state F) (j : Nat) =>
          create_entities_cell sqrt RAND_MAX ((i : Int) - 11) ((j : Int) - 11) st)
        st) st).stores.map Prod.fst =
        List.range (is.foldl (fun (st : create_state F) (i : Nat) => (List.range 22).foldl
          (fun (st : create_state F) (j : Nat) =>
          create_entities_cell sqrt RAND_MAX ((i : Int) - 11) ((j : Int) - 11) st)
          st) st).offset ∧
      (∀ p ∈ (is.foldl (fun (st : create_state F) (i : Nat) => (List.range 22).foldl
        (fun (st : create_state F) (j : Nat) =>
          create_entities_cell sqrt RAND_MAX ((i : Int) - 11) ((j : Int) - 11) st)
        st) st).stores, ∃ s : sphere_t F, p.2 = entity_t.Sphere s ∧ 0 < s.radius) := by
  induction is with
  | nil => intro st h1 h2; exact ⟨⟨le_refl _, le_refl _⟩, h1, h2⟩
  | cons i is ih =>
    intro st h1 h2
    obtain ⟨⟨a1, a2⟩, b, c⟩ :=
      create_entities_row_inv sqrt RAND_MAX ((i : Int) - 11) (List.range 22) st h1 h2
    obtain ⟨⟨d1, d2⟩, e, f⟩ := ih _ b c
    rw [List.length_range] at a2
    simp only [List.foldl_cons, List.length_cons]
    exact ⟨⟨le_trans a1 d1, by omega⟩, e, f⟩

/-- C30. `create_entities` never writes past its allocation: for every generator state (every
sequence of random draws) every index at which it stores an entity is smaller than the
`22 * 22 + 4 = 488` entries allocated, the stores go to the indices `0, 1, ..., count - 1` in
this order, the reported count satisfies `4 ≤ count ≤ 488` and equals the number of entities
stored, and every stored entity is a `Sphere` with a positive radius. -/
theorem create_entities_in_bounds (sqrt : F → F) (RAND_MAX : Nat) (g : rng_t) :
    create_entities_capacity = 488 ∧
    (∀ p ∈ (create_entities sqrt RAND_MAX g : create_state F).stores,
      p.1 < create_entities_capacity) ∧
    (4 ≤ (create_entities sqrt RAND_MAX g : create_state F).offset ∧
      (create_entities sqrt RAND_MAX g : create_state F).offset ≤ 488) ∧
    (create_entities sqrt RAND_MAX g : create_state F).offset =
      (create_entities sqrt RAND_MAX g : create_state F).stores.length ∧
    (create_entities sqrt RAND_MAX g : create_state F).stores.map Prod.fst =
      List.range (create_entities sqrt RAND_MAX g : create_state F).offset ∧
    (∀ p ∈ (create_entities sqrt RAND_MAX g : create_state F).stores,
      ∃ s : sphere_t F, p.2 = entity_t.Sphere s ∧ 0 < s.radius) := by
  have key : ∀ st : create_state F, st.offset = 4 →
      st.stores.map Prod.fst = List.range st.offset →
      (∀ p ∈ st.stores, ∃ s : sphere_t F, p.2 = entity_t.Sphere s ∧ 0 < s.radius) →
      ∀ fin : create_state F,
      fin = (List.range 22).foldl (fun (st : create_state F) (i : Nat) => (List.range 22).foldl
        (fun (st : create_state F) (j : Nat) =>
          create_entities_cell sqrt RAND_MAX ((i : Int) - 11) ((j : Int) - 11) st) st) st →
      create_entities_capacity = 488 ∧
      (∀ p ∈ fin.stores, p.1 < create_entities_capacity) ∧
      (4 ≤ fin.offset ∧ fin.offset ≤ 488) ∧ fin.offset = fin.stores.length ∧
      fin.stores.map Prod.fst = List.range fin.offset ∧
      (∀ p ∈ fin.stores, ∃ s : sphere_t F, p.2 = entity_t.Sphere s ∧ 0 < s.radius) := by
    intro st h4 h1 h2 fin hfin
    obtain ⟨⟨d1, d2⟩, e, f⟩ := create_entities_grid_inv sqrt RAND_MAX (List.range 22) st h1 h2
    rw [← hfin] at d1 d2 e f
    rw [h4] at d1
    rw [h4, List.length_range] at d2
    have hlen := congrArg List.length e
    rw [List.length_map, List.length_range] at hlen
    refine ⟨rfl, ?_, ⟨d1, by omega⟩, hlen.symm, e, f⟩
    intro p hp
    have hm : p.1 ∈ List.range fin.offset := e ▸ List.mem_map_of_mem Prod.fst hp
    rw [List.mem_range] at hm
    show p.1 < 22 * 22 + 4
    omega
  have i1 : ({ stores := [], offset := 0, g := g } : create_state F).stores.map Prod.fst =
      List.range ({ stores := [], offset := 0, g := g } : create_state F).offset := rfl
  have i2 : ∀ p ∈ ({ stores := [], offset := 0, g := g } : create_state F).stores,
      ∃ s : sphere_t F, p.2 = entity_t.Sphere s ∧ 0 < s.radius := fun p hp => by simp at hp
  obtain ⟨_, b1, c1⟩ := create_state_store_inv ({ stores := [], offset := 0, g := g })
    ⟨⟨0, -1000, 0⟩, material_t.Lambertian (get_color_from_hex 0x888888), (1000 : F)⟩
    (by norm_num) i1 i2
  obtain ⟨_, b2, c2⟩ := create_state_store_inv _
    ⟨⟨0, 1, 0⟩, material_t.Dielectric (get_color_from_hex 0xffffff) 1.5, (1 : F)⟩
    (by norm_num) b1 c1
  obtain ⟨_, b3, c3⟩ := create_state_store_inv _
    ⟨⟨4, 1, 0⟩, material_t.Metallic ⟨0.7, 0.6, 0.5⟩ 0.0, (1 : F)⟩ (by norm_num) b2 c2
  obtain ⟨_, b4, c4⟩ := create_state_store_inv _
    ⟨⟨-4, 1, 0⟩, material_t.Lambertian ⟨0.4, 0.2, 0.1⟩, (1 : F)⟩ (by norm_num) b3 c3
  exact key _ rfl b4 c4 _ rfl

/-! ### The sphere loop of the real-time renderer -/

/-- The sphere loop over the indices `s, s + 1, ..., s + n - 1` shades the first sphere whose
intersection distance is positive. -/
theorem Realtime.sphere_loop_first_hit (sqrt : F → F) (self : Realtime.Scene F)
    (ray : Realtime.Ray F) (camera_position : Realtime.v3 F) (n : Nat) :
    ∀ s i : Nat, s ≤ i → i < s + n →
      (∀ j : Nat, s ≤ j → j < i → (self.spheres j).get_intersection sqrt ray ≤ 0) →
      0 < (self.spheres i).get_intersection sqrt ray →
      self.sphere_loop sqrt ray camera_position (List.range' s n) =
        self.shade_sphere sqrt ray camera_position (self.spheres i)
          ((self.spheres i).get_intersection sqrt ray) := by
  induction n with
  | zero => intro s i h1 h2; omega
  | succ n ih =>
    intro s i h1 h2 hpre hi
    rw [List.range'_succ, Realtime.Scene.sphere_loop]
    rcases Nat.eq_or_lt_of_le h1 with rfl | hlt
    · simp only [if_neg (not_le.mpr hi)]
    · simp only [if_pos (hpre s (le_refl _) hlt)]
      exact ih (s + 1) i hlt (by omega) (fun j hj1 hj2 => hpre j (by omega) hj2) hi

/-- The sphere loop returns `(0, 0, 0, 0)` when no visited sphere has a positive intersection
distance. -/
theorem Realtime.sphere_loop_no_hit (sqrt : F → F) (self : Realtime.Scene F)
    (ray : Realtime.Ray F) (camera_position : Realtime.v3 F) (n : Nat) :
    ∀ s : Nat,
      (∀ j : Nat, s ≤ j → j < s + n → (self.spheres j).get_intersection sqrt ray ≤ 0) →
      self.sphere_loop sqrt ray camera_position (List.range' s n) = ⟨0, 0, 0, 0⟩ := by
  induction n with
  | zero =>
    intro s _
    rw [List.range'_zero, Realtime.Scene.sphere_loop]
    ext <;> norm_num
  | succ n ih =>
    intro s hall
    rw [List.range'_succ, Realtime.Scene.sphere_loop]
    simp only [if_pos (hall s (le_refl _) (by omega))]
    exact ih (s + 1) (fun j hj1 hj2 => hall j (by omega) (by omega))

/-- C23. `Scene::get_color_for_pixel` shades the first sphere, in the order of insertion,
whose `get_intersection` distance along the pixel's ray is positive: when the spheres before
index `i < sphere_count` have a distance `≤ 0` and sphere `i` has a positive one, the result
is the colour computed from sphere `i`, whatever the distances of the later spheres; when no
sphere has a positive distance it is `(0, 0, 0, 0)`. -/
theorem get_color_for_pixel_first_hit (sqrt : F → F) (self : Realtime.Scene F)
    (xoffset yoffset buffer_width buffer_height : Nat) :
    (∀ i : Nat, i < self.sphere_count →
      (∀ j : Nat, j < i → (self.spheres j).get_intersection sqrt
        (self.pixel_ray sqrt xoffset yoffset buffer_width buffer_height) ≤ 0) →
      0 < (self.spheres i).get_intersection sqrt
        (self.pixel_ray sqrt xoffset yoffset buffer_width buffer_height) →
      self.get_color_for_pixel sqrt xoffset yoffset buffer_width buffer_height =
        self.shade_sphere sqrt (self.pixel_ray sqrt xoffset yoffset buffer_width buffer_height)
          (self.pixel_ray sqrt xoffset yoffset buffer_width buffer_height).origin
          (self.spheres i)
          ((self.spheres i).get_intersection sqrt
            (self.pixel_ray sqrt xoffset yoffset buffer_width buffer_height))) ∧
    ((∀ j : Nat, j < self.sphere_count → (self.spheres j).get_intersection sqrt
        (self.pixel_ray sqrt xoffset yoffset buffer_width buffer_height) ≤ 0) →
      self.get_color_for_pixel sqrt xoffset yoffset buffer_width buffer_height =
        ⟨0, 0, 0, 0⟩) := by
  constructor
  · intro i hi hpre hpos
    rw [Realtime.Scene.get_color_for_pixel, List.range_eq_range']
    exact Realtime.sphere_loop_first_hit sqrt self _ _ self.sphere_count 0 i (Nat.zero_le _)
      (by omega) (fun j _ hj => hpre j hj) hpos
  · intro hall
    rw [Realtime.Scene.get_color_for_pixel, List.range_eq_range']
    exact Realtime.sphere_loop_no_hit sqrt self _ _ self.sphere_count 0
      (fun j _ hj => hall j (by omega))

/-- The ray of the centre pixel `(1, 1)` of a `2 x 2` buffer in a two-sphere scene starts at
`(0, 0, 1)` and points along `(0, 0, -1)`. -/
theorem Realtime.two_sphere_scene_pixel_ray (first second : Realtime.Sphere ℝ) :
    (Realtime.two_sphere_scene first second).pixel_ray Real.sqrt 1 1 2 2 =
      ⟨⟨0, 0, 1⟩, ⟨0, 0, -1⟩⟩ := by
  have h1 : Real.sqrt 1 = 1 := Real.sqrt_one
  simp only [Realtime.Scene.pixel_ray, Realtime.two_sphere_scene, Realtime.normalised,
    Realtime.v3.length, Realtime.v3.length_squared]
  norm_num [HSub.hSub, Sub.sub, Realtime.v3.sub, h1]

/-- Without directional lights and under white ambient light a sphere whose colour channels
lie in `[0, 1]` is shaded in its own colour. -/
theorem Realtime.two_sphere_scene_shade (first second sphere : Realtime.Sphere ℝ)
    (ray : Realtime.Ray ℝ) (camera_position : Realtime.v3 ℝ) (delta : ℝ)
    (hx : 0 ≤ sphere.color.x ∧ sphere.color.x ≤ 1) (hy : 0 ≤ sphere.color.y ∧ sphere.color.y ≤ 1)
    (hz : 0 ≤ sphere.color.z ∧ sphere.color.z ≤ 1)
    (hw : 0 ≤ sphere.color.w ∧ sphere.color.w ≤ 1) :
    (Realtime.two_sphere_scene first second).shade_sphere Real.sqrt ray camera_position sphere
      delta = sphere.color := by
  have e : ∀ c : Realtime.Color ℝ,
      (Realtime.multiply_color c ⟨1, 1, 1, 1⟩ +
        Realtime.v4.smul 0.7 (Realtime.multiply_color c ⟨0.0, 0.0, 0.0, 0.0⟩) +
        Realtime.v4.smul 0.7 ⟨0.0, 0.0, 0.0, 0.0⟩ : Realtime.Color ℝ) = c := by
    intro c
    have hadd : ∀ a b : Realtime.Color ℝ,
        a + b = ⟨a.x + b.x, a.y + b.y, a.z + b.z, a.w + b.w⟩ := fun _ _ => rfl
    simp only [hadd, Realtime.v4.smul, Realtime.multiply_color]
    ext <;> norm_num
  simp only [Realtime.Scene.shade_sphere, Realtime.two_sphere_scene, List.range_zero,
    List.foldl_nil, e]
  exact Realtime.clip_color_value_id _ hx hy hz hw

/-- The red sphere at `(0, 0, -10)` is met at distance 10 by the ray from `(0, 0, 1)` along
`(0, 0, -1)`. -/
theorem Realtime.far_red_sphere_distance :
    (Realtime.far_red_sphere : Realtime.Sphere ℝ).get_intersection Real.sqrt
      ⟨⟨0, 0, 1⟩, ⟨0, 0, -1⟩⟩ = 10 := by
  have hsub : ∀ a b : Realtime.v3 ℝ, a - b = ⟨a.x - b.x, a.y - b.y, a.z - b.z⟩ :=
    fun _ _ => rfl
  have h1 : Real.sqrt 1 = 1 := Real.sqrt_one
  simp only [Realtime.Sphere.get_intersection, Realtime.far_red_sphere, Realtime.dot, hsub]
  norm_num [h1]

/-- The green sphere at `(0, 0, -5)` is met at distance 5 by the ray from `(0, 0, 1)` along
`(0, 0, -1)`. -/
theorem Realtime.near_green_sphere_distance :
    (Realtime.near_green_sphere : Realtime.Sphere ℝ).get_intersection Real.sqrt
      ⟨⟨0, 0, 1⟩, ⟨0, 0, -1⟩⟩ = 5 := by
  have hsub : ∀ a b : Realtime.v3 ℝ, a - b = ⟨a.x - b.x, a.y - b.y, a.z - b.z⟩ :=
    fun _ _ => rfl
  have h1 : Real.sqrt 1 = 1 := Real.sqrt_one
  simp only [Realtime.Sphere.get_intersection, Realtime.near_green_sphere, Realtime.dot, hsub]
  norm_num [h1]

/-- C23 (counterexample). A red sphere at `(0, 0, -10)` added first and a green sphere at
`(0, 0, -5)` added second, both of radius 1, seen through the centre pixel: the ray meets
the red sphere at distance 10 and the green one at distance 5, and
`Scene::get_color_for_pixel` returns red `(1, 0, 0, 1)`, the colour of the farther sphere;
with the two spheres added in the other order it returns green `(0, 1, 0, 1)`. -/
theorem get_color_for_pixel_shades_farther_sphere :
    (Realtime.two_sphere_scene Realtime.far_red_sphere
      Realtime.near_green_sphere).pixel_ray Real.sqrt 1 1 2 2 = ⟨⟨0, 0, 1⟩, ⟨0, 0, -1⟩⟩ ∧
    (Realtime.far_red_sphere : Realtime.Sphere ℝ).get_intersection Real.sqrt
      ⟨⟨0, 0, 1⟩, ⟨0, 0, -1⟩⟩ = 10 ∧
    (Realtime.near_green_sphere : Realtime.Sphere ℝ).get_intersection Real.sqrt
      ⟨⟨0, 0, 1⟩, ⟨0, 0, -1⟩⟩ = 5 ∧
    (Realtime.two_sphere_scene Realtime.far_red_sphere
      Realtime.near_green_sphere).get_color_for_pixel Real.sqrt 1 1 2 2 = ⟨1, 0, 0, 1⟩ ∧
    (Realtime.two_sphere_scene Realtime.near_green_sphere
      Realtime.far_red_sphere).get_color_for_pixel Real.sqrt 1 1 2 2 = ⟨0, 1, 0, 1⟩ := by
  refine ⟨Realtime.two_sphere_scene_pixel_ray _ _, Realtime.far_red_sphere_distance,
    Realtime.near_green_sphere_distance, ?_, ?_⟩
  · rw [Realtime.Scene.get_color_for_pixel, Realtime.two_sphere_scene_pixel_ray]
    have hc : (Realtime.two_sphere_scene (Realtime.far_red_sphere : Realtime.Sphere ℝ)
        Realtime.near_green_sphere).sphere_count = 2 := rfl
    have h0 : (Realtime.two_sphere_scene (Realtime.far_red_sphere : Realtime.Sphere ℝ)
        Realtime.near_green_sphere).spheres 0 = Realtime.far_red_sphere := rfl
    rw [hc, show List.range 2 = [0, 1] from rfl, Realtime.Scene.sphere_loop, h0,
      Realtime.far_red_sphere_distance, if_neg (by norm_num),
      Realtime.two_sphere_scene_shade _ _ _ _ _ _
        (by norm_num [Realtime.far_red_sphere]) (by norm_num [Realtime.far_red_sphere])
        (by norm_num [Realtime.far_red_sphere]) (by norm_num [Realtime.far_red_sphere])]
    rfl
  · rw [Realtime.Scene.get_color_for_pixel, Realtime.two_sphere_scene_pixel_ray]
    have hc : (Realtime.two_sphere_scene (Realtime.near_green_sphere : Realtime.Sphere ℝ)
        Realtime.far_red_sphere).sphere_count = 2 := rfl
    have h0 : (Realtime.two_sphere_scene (Realtime.near_green_sphere : Realtime.Sphere ℝ)
        Realtime.far_red_sphere).spheres 0 = Realtime.near_green_sphere := rfl
    rw [hc, show List.range 2 = [0, 1] from rfl, Realtime.Scene.sphere_loop, h0,
      Realtime.near_green_sphere_distance, if_neg (by norm_num),
      Realtime.two_sphere_scene_shade _ _ _ _ _ _
        (by norm_num [Realtime.near_green_sphere]) (by norm_num [Realtime.near_green_sphere])
        (by norm_num [Realtime.near_green_sphere]) (by norm_num [Realtime.near_green_sphere])]
    rfl

/-! ### The generator state across `cast_ray` -/

theorem real_sqrt_nine : Real.sqrt 9 = 3 := by
  rw [show (9 : ℝ) = 3 * 3 by norm_num]
  exact Real.sqrt_mul_self (by norm_num)

theorem real_sqrt_25 : Real.sqrt 25 = 5 := by
  rw [show (25 : ℝ) = 5 * 5 by norm_num]
  exact Real.sqrt_mul_self (by norm_num)

/-- The ray from `(-4,4,0)` along `(4,-3,0)` hits the unit sphere at `(0,1,0)`, `t = 1`. -/
theorem cast_ray_loop_steep (mat : material_t ℝ) :
    cast_ray_loop Real.sqrt ⟨⟨-4, 4, 0⟩, ⟨4, -3, 0⟩⟩ (unit_sphere_scene mat) =
      (true, ⟨⟨0, 1, 0⟩, ⟨0, 1, 0⟩, 1, mat, true⟩) := by
  have hd : sphere_discriminant (⟨⟨-4, 4, 0⟩, ⟨4, -3, 0⟩⟩ : ray_t ℝ)
      ⟨⟨0, 0, 0⟩, mat, 1⟩ = 9 := by
    norm_num [sphere_discriminant, dot]
  have hr : sphere_root_small Real.sqrt (⟨⟨-4, 4, 0⟩, ⟨4, -3, 0⟩⟩ : ray_t ℝ)
      ⟨⟨0, 0, 0⟩, mat, 1⟩ = 1 := by
    rw [sphere_root_small, hd, real_sqrt_nine]; norm_num [dot]
  have hh : sphere_hit Real.sqrt (⟨⟨-4, 4, 0⟩, ⟨4, -3, 0⟩⟩ : ray_t ℝ) 0.001 INF_POS
      ⟨⟨0, 0, 0⟩, mat, 1⟩ = some ⟨⟨0, 1, 0⟩, ⟨0, 1, 0⟩, 1, mat, true⟩ := by
    rw [sphere_hit_some_iff, hd, hr]
    refine ⟨by norm_num, by norm_num, by linarith [INF_POS_gt (F := ℝ)], ?_⟩
    norm_num [create_hit_info_for_sphere, ray_t.at_, vec3.muls, vec3.divs, dot]
  rw [unit_sphere_scene, cast_ray_loop_singleton, hh]

/-- An instance of total internal reflection: a Dielectric unit sphere of refractive index
`1/2` hit on its front face by the ray from `(-4,4,0)` along `(4,-3,0)` has
`n1overn2 * sint = 2 * (4/5) > 1`; the material branch reflects without a draw, and with
`bounces_left = 1` `cast_ray` returns black and the generator state it was given, from
every state. -/
theorem cast_ray_total_reflection_example (s : rng_t) :
    cast_ray_loop Real.sqrt ⟨⟨-4, 4, 0⟩, ⟨4, -3, 0⟩⟩
        (unit_sphere_scene (material_t.Dielectric ⟨1, 1, 1⟩ (1 / 2))) =
      (true, ⟨⟨0, 1, 0⟩, ⟨0, 1, 0⟩, 1, material_t.Dielectric ⟨1, 1, 1⟩ (1 / 2), true⟩) ∧
    dielectric_n1overn2
        (⟨⟨0, 1, 0⟩, ⟨0, 1, 0⟩, 1, material_t.Dielectric ⟨1, 1, 1⟩ (1 / 2), true⟩ : hit_t ℝ)
        (1 / 2) *
      dielectric_sint Real.sqrt ⟨⟨-4, 4, 0⟩, ⟨4, -3, 0⟩⟩
        ⟨⟨0, 1, 0⟩, ⟨0, 1, 0⟩, 1, material_t.Dielectric ⟨1, 1, 1⟩ (1 / 2), true⟩ = 8 / 5 ∧
    cast_ray_scatter Real.sqrt 2147483647 1 ⟨⟨-4, 4, 0⟩, ⟨4, -3, 0⟩⟩
        ⟨⟨0, 1, 0⟩, ⟨0, 1, 0⟩, 1, material_t.Dielectric ⟨1, 1, 1⟩ (1 / 2), true⟩ s =
      some (⟨1, 1, 1⟩, ⟨4 / 5, 3 / 5, 0⟩, s) ∧
    cast_ray Real.sqrt 2147483647 1
        (unit_sphere_scene (material_t.Dielectric ⟨1, 1, 1⟩ (1 / 2))) 1
        ⟨⟨-4, 4, 0⟩, ⟨4, -3, 0⟩⟩ s = some (⟨0, 0, 0⟩, s) := by
  have hud : normalize Real.sqrt (⟨4, -3, 0⟩ : vec3 ℝ) = ⟨4 / 5, -3 / 5, 0⟩ := by
    have hl : length Real.sqrt (⟨4, -3, 0⟩ : vec3 ℝ) = 5 := by
      have e : ((4 : ℝ) * 4 + -3 * -3 + 0 * 0) = 25 := by norm_num
      show Real.sqrt ((4 : ℝ) * 4 + -3 * -3 + 0 * 0) = 5
      rw [e, real_sqrt_25]
    rw [normalize, hl]
    norm_num [vec3.divs]
  have hun : normalize Real.sqrt (⟨0, 1, 0⟩ : vec3 ℝ) = ⟨0, 1, 0⟩ := by
    norm_num [normalize, length, vec3.divs]
  have hcost : dielectric_cost Real.sqrt ⟨⟨-4, 4, 0⟩, ⟨4, -3, 0⟩⟩
      ⟨⟨0, 1, 0⟩, ⟨0, 1, 0⟩, 1, material_t.Dielectric ⟨1, 1, 1⟩ (1 / 2), true⟩ = 3 / 5 := by
    simp only [dielectric_cost, hud, hun]
    norm_num [dot]
  have hsint : dielectric_sint Real.sqrt ⟨⟨-4, 4, 0⟩, ⟨4, -3, 0⟩⟩
      ⟨⟨0, 1, 0⟩, ⟨0, 1, 0⟩, 1, material_t.Dielectric ⟨1, 1, 1⟩ (1 / 2), true⟩ = 4 / 5 := by
    rw [dielectric_sint, hcost, show (1 - 3 / 5 * (3 / 5) : ℝ) = 16 / 25 by norm_num,
      real_sqrt_16_25]
  have hn : dielectric_n1overn2
      (⟨⟨0, 1, 0⟩, ⟨0, 1, 0⟩, 1, material_t.Dielectric ⟨1, 1, 1⟩ (1 / 2), true⟩ : hit_t ℝ)
      (1 / 2) = 2 := by
    norm_num [dielectric_n1overn2]
  have hsc : cast_ray_scatter Real.sqrt 2147483647 1 ⟨⟨-4, 4, 0⟩, ⟨4, -3, 0⟩⟩
      ⟨⟨0, 1, 0⟩, ⟨0, 1, 0⟩, 1, material_t.Dielectric ⟨1, 1, 1⟩ (1 / 2), true⟩ s =
      some (⟨1, 1, 1⟩, ⟨4 / 5, 3 / 5, 0⟩, s) := by
    rw [cast_ray_scatter_dielectric Real.sqrt 2147483647 1 _ _ s ⟨1, 1, 1⟩ (1 / 2) rfl,
      hn, hsint, if_pos (by norm_num), hud, hun]
    norm_num [reflect, dot, vec3.smul]
  refine ⟨cast_ray_loop_steep _, by rw [hn, hsint]; norm_num, hsc, ?_⟩
  rw [cast_ray_of_hit Real.sqrt 2147483647 1 _ 0 _ s s _ _ _ (cast_ray_loop_steep _) hsc,
    cast_ray]
  norm_num

/-! ### The hit record of a sphere of radius 0 -/

/-- Witness for C3 (amended): the unit sphere at the origin, the ray from `(0,3,0)` along
`(0,-2,0)` and `t = 1`. -/
theorem create_hit_info_normal_against_ray_witness :
    (⟨⟨0, 0, 0⟩, material_t.Lambertian ⟨0, 0, 0⟩, 1⟩ : sphere_t ℝ).radius ≠ 0 ∧
    (create_hit_info_for_sphere_checked (⟨⟨0, 3, 0⟩, ⟨0, -2, 0⟩⟩ : ray_t ℝ) 1
        ⟨⟨0, 0, 0⟩, material_t.Lambertian ⟨0, 0, 0⟩, 1⟩ =
      some (create_hit_info_for_sphere (⟨⟨0, 3, 0⟩, ⟨0, -2, 0⟩⟩ : ray_t ℝ) 1
        ⟨⟨0, 0, 0⟩, material_t.Lambertian ⟨0, 0, 0⟩, 1⟩) ∧
      dot (⟨⟨0, 3, 0⟩, ⟨0, -2, 0⟩⟩ : ray_t ℝ).dir
        (create_hit_info_for_sphere (⟨⟨0, 3, 0⟩, ⟨0, -2, 0⟩⟩ : ray_t ℝ) 1
          ⟨⟨0, 0, 0⟩, material_t.Lambertian ⟨0, 0, 0⟩, 1⟩).normal ≤ 0 ∧
      ((create_hit_info_for_sphere (⟨⟨0, 3, 0⟩, ⟨0, -2, 0⟩⟩ : ray_t ℝ) 1
          ⟨⟨0, 0, 0⟩, material_t.Lambertian ⟨0, 0, 0⟩, 1⟩).front_face = true ↔
        dot (⟨⟨0, 3, 0⟩, ⟨0, -2, 0⟩⟩ : ray_t ℝ).dir
          (((⟨⟨0, 3, 0⟩, ⟨0, -2, 0⟩⟩ : ray_t ℝ).at_ 1 -
            (⟨⟨0, 0, 0⟩, material_t.Lambertian ⟨0, 0, 0⟩, 1⟩ : sphere_t ℝ).center).divs
            (⟨⟨0, 0, 0⟩, material_t.Lambertian ⟨0, 0, 0⟩, 1⟩ : sphere_t ℝ).radius) ≤ 0)) :=
  have hr : (⟨⟨0, 0, 0⟩, material_t.Lambertian ⟨0, 0, 0⟩, 1⟩ : sphere_t ℝ).radius ≠ 0 :=
    one_ne_zero
  ⟨hr, (create_hit_info_normal_against_ray (⟨⟨0, 3, 0⟩, ⟨0, -2, 0⟩⟩ : ray_t ℝ) 1
      ⟨⟨0, 0, 0⟩, material_t.Lambertian ⟨0, 0, 0⟩, 1⟩ hr).1,
    (create_hit_info_normal_against_ray (⟨⟨0, 3, 0⟩, ⟨0, -2, 0⟩⟩ : ray_t ℝ) 1
      ⟨⟨0, 0, 0⟩, material_t.Lambertian ⟨0, 0, 0⟩, 1⟩ hr).2.1,
    (create_hit_info_normal_against_ray (⟨⟨0, 3, 0⟩, ⟨0, -2, 0⟩⟩ : ray_t ℝ) 1
      ⟨⟨0, 0, 0⟩, material_t.Lambertian ⟨0, 0, 0⟩, 1⟩ hr).2.2.1⟩

/-- C3 (counterexample). The sphere of radius 0 at the origin and the ray from `(0,0,-3)`
along `(0,0,1)`: `sphere_hit` with bounds `(0.001, INF_POS)` returns `true` at `t = 3`, so
`create_hit_info_for_sphere` is called there, and its outward normal is
`(at(r,3) - center) / radius` with `at(r,3) - center = (0,0,0)` and `radius = 0`: a division
of zero by zero, which has no value, so the record has no normal oriented against the ray. -/
theorem create_hit_info_zero_radius_undefined :
    sphere_hit Real.sqrt ⟨⟨0, 0, -3⟩, ⟨0, 0, 1⟩⟩ 0.001 INF_POS
        ⟨⟨0, 0, 0⟩, material_t.Lambertian ⟨0, 0, 0⟩, 0⟩ =
      some (create_hit_info_for_sphere (⟨⟨0, 0, -3⟩, ⟨0, 0, 1⟩⟩ : ray_t ℝ) 3
        ⟨⟨0, 0, 0⟩, material_t.Lambertian ⟨0, 0, 0⟩, 0⟩) ∧
    (⟨⟨0, 0, -3⟩, ⟨0, 0, 1⟩⟩ : ray_t ℝ).at_ 3 -
        (⟨⟨0, 0, 0⟩, material_t.Lambertian ⟨0, 0, 0⟩, 0⟩ : sphere_t ℝ).center = ⟨0, 0, 0⟩ ∧
    (⟨⟨0, 0, 0⟩, material_t.Lambertian ⟨0, 0, 0⟩, 0⟩ : sphere_t ℝ).radius = 0 ∧
    ((⟨⟨0, 0, -3⟩, ⟨0, 0, 1⟩⟩ : ray_t ℝ).at_ 3 -
        (⟨⟨0, 0, 0⟩, material_t.Lambertian ⟨0, 0, 0⟩, 0⟩ : sphere_t ℝ).center).divs_checked
      (⟨⟨0, 0, 0⟩, material_t.Lambertian ⟨0, 0, 0⟩, 0⟩ : sphere_t ℝ).radius = none ∧
    create_hit_info_for_sphere_checked (⟨⟨0, 0, -3⟩, ⟨0, 0, 1⟩⟩ : ray_t ℝ) 3
      ⟨⟨0, 0, 0⟩, material_t.Lambertian ⟨0, 0, 0⟩, 0⟩ = none := by
  have hd : sphere_discriminant (⟨⟨0, 0, -3⟩, ⟨0, 0, 1⟩⟩ : ray_t ℝ)
      ⟨⟨0, 0, 0⟩, material_t.Lambertian ⟨0, 0, 0⟩, 0⟩ = 0 := by
    norm_num [sphere_discriminant, dot]
  have hr : sphere_root_small Real.sqrt (⟨⟨0, 0, -3⟩, ⟨0, 0, 1⟩⟩ : ray_t ℝ)
      ⟨⟨0, 0, 0⟩, material_t.Lambertian ⟨0, 0, 0⟩, 0⟩ = 3 := by
    rw [sphere_root_small, hd]; norm_num [dot]
  refine ⟨?_, ?_, rfl, ?_, ?_⟩
  · rw [sphere_hit_some_iff, hd, hr]
    exact ⟨le_refl 0, by norm_num, by linarith [INF_POS_gt (F := ℝ)], rfl⟩
  · norm_num [ray_t.at_, vec3.muls]
  · simp [vec3.divs_checked]
  · simp [create_hit_info_for_sphere_checked, vec3.divs_checked]

end Theorems

end Raytracer
